import Mathlib

/-! # OpenSees: incremental integrator and shadow subdomain

A shallow embedding of

* `SRC/analysis/integrator/IncrementalIntegrator.cpp` (assembly of the tangent
  and of the unbalance into a `LinearSOE`, `getLastResponse`, `commit`), and
* `SRC/domain/subdomain/ShadowSubdomain.cpp` (the member functions of a proxy
  as message exchanges with its worker, the registry of proxies, and the shared
  counter that coordinates `computeTang` / `computeResidual`),

followed by theorems about the embedded functions.  Floating point values are
replaced by an exact additive structure `R`; C `int`s are `Int`.
-/

namespace OpenSees

/-! ## Numerical containers -/

/-- An `ID`: an array of integers (equation numbers, tags, message slots). -/
abbrev ID := List Int

/-- A `Vector`: an array of scalars. -/
abbrev Vector (R : Type) := List R

/-- A `Matrix`: an array of rows. -/
abbrev Matrix (R : Type) := List (List R)

/-- Read access `v(i)`; positions outside the array read as `0`. -/
def vectorAt {R : Type} [Zero R] (v : Vector R) (i : Nat) : R := v.getD i 0

/-- Read access `m(i,j)`; positions outside the array read as `0`. -/
def matrixAt {R : Type} [Zero R] (m : Matrix R) (i j : Nat) : R := (m.getD i []).getD j 0

/-- Read access `id(i)`. -/
def idAt (id : ID) (i : Nat) : Int := id.getD i 0

/-! ## Contribution sources and the analysis model -/

/-- An `FE_Element` as the integrator sees it (`FE_Element.h`): `getID()`, and
`getTangent(theIntegrator)` / `getResidual(theIntegrator)`, whose values may
depend on the integrator handed in, that is on its `statusFlag`. -/
structure FE_Element (R : Type) where
  getID : ID
  getTangent : Int → Matrix R
  getResidual : Int → Vector R

/-- A `DOF_Group` as `formNodalUnbalance` uses it: `getID()` and
`getUnbalance(theIntegrator)`. -/
structure DOF_Group (R : Type) where
  getID : ID
  getUnbalance : Int → Vector R

/-- The `AnalysisModel`: what its iterators `getFEs()` and `getDOFs()` yield, in
iteration order, and the value `commitDomain()` returns. -/
structure AnalysisModel (R : Type) where
  getFEs : List (FE_Element R)
  getDOFs : List (DOF_Group R)
  commitDomain : Int

/-- The abstract `LinearSOE` interface the integrator calls through a pointer;
`σ` is the state of the concrete system of equations. -/
structure LinearSOE (σ R : Type) where
  zeroA : σ → σ
  zeroB : σ → σ
  addA : σ → Matrix R → ID → σ × Int
  addB : σ → Vector R → ID → σ × Int
  getNumEqn : σ → Int
  getX : σ → Vector R

/-- What the integrator does to its collaborators, in program order. -/
inductive Event (R : Type) where
  | zeroA : Event R
  | zeroB : Event R
  | addA (m : Matrix R) (id : ID) (ret : Int) : Event R
  | addB (v : Vector R) (id : ID) (ret : Int) : Event R
  | getNumEqn : Event R
  | getX : Event R
  | readX (i : Nat) (loc : Int) : Event R
  | queryFE (id : ID) : Event R
  | queryDOF (id : ID) : Event R
  | commitDomain : Event R
  deriving DecidableEq, Repr

/-- An operation on the Assembly Target, without its return code. -/
inductive SOEOp (R : Type) where
  | zeroA : SOEOp R
  | zeroB : SOEOp R
  | addA (m : Matrix R) (id : ID) : SOEOp R
  | addB (v : Vector R) (id : ID) : SOEOp R
  | getNumEqn : SOEOp R
  | getX : SOEOp R
  deriving DecidableEq, Repr

/-- The Assembly Target operation an event stands for, if it is one. -/
def Event.soeOp {R : Type} : Event R → Option (SOEOp R)
  | .zeroA => some .zeroA
  | .zeroB => some .zeroB
  | .addA m id _ => some (.addA m id)
  | .addB v id _ => some (.addB v id)
  | .getNumEqn => some .getNumEqn
  | .getX => some .getX
  | .readX _ _ => none
  | .queryFE _ => none
  | .queryDOF _ => none
  | .commitDomain => none

/-- The operations performed on the Assembly Target, in order. -/
def soeOps {R : Type} (tr : List (Event R)) : List (SOEOp R) := tr.filterMap Event.soeOp

/-- An event is a failed accumulation: an `addA` or `addB` that returned a
negative code. -/
def Event.failed {R : Type} : Event R → Bool
  | .addA _ _ ret => decide (ret < 0)
  | .addB _ _ ret => decide (ret < 0)
  | _ => false

/-- An event queries a Contribution Source. -/
def Event.isQuery {R : Type} : Event R → Bool
  | .queryFE _ => true
  | .queryDOF _ => true
  | _ => false

/-! ## IncrementalIntegrator -/

/-- The fields of `IncrementalIntegrator`.  A null pointer is `none`; a linked
`LinearSOE` is represented by its current state. -/
structure IncrementalIntegrator (σ R : Type) where
  statusFlag : Int
  theSOE : Option σ
  theAnalysisModel : Option (AnalysisModel R)

/-- The result of a member function: the integrator afterwards, the returned
`int`, and the events of the call. -/
structure Outcome (σ R : Type) where
  integ : IncrementalIntegrator σ R
  ret : Int
  trace : List (Event R)

/-- The running state of one assembly loop. -/
structure Pass (σ R : Type) where
  soe : σ
  res : Int
  trace : List (Event R)

/-- The value of `CURRENT_TANGENT`, declared outside the sources at hand. -/
def CURRENT_TANGENT : Int := 0

/-- Constructor: `statusFlag(CURRENT_TANGENT), theSOE(0), theAnalysisModel(0)`. -/
def IncrementalIntegrator.new (σ R : Type) : IncrementalIntegrator σ R :=
  { statusFlag := CURRENT_TANGENT, theSOE := none, theAnalysisModel := none }

/-- Links the model and the system of equations (`setLinks`). -/
def setLinks {σ R : Type} (I : IncrementalIntegrator σ R) (theModel : AnalysisModel R)
    (theLinSOE : σ) : IncrementalIntegrator σ R :=
  { I with theAnalysisModel := some theModel, theSOE := some theLinSOE }

/-- One iteration of the loop of `formTangent`:
`if (theSOE->addA(elePtr->getTangent(this), elePtr->getID()) < 0) result = -3;`. -/
def formTangentStep {σ R : Type} (ops : LinearSOE σ R) (flag : Int) (p : Pass σ R)
    (e : FE_Element R) : Pass σ R :=
  let r := ops.addA p.soe (e.getTangent flag) e.getID
  { soe := r.1
    res := if r.2 < 0 then -3 else p.res
    trace := p.trace ++ [Event.queryFE e.getID, Event.addA (e.getTangent flag) e.getID r.2] }

/-- The member function `formTangent(int statFlag)`. -/
def formTangent {σ R : Type} (ops : LinearSOE σ R) (I : IncrementalIntegrator σ R)
    (statFlag : Int) : Outcome σ R :=
  let I1 : IncrementalIntegrator σ R := { I with statusFlag := statFlag }
  match I1.theAnalysisModel, I1.theSOE with
  | some model, some soe =>
    let p := model.getFEs.foldl (formTangentStep ops I1.statusFlag)
      { soe := ops.zeroA soe, res := 0, trace := [Event.zeroA] }
    { integ := { I1 with theSOE := some p.soe }, ret := p.res, trace := p.trace }
  | _, _ => { integ := I1, ret := -1, trace := [] }

/-- One iteration of the loop of `formElementResidual`. -/
def formElementResidualStep {σ R : Type} (ops : LinearSOE σ R) (flag : Int) (p : Pass σ R)
    (e : FE_Element R) : Pass σ R :=
  let r := ops.addB p.soe (e.getResidual flag) e.getID
  { soe := r.1
    res := if r.2 < 0 then -2 else p.res
    trace := p.trace ++ [Event.queryFE e.getID, Event.addB (e.getResidual flag) e.getID r.2] }

/-- The member function `formElementResidual`, on the dereferenced model and
system of equations. -/
def formElementResidual {σ R : Type} (ops : LinearSOE σ R) (flag : Int)
    (model : AnalysisModel R) (soe : σ) : Pass σ R :=
  model.getFEs.foldl (formElementResidualStep ops flag) { soe := soe, res := 0, trace := [] }

/-- One iteration of the loop of `formNodalUnbalance`. -/
def formNodalUnbalanceStep {σ R : Type} (ops : LinearSOE σ R) (flag : Int) (p : Pass σ R)
    (d : DOF_Group R) : Pass σ R :=
  let r := ops.addB p.soe (d.getUnbalance flag) d.getID
  { soe := r.1
    res := if r.2 < 0 then -2 else p.res
    trace := p.trace ++ [Event.queryDOF d.getID, Event.addB (d.getUnbalance flag) d.getID r.2] }

/-- The member function `formNodalUnbalance`, on the dereferenced model and
system of equations. -/
def formNodalUnbalance {σ R : Type} (ops : LinearSOE σ R) (flag : Int)
    (model : AnalysisModel R) (soe : σ) : Pass σ R :=
  model.getDOFs.foldl (formNodalUnbalanceStep ops flag) { soe := soe, res := 0, trace := [] }

/-- The member function `formUnbalance`. -/
def formUnbalance {σ R : Type} (ops : LinearSOE σ R) (I : IncrementalIntegrator σ R) :
    Outcome σ R :=
  match I.theAnalysisModel, I.theSOE with
  | some model, some soe =>
    let p1 := formElementResidual ops I.statusFlag model (ops.zeroB soe)
    if p1.res < 0 then
      { integ := { I with theSOE := some p1.soe }, ret := -1, trace := Event.zeroB :: p1.trace }
    else
      let p2 := formNodalUnbalance ops I.statusFlag model p1.soe
      if p2.res < 0 then
        { integ := { I with theSOE := some p2.soe }, ret := -2
          trace := Event.zeroB :: (p1.trace ++ p2.trace) }
      else
        { integ := { I with theSOE := some p2.soe }, ret := 0
          trace := Event.zeroB :: (p1.trace ++ p2.trace) }
  | _, _ => { integ := I, ret := -1, trace := [] }

/-- The running state of the loop of `getLastResponse`. -/
structure Response (R : Type) where
  result : Vector R
  res : Int
  trace : List (Event R)

/-- The loop `for (int i=0; i<id.Size(); i++)` of `getLastResponse`, from
position `i` on; `ids` holds `id(i), id(i+1), ...`.  The assignment
`result(i) = v` is `List.set`, which leaves a `result` shorter than `id`
untouched at the missing positions; every read `X(loc)` is logged. -/
def getLastResponseLoop {R : Type} [Zero R] (size : Int) (X : Vector R) :
    Nat → List Int → Response R → Response R
  | _, [], s => s
  | i, loc :: rest, s =>
    if loc < 0 then
      getLastResponseLoop size X (i + 1) rest { s with result := s.result.set i 0 }
    else if loc ≤ size then
      getLastResponseLoop size X (i + 1) rest
        { s with result := s.result.set i (vectorAt X loc.toNat)
                 trace := s.trace ++ [Event.readX i loc] }
    else
      getLastResponseLoop size X (i + 1) rest { s with res := -2 }

/-- The member function `getLastResponse(Vector &result, const ID &id)`; the
first component of the result is `result` after the call. -/
def getLastResponse {σ R : Type} [Zero R] (ops : LinearSOE σ R) (I : IncrementalIntegrator σ R)
    (result : Vector R) (id : ID) : Response R :=
  match I.theSOE with
  | none => { result := result, res := -1, trace := [] }
  | some soe =>
    getLastResponseLoop (ops.getNumEqn soe - 1) (ops.getX soe) 0 id
      { result := result, res := 0, trace := [Event.getNumEqn, Event.getX] }

/-- The member function `newStep(double deltaT)`. -/
def newStep {σ R : Type} (I : IncrementalIntegrator σ R) : Outcome σ R :=
  { integ := I, ret := 0, trace := [] }

/-- The member function `initialize` of the integrator (that name is a reserved
word). -/
def integratorInit {σ R : Type} (I : IncrementalIntegrator σ R) : Outcome σ R :=
  { integ := I, ret := 0, trace := [] }

/-- The member function `commit`. -/
def commit {σ R : Type} (I : IncrementalIntegrator σ R) : Outcome σ R :=
  match I.theAnalysisModel with
  | none => { integ := I, ret := -1, trace := [] }
  | some model => { integ := I, ret := model.commitDomain, trace := [Event.commitDomain] }

/-- The member function `revertToLastStep`. -/
def revertToLastStep {σ R : Type} (I : IncrementalIntegrator σ R) : Outcome σ R :=
  { integ := I, ret := 0, trace := [] }

/-- The call sequence "formTangent followed by formUnbalance" on one integrator. -/
def assemble {σ R : Type} (ops : LinearSOE σ R) (I : IncrementalIntegrator σ R)
    (statFlag : Int) : Outcome σ R :=
  formUnbalance ops (formTangent ops I statFlag).integ

/-! ## The Assembly Target -/

/-- Modelled from the spec: the Assembly Target, a concrete `LinearSOE` (the
class and its subclasses are declared outside the sources at hand).  It holds a
global matrix `A` and vector `b` for `n` equations and the solution `X`. -/
structure AssemblyTarget (R : Type) where
  n : Nat
  A : Nat → Nat → R
  b : Nat → R
  X : Vector R

/-- Modelled from the spec: an equation index is inside `[0, n)`. -/
def inBounds (n : Nat) (g : Int) : Bool := decide (0 ≤ g ∧ g < (n : Int))

/-- Modelled from the spec: `A(r,c) += v`. -/
def bumpA {R : Type} [Add R] (A : Nat → Nat → R) (r c : Nat) (v : R) : Nat → Nat → R :=
  fun r' c' => if r' = r ∧ c' = c then A r' c' + v else A r' c'

/-- Modelled from the spec: `b(r) += v`. -/
def bumpB {R : Type} [Add R] (b : Nat → R) (r : Nat) (v : R) : Nat → R :=
  fun r' => if r' = r then b r' + v else b r'

/-- Modelled from the spec: the accumulation loops of `addA(m, id)`: every local
pair `(i, j)` adds `m(i,j)` at `(id(i), id(j))`, so duplicate indices sum; a
pair with an index outside `[0, n)` is not stored. -/
def accumulateA {R : Type} [Zero R] [Add R] (n : Nat) (m : Matrix R) (id : ID)
    (A : Nat → Nat → R) : Nat → Nat → R :=
  (List.range id.length).foldl
    (fun A1 i =>
      (List.range id.length).foldl
        (fun A2 j =>
          if inBounds n (idAt id i) && inBounds n (idAt id j) then
            bumpA A2 (idAt id i).toNat (idAt id j).toNat (matrixAt m i j)
          else A2)
        A1)
    A

/-- Modelled from the spec: the accumulation loop of `addB(v, id)`. -/
def accumulateB {R : Type} [Zero R] [Add R] (n : Nat) (v : Vector R) (id : ID)
    (b : Nat → R) : Nat → R :=
  (List.range id.length).foldl
    (fun b1 i =>
      if inBounds n (idAt id i) then bumpB b1 (idAt id i).toNat (vectorAt v i) else b1)
    b

/-- Modelled from the spec: the return code of an accumulation, an error (`-1`)
when some index of the mapping is outside `[0, n)`. -/
def accumulateCode (n : Nat) (id : ID) : Int := if id.all (inBounds n) then 0 else -1

/-- Modelled from the spec: the Assembly Target as a `LinearSOE`, with explicit
zero and accumulate operations (`LinearSOE` is declared outside the sources at
hand). -/
def assemblyTarget (R : Type) [Zero R] [Add R] : LinearSOE (AssemblyTarget R) R where
  zeroA := fun T => { T with A := fun _ _ => 0 }
  zeroB := fun T => { T with b := fun _ => 0 }
  addA := fun T m id => ({ T with A := accumulateA T.n m id T.A }, accumulateCode T.n id)
  addB := fun T v id => ({ T with b := accumulateB T.n v id T.b }, accumulateCode T.n id)
  getNumEqn := fun T => (T.n : Int)
  getX := fun T => T.X

/-! ## Reference definitions, following the wording of the specification -/

/-- The contribution of one local tangent `m` with mapping `id` to the global
entry `(r, c)`: the sum of `m(i,j)` over the local pairs with `id(i) = r` and
`id(j) = c`. -/
def localTangentAt {R : Type} [Zero R] [Add R] (m : Matrix R) (id : ID) (r c : Nat) : R :=
  ((List.range id.length).map fun i =>
    ((List.range id.length).map fun j =>
      if idAt id i = (r : Int) ∧ idAt id j = (c : Int) then matrixAt m i j else 0).sum).sum

/-- The reference sum for the matrix: over every source and every local pair
mapped to `(r, c)`. -/
def referenceA {R : Type} [Zero R] [Add R] (fes : List (FE_Element R)) (flag : Int)
    (r c : Nat) : R :=
  (fes.map fun e => localTangentAt (e.getTangent flag) e.getID r c).sum

/-- The contribution of one local vector `v` with mapping `id` to the global
entry `r`. -/
def localVectorAt {R : Type} [Zero R] [Add R] (v : Vector R) (id : ID) (r : Nat) : R :=
  ((List.range id.length).map fun i => if idAt id i = (r : Int) then vectorAt v i else 0).sum

/-- The reference sum for the vector: element residuals, then nodal unbalances. -/
def referenceB {R : Type} [Zero R] [Add R] (model : AnalysisModel R) (flag : Int) (r : Nat) : R :=
  (model.getFEs.map fun e => localVectorAt (e.getResidual flag) e.getID r).sum +
    (model.getDOFs.map fun d => localVectorAt (d.getUnbalance flag) d.getID r).sum

/-- Every index of the mapping is inside `[0, n)`. -/
def mappingInRange (n : Nat) (id : ID) : Prop := ∀ g ∈ id, 0 ≤ g ∧ g < (n : Int)

instance (n : Nat) (id : ID) : Decidable (mappingInRange n id) := by
  unfold mappingInRange
  infer_instance

/-- The entry `A(r,c)` of the linked Assembly Target after a call (`0` when
none is linked). -/
def matrixOf {R : Type} [Zero R] (o : Outcome (AssemblyTarget R) R) (r c : Nat) : R :=
  match o.integ.theSOE with
  | some T => T.A r c
  | none => 0

/-- The entry `b(r)` of the linked Assembly Target after a call (`0` when none
is linked). -/
def vectorOf {R : Type} [Zero R] (o : Outcome (AssemblyTarget R) R) (r : Nat) : R :=
  match o.integ.theSOE with
  | some T => T.b r
  | none => 0

/-! ## ShadowSubdomain: the coordination counter -/

/-- The operation codes `ShadowActorSubdomain_*` written into slot 0 of a
header.  Their values are declared in `ShadowActorSubdomain.h`, outside the
sources at hand, so they are parameters of the embedding. -/
structure ShadowActorCodes where
  setTag : Int
  newStep : Int
  buildSubdomain : Int
  getRemoteData : Int
  addElement : Int
  addNode : Int
  addExternalNode : Int
  addSP_Constraint : Int
  addMP_Constraint : Int
  addLoadPattern : Int
  addSP_ConstraintToPattern : Int
  addNodalLoadToPattern : Int
  addElementalLoadToPattern : Int
  removeElement : Int
  removeNode : Int
  removeSP_Constraint : Int
  removeMP_Constraint : Int
  removeLoadPattern : Int
  removeNodalLoadFromPattern : Int
  removeElementalLoadFromPattern : Int
  removeSP_ConstraintFromPattern : Int
  getElementPtr : Int
  getNodePtr : Int
  applyLoad : Int
  setCommitTag : Int
  setCurrentTime : Int
  setCommittedTime : Int
  setLoadConstant : Int
  update : Int
  commit : Int
  revertToLastCommit : Int
  revertToStart : Int
  setDomainDecompAnalysis : Int
  setAnalysisAlgorithm : Int
  setAnalysisIntegrator : Int
  setAnalysisLinearSOE : Int
  invokeChangeOnAnalysis : Int
  clearAnalysis : Int
  computeTang : Int
  computeResidual : Int
  computeNodalResponse : Int
  getTang : Int
  getResistingForce : Int
  getCost : Int
  Print : Int
  DIE : Int

/-- An `Element` as the proxy uses it: `getTag()`, `getClassTag()`,
`getDbTag()`. -/
structure Element where
  tag : Int
  classTag : Int
  dbTag : Int
  deriving DecidableEq, Repr

/-- A `Node` as the proxy uses it: `getTag()`, `getClassTag()`, `getDbTag()`,
`getNumberDOF()`. -/
structure Node where
  tag : Int
  classTag : Int
  dbTag : Int
  numberDOF : Int
  deriving DecidableEq, Repr

/-- An `SP_Constraint` as the proxy uses it. -/
structure SP_Constraint where
  tag : Int
  classTag : Int
  dbTag : Int
  deriving DecidableEq, Repr

/-- An `MP_Constraint` as the proxy uses it. -/
structure MP_Constraint where
  tag : Int
  classTag : Int
  dbTag : Int
  deriving DecidableEq, Repr

/-- A `LoadPattern` as the proxy uses it. -/
structure LoadPattern where
  tag : Int
  classTag : Int
  dbTag : Int
  deriving DecidableEq, Repr

/-- A `PartitionedModelBuilder` as the proxy uses it: `getClassTag()`. -/
structure PartitionedModelBuilder where
  classTag : Int
  deriving DecidableEq, Repr

/-- A `NodalLoad` as the proxy uses it. -/
structure NodalLoad where
  tag : Int
  classTag : Int
  dbTag : Int
  deriving DecidableEq, Repr

/-- An `ElementalLoad` as the proxy uses it. -/
structure ElementalLoad where
  tag : Int
  classTag : Int
  dbTag : Int
  deriving DecidableEq, Repr

/-- A `DomainDecompositionAnalysis` as the proxy uses it: `getClassTag()` and
`doesIndependentAnalysis()`. -/
structure DomainDecompositionAnalysis where
  classTag : Int
  doesIndependentAnalysis : Bool
  deriving DecidableEq, Repr

/-- The objects that cross the channel by `sendObject` / `recvObject`.  Of an
`EquiSolnAlgo`, an `IncrementalIntegrator` and a `LinearSOE` the proxy only
uses `getClassTag()`, so each is represented by its class tag. -/
inductive MovableObject where
  | element (e : Element) : MovableObject
  | node (n : Node) : MovableObject
  | sp (c : SP_Constraint) : MovableObject
  | mp (c : MP_Constraint) : MovableObject
  | pattern (l : LoadPattern) : MovableObject
  | builder (b : PartitionedModelBuilder) : MovableObject
  | nodalLoad (l : NodalLoad) : MovableObject
  | elementalLoad (l : ElementalLoad) : MovableObject
  | analysis (a : DomainDecompositionAnalysis) : MovableObject
  | algorithm (classTag : Int) : MovableObject
  | integrator (classTag : Int) : MovableObject
  | linearSOE (classTag : Int) : MovableObject
  deriving DecidableEq, Repr

/-- A message the worker has put on the channel: an `ID`, an object, a
`Vector` or a `Matrix` (the numbers inside vectors and matrices are not
modelled). -/
inductive Wire where
  | id (data : ID) : Wire
  | object (obj : MovableObject) : Wire
  | vector : Wire
  | matrix : Wire
  deriving DecidableEq, Repr

/-- The three local tag indices of a proxy. -/
inductive Index where
  | elements : Index
  | nodes : Index
  | externalNodes : Index
  deriving DecidableEq, Repr

/-- The data members of one `ShadowSubdomain` that the embedded member
functions touch: its tag, the shared header buffer `msgData(4)`, the local tag
indices and the cached counters, as the constructors initialise them; the
`Domain` flag that `domainChange()` sets; the tags the base `Subdomain` holds in
its own containers; the sizes of `theVector` and `theMatrix` (`none` for a null
pointer); `incoming`, the messages the channel will deliver next; and `theDDA`,
the analysis the base `Subdomain` hands out by `getDDAnalysis()` (`none` for a
null pointer). -/
structure ShadowSubdomain where
  tag : Int
  msgData : ID
  theElements : ID
  theNodes : ID
  theExternalNodes : ID
  theLoadCases : ID
  numDOF : Int
  numElements : Int
  numNodes : Int
  numExternalNodes : Int
  numSPs : Int
  numMPs : Int
  numLoadPatterns : Int
  buildRemote : Bool
  gotRemoteData : Bool
  hasDomainChangedFlag : Bool
  theSPs : List Int
  theMPs : List Int
  theLoadPatterns : List Int
  theVector : Option Int
  theMatrix : Option Int
  incoming : List Wire
  theDDA : Option DomainDecompositionAnalysis
  deriving DecidableEq, Repr

/-- What one proxy call does, in program order: a member function is entered,
the fan-out loop over the registry is reached, a header is sent (`sendID`) with
the content of `msgData` at that moment; further an `ID`, object, vector or
matrix is sent or received, a tag is removed from a local index
(`removeValue`), an object is destroyed (`delete`), a `WARNING` line is written
to `opserr`. -/
inductive Step where
  | enter (self : Nat) : Step
  | fanOut (self : Nat) : Step
  | sendID (self : Nat) (data : ID) : Step
  | recvID (self : Nat) (data : ID) : Step
  | sendObject (self : Nat) (obj : MovableObject) : Step
  | recvObject (self : Nat) (obj : MovableObject) : Step
  | sendVector (self : Nat) : Step
  | recvVector (self : Nat) : Step
  | recvMatrix (self : Nat) : Step
  | removeValue (self : Nat) (index : Index) (tag : Int) : Step
  | delete (self : Nat) (obj : MovableObject) : Step
  | warning (self : Nat) : Step
  deriving DecidableEq, Repr

/-- The process-wide state: the static members `count`, `numShadowSubdomains`
and `theShadowSubdomains` (an array of pointers), the storage of the proxy
objects (a pointer is the position of a cell in `proxies`), the cells whose
object has been destroyed (`freed`: a pointer to such a cell dangles until the
cell is handed to a new object), and the steps taken so far. -/
structure World where
  count : Int
  numShadowSubdomains : Int
  theShadowSubdomains : List Nat
  proxies : List ShadowSubdomain
  freed : List Nat
  trace : List Step
  deriving DecidableEq, Repr

/-- The static initialisers: `count = 0`, `numShadowSubdomains = 0`,
`theShadowSubdomains = 0`. -/
def World.initial : World :=
  { count := 0, numShadowSubdomains := 0, theShadowSubdomains := [], proxies := [], freed := []
    trace := [] }

/-- The member initialisers shared by both constructors. -/
def ShadowSubdomain.fresh (tag : Int) : ShadowSubdomain :=
  { tag := tag, msgData := [0, 0, 0, 0], theElements := [], theNodes := [],
    theExternalNodes := [], theLoadCases := [], numDOF := 0, numElements := 0, numNodes := 0,
    numExternalNodes := 0, numSPs := 0, numMPs := 0, numLoadPatterns := 0,
    buildRemote := false, gotRemoteData := false, hasDomainChangedFlag := false,
    theSPs := [], theMPs := [], theLoadPatterns := [], theVector := none, theMatrix := none,
    incoming := [], theDDA := none }

/-- The storage a new object is constructed in.  The source leaves it to the
caller of the constructor (the `new` expression or a declaration), so the
pointer `this` is a parameter: it is either a cell never used before, the one
just past the cells in use, or the cell of a destroyed object, which is live
again afterwards; any other pointer is no storage for a new object (`none`). -/
def World.allocate (w : World) (this : Nat) (p : ShadowSubdomain) : Option World :=
  if this = w.proxies.length then some { w with proxies := w.proxies ++ [p] }
  else if this ∈ w.freed then
    some { w with proxies := w.proxies.set this p
                  freed := w.freed.filter (fun q => decide (q ≠ this)) }
  else none

/-- The constructor `ShadowSubdomain(tag, theChannel, theObjectBroker)` run on
the storage `this`: the members are initialised, the registry is copied into an
array one longer and `this` is stored last. -/
def ShadowSubdomain.construct (w : World) (tag : Int) (this : Nat) : Option World :=
  match w.allocate this (ShadowSubdomain.fresh tag) with
  | none => none
  | some w1 =>
    some { w1 with numShadowSubdomains := w1.numShadowSubdomains + 1
                   theShadowSubdomains :=
                     w1.theShadowSubdomains.take w1.numShadowSubdomains.toNat ++ [this] }

/-- The assignments `msgData(0) = code; msgData(1) = this->getTag();` followed by
`this->sendID(msgData)`, on the proxy `self`; `none` when `self` points to no
proxy. -/
def sendTagged (w : World) (self : Nat) (code : Int) : Option World :=
  match w.proxies[self]? with
  | none => none
  | some p =>
    let data := (p.msgData.set 0 code).set 1 p.tag
    some { w with proxies := w.proxies.set self { p with msgData := data }
                  trace := w.trace ++ [Step.sendID self data] }

/-- The assignment `msgData(0) = code;` followed by `this->sendID(msgData)`, on
the proxy `self`; `none` when `self` points to no proxy. -/
def sendCode (w : World) (self : Nat) (code : Int) : Option World :=
  match w.proxies[self]? with
  | none => none
  | some p =>
    let data := p.msgData.set 0 code
    some { w with proxies := w.proxies.set self { p with msgData := data }
                  trace := w.trace ++ [Step.sendID self data] }

/-- The member function `computeTang` called on the proxy `self`.  The nested
calls of the fan-out make the function recursive; `fuel` bounds the nesting
depth and `none` means the fuel ran out or the call has no defined outcome: a
member function called through a pointer to a destroyed proxy (the first test)
or through a pointer to no cell.  The C++ function always returns `0`. -/
def computeTang (codes : ShadowActorCodes) : Nat → World → Nat → Option World
  | 0, _, _ => none
  | fuel + 1, w, self =>
    if self ∈ w.freed then none else
    let w1 : World := { w with count := w.count + 1, trace := w.trace ++ [Step.enter self] }
    if w1.count = 1 then
      match sendTagged w1 self codes.computeTang with
      | none => none
      | some w2 =>
        (w2.theShadowSubdomains.take w2.numShadowSubdomains.toNat).foldlM
          (fun (w3 : World) (theShadow : Nat) =>
            if theShadow ≠ self then computeTang codes fuel w3 theShadow else some w3)
          { w2 with trace := w2.trace ++ [Step.fanOut self] }
    else if w1.count ≤ w1.numShadowSubdomains then
      sendTagged w1 self codes.computeTang
    else if w1.count = 2 * w1.numShadowSubdomains - 1 then
      some { w1 with count := 0 }
    else
      some w1

/-- The member function `computeResidual` called on the proxy `self`; as
`computeTang`, except that only slot 0 of the header is assigned. -/
def computeResidual (codes : ShadowActorCodes) : Nat → World → Nat → Option World
  | 0, _, _ => none
  | fuel + 1, w, self =>
    if self ∈ w.freed then none else
    let w1 : World := { w with count := w.count + 1, trace := w.trace ++ [Step.enter self] }
    if w1.count = 1 then
      match sendCode w1 self codes.computeResidual with
      | none => none
      | some w2 =>
        (w2.theShadowSubdomains.take w2.numShadowSubdomains.toNat).foldlM
          (fun (w3 : World) (theShadow : Nat) =>
            if theShadow ≠ self then computeResidual codes fuel w3 theShadow else some w3)
          { w2 with trace := w2.trace ++ [Step.fanOut self] }
    else if w1.count ≤ w1.numShadowSubdomains then
      sendCode w1 self codes.computeResidual
    else if w1.count = 2 * w1.numShadowSubdomains - 1 then
      some { w1 with count := 0 }
    else
      some w1

/-- The driver calling `computeTang` on the proxies `ps`, one after the other. -/
def driveTang (codes : ShadowActorCodes) (fuel : Nat) (w : World) (ps : List Nat) :
    Option World :=
  ps.foldlM (fun w1 p => computeTang codes fuel w1 p) w

/-- The driver calling `computeResidual` on the proxies `ps`, one after the
other. -/
def driveResidual (codes : ShadowActorCodes) (fuel : Nat) (w : World) (ps : List Nat) :
    Option World :=
  ps.foldlM (fun w1 p => computeResidual codes fuel w1 p) w

/-- Successive passes of `computeTang` calls. -/
def passesTang (codes : ShadowActorCodes) (fuel : Nat) (w : World) (passes : List (List Nat)) :
    Option World :=
  passes.foldlM (fun w1 ps => driveTang codes fuel w1 ps) w

/-- Successive passes of `computeResidual` calls. -/
def passesResidual (codes : ShadowActorCodes) (fuel : Nat) (w : World)
    (passes : List (List Nat)) : Option World :=
  passes.foldlM (fun w1 ps => driveResidual codes fuel w1 ps) w

/-- The world after `k` proxies with tags `1, ..., k` have been constructed,
each in storage never used before. -/
def worldOf : Nat → World
  | 0 => World.initial
  | k + 1 =>
    (ShadowSubdomain.construct (worldOf k) ((k : Int) + 1) (worldOf k).proxies.length).getD
      (worldOf k)

/-- The proxy that sent a header, for a `sendID` step. -/
def Step.sender : Step → Option Nat
  | .sendID self _ => some self
  | _ => none

/-- Slot 0 (the operation code) of a sent header, for a `sendID` step. -/
def Step.opcode : Step → Option Int
  | .sendID _ data => some (idAt data 0)
  | _ => none

/-- The proxy entered, for an `enter` step. -/
def Step.entered : Step → Option Nat
  | .enter self => some self
  | _ => none

/-- The proxy that reached the fan-out loop, for a `fanOut` step. -/
def Step.fanner : Step → Option Nat
  | .fanOut self => some self
  | _ => none

/-- The control flow that `computeTang` and `computeResidual` share, with the
"assign the header and send it" part as a parameter.  It is used to reason
about both member functions at once. -/
def coordinate (send : World → Nat → Option World) : Nat → World → Nat → Option World
  | 0, _, _ => none
  | fuel + 1, w, self =>
    if self ∈ w.freed then none else
    let w1 : World := { w with count := w.count + 1, trace := w.trace ++ [Step.enter self] }
    if w1.count = 1 then
      match send w1 self with
      | none => none
      | some w2 =>
        (w2.theShadowSubdomains.take w2.numShadowSubdomains.toNat).foldlM
          (fun (w3 : World) (theShadow : Nat) =>
            if theShadow ≠ self then coordinate send fuel w3 theShadow else some w3)
          { w2 with trace := w2.trace ++ [Step.fanOut self] }
    else if w1.count ≤ w1.numShadowSubdomains then
      send w1 self
    else if w1.count = 2 * w1.numShadowSubdomains - 1 then
      some { w1 with count := 0 }
    else
      some w1

/-- The registry holds `k` distinct pointers to existing proxies, every proxy
has its 4-slot header buffer, and no pointer dangles (no cell is that of a
destroyed proxy). -/
structure Registered (w : World) (k : Nat) : Prop where
  num : w.numShadowSubdomains = (k : Int)
  len : w.theShadowSubdomains.length = k
  nodup : w.theShadowSubdomains.Nodup
  valid : ∀ q ∈ w.theShadowSubdomains, q < w.proxies.length
  msg : ∀ p ∈ w.proxies, p.msgData.length = 4
  alive : w.freed = []

/-- A send routine writes `code` into slot 0 of the header of the calling proxy
and logs one `sendID`, touching nothing else. -/
def SendsCode (send : World → Nat → Option World) (code : Int) : Prop :=
  ∀ (w : World) (self : Nat) (p : ShadowSubdomain), w.proxies[self]? = some p →
    p.msgData.length = 4 →
    ∃ (p1 : ShadowSubdomain) (data : ID),
      send w self = some { w with proxies := w.proxies.set self p1
                                  trace := w.trace ++ [Step.sendID self data] } ∧
      idAt data 0 = code ∧ p1.msgData.length = 4

/-- A summary of the steps of some calls: the proxies entered, the proxies that
sent a header, the proxies that reached the fan-out loop (each in order), and
the fact that every header sent carries `code` in slot 0. -/
structure PassTrace (tr : List Step) (code : Int) (entered senders fanners : List Nat) :
    Prop where
  ent : tr.filterMap Step.entered = entered
  snd : tr.filterMap Step.sender = senders
  fan : tr.filterMap Step.fanner = fanners
  op : ∀ s ∈ tr, ∀ c, s.opcode = some c → c = code

/-- The steps of one good pass over the registry `reg`: the headers sent come
one from each registered proxy (so there are as many as proxies), each carries
`code` in slot 0, and the fan-out loop is reached exactly once. -/
def OnePass (reg : List Nat) (code : Int) (tr : List Step) : Prop :=
  (tr.filterMap Step.sender).Perm reg ∧ (tr.filterMap Step.fanner).length = 1 ∧
    ∀ s ∈ tr, ∀ c, s.opcode = some c → c = code

/-! ## ShadowSubdomain: the member functions of one proxy -/

/-- The result of a member function that returns: the proxy afterwards, the
steps of the call, and the returned value. -/
structure Call (α : Type) where
  proxy : ShadowSubdomain
  steps : List Step
  value : α

/-- How a member function ends: it returns to its caller, or it terminates the
process with `exit(code)`. -/
inductive Termination (α : Type) where
  | returned (c : Call α) : Termination α
  | exited (code : Int) (proxy : ShadowSubdomain) (steps : List Step) : Termination α

/-- The call handed a value back to its caller. -/
def Termination.value? {α : Type} : Termination α → Option α
  | .returned c => some c.value
  | .exited _ _ _ => none

/-- The steps taken before the call ended. -/
def Termination.steps {α : Type} : Termination α → List Step
  | .returned c => c.steps
  | .exited _ _ steps => steps

/-- The proxy when the call ended. -/
def Termination.proxy {α : Type} : Termination α → ShadowSubdomain
  | .returned c => c.proxy
  | .exited _ p _ => p

/-- The call ended in `exit`. -/
def Termination.isFatal {α : Type} : Termination α → Bool
  | .returned _ => false
  | .exited _ _ _ => true

/-- A step puts a message on the channel. -/
def Step.isSend : Step → Bool
  | .sendID _ _ => true
  | .sendObject _ _ => true
  | .sendVector _ => true
  | _ => false

/-- A step takes a message from the channel. -/
def Step.isRecv : Step → Bool
  | .recvID _ _ => true
  | .recvObject _ _ => true
  | .recvVector _ => true
  | .recvMatrix _ => true
  | _ => false

/-- The messages sent during some steps, in order. -/
def sent (steps : List Step) : List Step := steps.filter Step.isSend

/-- The messages received during some steps, in order. -/
def received (steps : List Step) : List Step := steps.filter Step.isRecv

/-- A step is a header whose slot 0 holds `code`. -/
def Step.isRequest (code : Int) : Step → Bool
  | .sendID _ data => decide (idAt data 0 = code)
  | _ => false

/-- Modelled from the spec: the assignment `id[i] = v` of the class `ID`, which
is declared outside the sources at hand.  Inside the array it overwrites the
entry; past the end it enlarges the array by entries `0` up to position `i`
(the source relies on it: `// this will resize`); a negative position is
undefined (`none`). -/
def idAssign (l : ID) (i : Int) (v : Int) : Option ID :=
  if i < 0 then none
  else if i.toNat < l.length then some (l.set i.toNat v)
  else some (l ++ List.replicate (i.toNat - l.length) 0 ++ [v])

/-- Modelled from the spec: `ID::removeValue(tag)`, declared outside the sources
at hand ("remove tag from local index"): the index without the tag, and the
location the tag had, `-1` when it was not in the index. -/
def idRemoveValue (l : ID) (tag : Int) : ID × Int :=
  (l.filter (fun t => decide (t ≠ tag)), if tag ∈ l then (l.indexOf tag : Int) else -1)

/-- Modelled from the spec: `Domain::domainChange()`, defined outside the
sources at hand, marks the partition changed. -/
def domainChange (p : ShadowSubdomain) : ShadowSubdomain :=
  { p with hasDomainChangedFlag := true }

/-- Modelled from the spec: `recvID` into an `ID` of `size` entries, through the
channel (declared outside the sources at hand).  Messages are consumed once, in
the order the worker sent them; the call blocks (`none`) unless the next message
is an `ID` of that size. -/
def recvID (p : ShadowSubdomain) (size : Nat) : Option (ShadowSubdomain × ID) :=
  match p.incoming with
  | Wire.id data :: rest =>
    if data.length = size then some ({ p with incoming := rest }, data) else none
  | _ => none

/-- Modelled from the spec: `recvObject`, through the channel; the call blocks
(`none`) unless the next message is an object. -/
def recvObject (p : ShadowSubdomain) : Option (ShadowSubdomain × MovableObject) :=
  match p.incoming with
  | Wire.object obj :: rest => some ({ p with incoming := rest }, obj)
  | _ => none

/-- Modelled from the spec: `recvMatrix`, through the channel; the call blocks
(`none`) unless the next message is a matrix. -/
def recvMatrix (p : ShadowSubdomain) : Option ShadowSubdomain :=
  match p.incoming with
  | Wire.matrix :: rest => some { p with incoming := rest }
  | _ => none

/-- Modelled from the spec: `recvVector`, through the channel; the call blocks
(`none`) unless the next message is a vector. -/
def recvVector (p : ShadowSubdomain) : Option ShadowSubdomain :=
  match p.incoming with
  | Wire.vector :: rest => some { p with incoming := rest }
  | _ => none

/-- The `FEM_ObjectBroker` as the proxy uses it: whether `getNewElement` and
`getNewNode` return an object (and not `0`) for a class tag. -/
structure FEM_ObjectBroker where
  getNewElement : Int → Bool
  getNewNode : Int → Bool

/-- The member function `buildSubdomain(numSubdomains, theBuilder)`. -/
def buildSubdomain (codes : ShadowActorCodes) (self : Nat) (p : ShadowSubdomain)
    (numSubdomains : Int) (theBuilder : PartitionedModelBuilder) : Call Int :=
  let p1 : ShadowSubdomain := { p with buildRemote := true, gotRemoteData := false }
  let data := (((p1.msgData.set 0 codes.buildSubdomain).set 1 theBuilder.classTag).set 2
    numSubdomains).set 3 p1.tag
  { proxy := domainChange { p1 with msgData := data }
    steps := [Step.sendID self data, Step.sendObject self (MovableObject.builder theBuilder)]
    value := 0 }

/-- The member function `getRemoteData`; `none` when a receive blocks or the
resizing assignment is undefined. -/
def getRemoteData (codes : ShadowActorCodes) (self : Nat) (p : ShadowSubdomain) :
    Option (Call Int) :=
  if p.buildRemote = true ∧ p.gotRemoteData = false then
    let request := p.msgData.set 0 codes.getRemoteData
    match recvID { p with msgData := request } request.length with
    | none => none
    | some (p2, reply) =>
      let p3 : ShadowSubdomain :=
        { p2 with msgData := reply, numExternalNodes := idAt reply 0, numDOF := idAt reply 1 }
      let resized : Option ID :=
        if (p3.theExternalNodes.length : Int) ≠ p3.numExternalNodes then
          idAssign p3.theExternalNodes (p3.numExternalNodes - 1) 0
        else some p3.theExternalNodes
      match resized with
      | none => none
      | some ext =>
        let p4 : ShadowSubdomain := { p3 with theExternalNodes := ext }
        if (ext.length : Int) ≠ p4.numExternalNodes then
          some { proxy := p4, steps := [Step.sendID self request, Step.recvID self reply]
                 value := -1 }
        else if p4.numExternalNodes ≠ 0 then
          match recvID p4 ext.length with
          | none => none
          | some (p5, tags) =>
            some { proxy := { p5 with theExternalNodes := tags, gotRemoteData := true }
                   steps := [Step.sendID self request, Step.recvID self reply,
                     Step.recvID self tags]
                   value := 0 }
        else
          some { proxy := { p4 with gotRemoteData := true }
                 steps := [Step.sendID self request, Step.recvID self reply], value := 0 }
  else
    some { proxy := { p with gotRemoteData := true }, steps := [], value := 0 }

/-- The member function `getNumExternalNodes() const`. -/
def getNumExternalNodes (self : Nat) (p : ShadowSubdomain) : Call Int :=
  if p.gotRemoteData = false ∧ p.buildRemote = true then
    { proxy := p, steps := [Step.warning self], value := p.numExternalNodes }
  else
    { proxy := p, steps := [], value := p.numExternalNodes }

/-- The test `gotRemoteData == false && buildRemote == true` followed by
`this->getRemoteData()`, whose return value the accessors ignore. -/
def fetchIfNeeded (codes : ShadowActorCodes) (self : Nat) (p : ShadowSubdomain) :
    Option (Call Unit) :=
  if p.gotRemoteData = false ∧ p.buildRemote = true then
    match getRemoteData codes self p with
    | none => none
    | some c => some { proxy := c.proxy, steps := c.steps, value := () }
  else some { proxy := p, steps := [], value := () }

/-- The member function `getExternalNodes`. -/
def getExternalNodes (codes : ShadowActorCodes) (self : Nat) (p : ShadowSubdomain) :
    Option (Call ID) :=
  match fetchIfNeeded codes self p with
  | none => none
  | some c => some { proxy := c.proxy, steps := c.steps, value := c.proxy.theExternalNodes }

/-- The member function `getNumDOF`. -/
def getNumDOF (codes : ShadowActorCodes) (self : Nat) (p : ShadowSubdomain) :
    Option (Call Int) :=
  match fetchIfNeeded codes self p with
  | none => none
  | some c => some { proxy := c.proxy, steps := c.steps, value := c.proxy.numDOF }

/-- The member function `getTang`; the value is the order of the matrix
returned. -/
def getTang (codes : ShadowActorCodes) (self : Nat) (p : ShadowSubdomain) :
    Option (Call Int) :=
  match fetchIfNeeded codes self p with
  | none => none
  | some c =>
    let request := c.proxy.msgData.set 0 codes.getTang
    let p1 : ShadowSubdomain :=
      { c.proxy with msgData := request, theMatrix := some c.proxy.numDOF }
    match recvMatrix p1 with
    | none => none
    | some p2 =>
      some { proxy := p2, steps := c.steps ++ [Step.sendID self request, Step.recvMatrix self]
             value := p2.numDOF }

/-- The member function `getResistingForce`; the value is the size of the
vector returned. -/
def getResistingForce (codes : ShadowActorCodes) (self : Nat) (p : ShadowSubdomain) :
    Option (Call Int) :=
  match fetchIfNeeded codes self p with
  | none => none
  | some c =>
    let request := c.proxy.msgData.set 0 codes.getResistingForce
    let p1 : ShadowSubdomain :=
      { c.proxy with msgData := request, theVector := some c.proxy.numDOF }
    match recvVector p1 with
    | none => none
    | some p2 =>
      some { proxy := p2, steps := c.steps ++ [Step.sendID self request, Step.recvVector self]
             value := p2.numDOF }

/-- The assignments `msgData(0) = code; msgData(1) = classTag; msgData(2) =
dbTag;` that open every add operation. -/
def addHeader (p : ShadowSubdomain) (code classTag dbTag : Int) : ID :=
  ((p.msgData.set 0 code).set 1 classTag).set 2 dbTag

/-- The member function `addElement(theEle)`; `none` when the index assignment
is undefined. -/
def addElement (codes : ShadowActorCodes) (self : Nat) (p : ShadowSubdomain)
    (theEle : Element) : Option (Call Bool) :=
  let data := addHeader p codes.addElement theEle.classTag theEle.dbTag
  match idAssign p.theElements p.numElements theEle.tag with
  | none => none
  | some eles =>
    some { proxy := domainChange
             { p with msgData := data, theElements := eles, numElements := p.numElements + 1 }
           steps := [Step.sendID self data, Step.sendObject self (MovableObject.element theEle),
             Step.delete self (MovableObject.element theEle)]
           value := true }

/-- The member function `addNode(theNode)`; `none` when the index assignment is
undefined. -/
def addNode (codes : ShadowActorCodes) (self : Nat) (p : ShadowSubdomain)
    (theNode : Node) : Option (Call Bool) :=
  let data := addHeader p codes.addNode theNode.classTag theNode.dbTag
  match idAssign p.theNodes p.numNodes theNode.tag with
  | none => none
  | some nodes =>
    some { proxy := domainChange
             { p with msgData := data, theNodes := nodes, numNodes := p.numNodes + 1 }
           steps := [Step.sendID self data, Step.sendObject self (MovableObject.node theNode),
             Step.delete self (MovableObject.node theNode)]
           value := true }

/-- The member function `addExternalNode(theNode)`; `none` when an index
assignment is undefined. -/
def addExternalNode (codes : ShadowActorCodes) (self : Nat) (p : ShadowSubdomain)
    (theNode : Node) : Option (Call Bool) :=
  let data := addHeader p codes.addExternalNode theNode.classTag theNode.dbTag
  match idAssign p.theNodes p.numNodes theNode.tag,
      idAssign p.theExternalNodes p.numExternalNodes theNode.tag with
  | some nodes, some ext =>
    some { proxy := domainChange
             { p with msgData := data, theNodes := nodes, theExternalNodes := ext
                      numNodes := p.numNodes + 1, numExternalNodes := p.numExternalNodes + 1
                      numDOF := p.numDOF + theNode.numberDOF }
           steps := [Step.sendID self data, Step.sendObject self (MovableObject.node theNode)]
           value := true }
  | _, _ => none

/-- Modelled from the spec: `Subdomain::addSP_Constraint`, the add operation of
the base partition (defined outside the sources at hand), stores the object in
the partition's own container. -/
def baseAddSP (p : ShadowSubdomain) (theSP : SP_Constraint) : ShadowSubdomain :=
  { p with theSPs := p.theSPs ++ [theSP.tag] }

/-- Modelled from the spec: `Subdomain::addMP_Constraint`, the add operation of
the base partition (defined outside the sources at hand), stores the object in
the partition's own container. -/
def baseAddMP (p : ShadowSubdomain) (theMP : MP_Constraint) : ShadowSubdomain :=
  { p with theMPs := p.theMPs ++ [theMP.tag] }

/-- Modelled from the spec: `Subdomain::addLoadPattern`, the add operation of
the base partition (defined outside the sources at hand), stores the object in
the partition's own container. -/
def baseAddLoadPattern (p : ShadowSubdomain) (thePattern : LoadPattern) : ShadowSubdomain :=
  { p with theLoadPatterns := p.theLoadPatterns ++ [thePattern.tag] }

/-- The member function `addSP_Constraint(theSP)`. -/
def addSP_Constraint (codes : ShadowActorCodes) (self : Nat) (p : ShadowSubdomain)
    (theSP : SP_Constraint) : Call Bool :=
  let data := addHeader p codes.addSP_Constraint theSP.classTag theSP.dbTag
  { proxy := baseAddSP (domainChange { p with msgData := data, numSPs := p.numSPs + 1 }) theSP
    steps := [Step.sendID self data, Step.sendObject self (MovableObject.sp theSP)]
    value := true }

/-- The member function `addMP_Constraint(theMP)`. -/
def addMP_Constraint (codes : ShadowActorCodes) (self : Nat) (p : ShadowSubdomain)
    (theMP : MP_Constraint) : Call Bool :=
  let data := addHeader p codes.addMP_Constraint theMP.classTag theMP.dbTag
  { proxy := baseAddMP (domainChange { p with msgData := data, numMPs := p.numMPs + 1 }) theMP
    steps := [Step.sendID self data, Step.sendObject self (MovableObject.mp theMP)]
    value := true }

/-- The member function `addLoadPattern(thePattern)`. -/
def addLoadPattern (codes : ShadowActorCodes) (self : Nat) (p : ShadowSubdomain)
    (thePattern : LoadPattern) : Call Bool :=
  let data := addHeader p codes.addLoadPattern thePattern.classTag thePattern.dbTag
  let p1 := baseAddLoadPattern (domainChange { p with msgData := data }) thePattern
  { proxy := { p1 with numLoadPatterns := p1.numLoadPatterns + 1 }
    steps := [Step.sendID self data, Step.sendObject self (MovableObject.pattern thePattern)]
    value := true }

/-- The member function `removeElement(tag)`; the value is the element handed
back (`none` for the null pointer).  The outer `none` means that a receive
blocks. -/
def removeElement (codes : ShadowActorCodes) (broker : FEM_ObjectBroker) (self : Nat)
    (p : ShadowSubdomain) (tag : Int) : Option (Call (Option Element)) :=
  let r := idRemoveValue p.theElements tag
  if r.2 < 0 then
    some { proxy := p, steps := [], value := none }
  else
    let request := (p.msgData.set 0 codes.removeElement).set 1 tag
    let p1 : ShadowSubdomain := domainChange
      { p with theElements := r.1, msgData := request, numElements := p.numElements - 1 }
    match recvID p1 request.length with
    | none => none
    | some (p2, reply) =>
      let p3 : ShadowSubdomain := { p2 with msgData := reply }
      let steps := [Step.removeValue self Index.elements tag, Step.sendID self request,
        Step.recvID self reply]
      if idAt reply 0 = -1 then
        some { proxy := p3, steps := steps, value := none }
      else if broker.getNewElement (idAt reply 0) then
        match recvObject p3 with
        | some (p4, MovableObject.element e) =>
          some { proxy := p4
                 steps := steps ++ [Step.recvObject self (MovableObject.element e)]
                 value := some e }
        | _ => none
      else
        some { proxy := p3, steps := steps, value := none }

/-- The member function `removeNode(tag)`; the value is the node handed back
(`none` for the null pointer).  The outer `none` means that a receive blocks. -/
def removeNode (codes : ShadowActorCodes) (broker : FEM_ObjectBroker) (self : Nat)
    (p : ShadowSubdomain) (tag : Int) : Option (Call (Option Node)) :=
  let r := idRemoveValue p.theNodes tag
  if r.2 < 0 then
    some { proxy := p, steps := [], value := none }
  else
    let request := (p.msgData.set 0 codes.removeNode).set 1 tag
    let x := idRemoveValue p.theExternalNodes tag
    let p1 : ShadowSubdomain := domainChange
      { p with theNodes := r.1, msgData := request, numNodes := p.numNodes - 1 }
    let p1x : ShadowSubdomain :=
      { p1 with theExternalNodes := x.1
                numExternalNodes :=
                  if 0 ≤ x.2 then p1.numExternalNodes - 1 else p1.numExternalNodes }
    match recvID p1x request.length with
    | none => none
    | some (p2, reply) =>
      let p3 : ShadowSubdomain := { p2 with msgData := reply }
      let steps := [Step.removeValue self Index.nodes tag, Step.sendID self request] ++
        (if 0 ≤ x.2 then [Step.removeValue self Index.externalNodes tag] else []) ++
        [Step.recvID self reply]
      if idAt reply 0 = -1 then
        some { proxy := p3, steps := steps, value := none }
      else if broker.getNewNode (idAt reply 0) then
        match recvObject p3 with
        | some (p4, MovableObject.node n) =>
          some { proxy := if 0 ≤ x.2 then { p4 with numDOF := p4.numDOF - n.numberDOF } else p4
                 steps := steps ++ [Step.recvObject self (MovableObject.node n)]
                 value := some n }
        | _ => none
      else
        some { proxy := p3, steps := steps, value := none }

/-- The member function `getNumElements() const`. -/
def getNumElements (p : ShadowSubdomain) : Int := p.numElements

/-- The member function `getNumNodes() const`. -/
def getNumNodes (p : ShadowSubdomain) : Int := p.numNodes

/-- The member function `getElements`: `exit(-1)`; the statements after it,
"just for a strict compiler", are never reached. -/
def getElements (_self : Nat) (p : ShadowSubdomain) : Termination (List Element) :=
  Termination.exited (-1) p []

/-- The member function `getNodes`: `exit(-1)`. -/
def getNodes (_self : Nat) (p : ShadowSubdomain) : Termination (List Node) :=
  Termination.exited (-1) p []

/-- The member function `getInternalNodeIter`: `exit(-1)`. -/
def getInternalNodeIter (_self : Nat) (p : ShadowSubdomain) : Termination (List Node) :=
  Termination.exited (-1) p []

/-- The member function `getExternalNodeIter`: `exit(-1)`. -/
def getExternalNodeIter (_self : Nat) (p : ShadowSubdomain) : Termination (List Node) :=
  Termination.exited (-1) p []

/-- A `Graph`; only its existence matters here. -/
structure Graph where
  numVertex : Nat
  deriving DecidableEq, Repr

/-- The member function `getElementGraph`: `exit(-1)`. -/
def getElementGraph (_self : Nat) (p : ShadowSubdomain) : Termination Graph :=
  Termination.exited (-1) p []

/-- The member function `getNodeGraph`: `exit(-1)`. -/
def getNodeGraph (_self : Nat) (p : ShadowSubdomain) : Termination Graph :=
  Termination.exited (-1) p []

/-- The member function `buildEleGraph(theEleGraph)`: it reports "NOT YET
IMPLEMENTED" and returns `-1`. -/
def buildEleGraph (_self : Nat) (p : ShadowSubdomain) (_theEleGraph : Graph) :
    Termination Int :=
  Termination.returned { proxy := p, steps := [], value := -1 }

/-- The member function `buildNodeGraph(theNodeGraph)`: it reports "NOT YET
IMPLEMENTED" and returns `-1`. -/
def buildNodeGraph (_self : Nat) (p : ShadowSubdomain) (_theNodeGraph : Graph) :
    Termination Int :=
  Termination.returned { proxy := p, steps := [], value := -1 }

/-- The accessors that depend on the remote data. -/
inductive Accessor where
  | getExternalNodes : Accessor
  | getNumDOF : Accessor
  | getTang : Accessor
  | getResistingForce : Accessor
  deriving DecidableEq, Repr

/-- What an accessor hands back: the external-node list, the number of DOFs,
the order of the tangent matrix, the size of the force vector. -/
inductive AccessorValue where
  | nodes (l : ID) : AccessorValue
  | numDOF (n : Int) : AccessorValue
  | tang (order : Int) : AccessorValue
  | force (size : Int) : AccessorValue
  deriving DecidableEq, Repr

/-- One call of an accessor on a proxy. -/
def callAccessor (codes : ShadowActorCodes) (self : Nat) (p : ShadowSubdomain) :
    Accessor → Option (Call AccessorValue)
  | .getExternalNodes =>
    (getExternalNodes codes self p).map fun c =>
      { proxy := c.proxy, steps := c.steps, value := AccessorValue.nodes c.value }
  | .getNumDOF =>
    (getNumDOF codes self p).map fun c =>
      { proxy := c.proxy, steps := c.steps, value := AccessorValue.numDOF c.value }
  | .getTang =>
    (getTang codes self p).map fun c =>
      { proxy := c.proxy, steps := c.steps, value := AccessorValue.tang c.value }
  | .getResistingForce =>
    (getResistingForce codes self p).map fun c =>
      { proxy := c.proxy, steps := c.steps, value := AccessorValue.force c.value }

/-- A sequence of accessor calls on a proxy, with nothing in between. -/
def callAccessors (codes : ShadowActorCodes) (self : Nat) :
    ShadowSubdomain → List Accessor → Option (Call (List AccessorValue))
  | p, [] => some { proxy := p, steps := [], value := [] }
  | p, a :: rest =>
    match callAccessor codes self p a with
    | none => none
    | some c =>
      match callAccessors codes self c.proxy rest with
      | none => none
      | some r => some { proxy := r.proxy, steps := c.steps ++ r.steps, value := c.value :: r.value }

/-- The reply an accessor waits for after its own request, if any. -/
def Accessor.reply : Accessor → List Wire
  | .getExternalNodes => []
  | .getNumDOF => []
  | .getTang => [Wire.matrix]
  | .getResistingForce => [Wire.vector]

/-- The replies a sequence of accessor calls waits for after their own
requests. -/
def repliesFor (as : List Accessor) : List Wire := as.flatMap Accessor.reply

/-- The worker's answer to a get-remote-data request: the header `(c, d, x, y)`
and, when `c` is not `0`, the `c` external-node tags. -/
def remoteData (c : Nat) (d x y : Int) (tags : ID) : List Wire :=
  Wire.id [(c : Int), d, x, y] :: (if c = 0 then [] else [Wire.id tags])

/-- The number of get-remote-data requests among some steps. -/
def fetchRequests (codes : ShadowActorCodes) (steps : List Step) : Nat :=
  (steps.filter (Step.isRequest codes.getRemoteData)).length

/-- The worker answers a remove-element request: the reply header arrives, and
the removed element follows it whenever the proxy is going to wait for one
(slot 0 is not `-1` and the broker knows the class tag). -/
def ElementReply (broker : FEM_ObjectBroker) (incoming : List Wire) (reply : ID) : Prop :=
  reply.length = 4 ∧ ∃ tail, incoming = Wire.id reply :: tail ∧
    (idAt reply 0 = -1 ∨ broker.getNewElement (idAt reply 0) = false ∨
      ∃ e tail1, tail = Wire.object (MovableObject.element e) :: tail1)

/-- The worker answers a remove-node request: the reply header arrives, and
the removed node follows it whenever the proxy is going to wait for one. -/
def NodeReply (broker : FEM_ObjectBroker) (incoming : List Wire) (reply : ID) : Prop :=
  reply.length = 4 ∧ ∃ tail, incoming = Wire.id reply :: tail ∧
    (idAt reply 0 = -1 ∨ broker.getNewNode (idAt reply 0) = false ∨
      ∃ n tail1, tail = Wire.object (MovableObject.node n) :: tail1)

/-- A value handed back by `getNumDOF` is `d`, one handed back by
`getExternalNodes` is `tags`. -/
def AccessorValue.agrees (d : Int) (tags : ID) : AccessorValue → Prop
  | .numDOF n => n = d
  | .nodes l => l = tags
  | .tang _ => True
  | .force _ => True

/-- The remote data of a proxy has been fetched: `gotRemoteData` is set, the
cache holds `d` DOFs and the external nodes `tags`. -/
structure Fetched (q : ShadowSubdomain) (d : Int) (tags : ID) : Prop where
  got : q.gotRemoteData = true
  dof : q.numDOF = d
  ext : q.theExternalNodes = tags
  msg : q.msgData.length = 4

/-- The structural changes of a partition other than `buildSubdomain`. -/
inductive Mutation where
  | addNode (n : Node) : Mutation
  | addExternalNode (n : Node) : Mutation
  | addElement (e : Element) : Mutation
  | removeNode (tag : Int) : Mutation
  | removeElement (tag : Int) : Mutation
  deriving DecidableEq, Repr

/-- One structural change applied to a proxy; the returned value is dropped. -/
def applyMutation (codes : ShadowActorCodes) (broker : FEM_ObjectBroker) (self : Nat)
    (p : ShadowSubdomain) : Mutation → Option (Call Unit)
  | .addNode n =>
    (addNode codes self p n).map fun c => { proxy := c.proxy, steps := c.steps, value := () }
  | .addExternalNode n =>
    (addExternalNode codes self p n).map fun c =>
      { proxy := c.proxy, steps := c.steps, value := () }
  | .addElement e =>
    (addElement codes self p e).map fun c => { proxy := c.proxy, steps := c.steps, value := () }
  | .removeNode tag =>
    (removeNode codes broker self p tag).map fun c =>
      { proxy := c.proxy, steps := c.steps, value := () }
  | .removeElement tag =>
    (removeElement codes broker self p tag).map fun c =>
      { proxy := c.proxy, steps := c.steps, value := () }

/-! ## ShadowSubdomain: the remaining member functions that send a header -/

/-- The destructor `~ShadowSubdomain`: `msgData(0) = ShadowActorSubdomain_DIE;
this->sendID(msgData);`. -/
def destructor (codes : ShadowActorCodes) (self : Nat) (p : ShadowSubdomain) : Call Unit :=
  let data := p.msgData.set 0 codes.DIE
  { proxy := { p with msgData := data }, steps := [Step.sendID self data], value := () }

/-- The test `theDDA != 0 && theDDA->doesIndependentAnalysis() != true` on the
result of `getDDAnalysis()`. -/
def analysesRemotely (p : ShadowSubdomain) : Bool :=
  match p.theDDA with
  | none => false
  | some theDDA => !theDDA.doesIndependentAnalysis

/-- Modelled from the spec: `Subdomain::getLoadPattern(loadPattern)`, defined
outside the sources at hand, finds the patterns the base partition stores;
`false` stands for the null pointer. -/
def baseGetLoadPattern (p : ShadowSubdomain) (loadPattern : Int) : Bool :=
  decide (loadPattern ∈ p.theLoadPatterns)

/-- Modelled from the spec: `Subdomain::removeSP_Constraint(tag)`, the remove
operation of the base partition (defined outside the sources at hand), takes the
constraint out of the partition's own container and hands it back (here its
tag), or hands back null (`none`). -/
def baseRemoveSP (p : ShadowSubdomain) (tag : Int) : ShadowSubdomain × Option Int :=
  if tag ∈ p.theSPs then ({ p with theSPs := p.theSPs.erase tag }, some tag) else (p, none)

/-- Modelled from the spec: `Subdomain::removeMP_Constraint(tag)`, as
`baseRemoveSP`. -/
def baseRemoveMP (p : ShadowSubdomain) (tag : Int) : ShadowSubdomain × Option Int :=
  if tag ∈ p.theMPs then ({ p with theMPs := p.theMPs.erase tag }, some tag) else (p, none)

/-- Modelled from the spec: `Subdomain::removeLoadPattern(loadTag)`, as
`baseRemoveSP`. -/
def baseRemoveLoadPattern (p : ShadowSubdomain) (loadTag : Int) :
    ShadowSubdomain × Option Int :=
  if loadTag ∈ p.theLoadPatterns then
    ({ p with theLoadPatterns := p.theLoadPatterns.erase loadTag }, some loadTag)
  else (p, none)

/-- Modelled from the spec: `Subdomain::setDomainDecompAnalysis`, defined
outside the sources at hand, stores the analysis that `getDDAnalysis()` hands
out. -/
def baseSetDomainDecompAnalysis (p : ShadowSubdomain)
    (theDDAnalysis : DomainDecompositionAnalysis) : ShadowSubdomain :=
  { p with theDDA := some theDDAnalysis }

/-- Modelled from the spec: `ID::getLocation(tag)`, declared outside the sources
at hand: the location of the tag in the index, `-1` when it is not there. -/
def idGetLocation (l : ID) (tag : Int) : Int :=
  if tag ∈ l then (l.indexOf tag : Int) else -1

/-- The assignments `msgData(0) = code; msgData(1) = classTag; msgData(2) =
dbTag; msgData(3) = loadPattern;` that open the add-to-pattern operations. -/
def patternHeader (p : ShadowSubdomain) (code classTag dbTag loadPattern : Int) : ID :=
  (((p.msgData.set 0 code).set 1 classTag).set 2 dbTag).set 3 loadPattern

/-- The member function `addSP_Constraint(theSP, loadPattern)`; the answer of
`LoadPattern::addSP_Constraint`, defined outside the sources at hand, is the
parameter `patternAdds`. -/
def addSP_ConstraintToPattern (codes : ShadowActorCodes) (self : Nat) (p : ShadowSubdomain)
    (theSP : SP_Constraint) (loadPattern : Int) (patternAdds : Bool) : Call Bool :=
  if baseGetLoadPattern p loadPattern = false ∨ patternAdds = false then
    { proxy := p, steps := [], value := false }
  else
    let data := patternHeader p codes.addSP_ConstraintToPattern theSP.classTag theSP.dbTag
      loadPattern
    { proxy := domainChange { p with msgData := data, numSPs := p.numSPs + 1 }
      steps := [Step.sendID self data, Step.sendObject self (MovableObject.sp theSP)]
      value := true }

/-- The member function `addNodalLoad(theLoad, loadPattern)`; `patternAdds` is
the answer of `LoadPattern::addNodalLoad`. -/
def addNodalLoad (codes : ShadowActorCodes) (self : Nat) (p : ShadowSubdomain)
    (theLoad : NodalLoad) (loadPattern : Int) (patternAdds : Bool) : Call Bool :=
  if baseGetLoadPattern p loadPattern = false ∨ patternAdds = false then
    { proxy := p, steps := [], value := false }
  else
    let data := patternHeader p codes.addNodalLoadToPattern theLoad.classTag theLoad.dbTag
      loadPattern
    { proxy := { p with msgData := data }
      steps := [Step.sendID self data, Step.sendObject self (MovableObject.nodalLoad theLoad)]
      value := true }

/-- The member function `addElementalLoad(theLoad, loadPattern)`; `patternAdds`
is the answer of `LoadPattern::addElementalLoad`. -/
def addElementalLoad (codes : ShadowActorCodes) (self : Nat) (p : ShadowSubdomain)
    (theLoad : ElementalLoad) (loadPattern : Int) (patternAdds : Bool) : Call Bool :=
  if baseGetLoadPattern p loadPattern = false ∨ patternAdds = false then
    { proxy := p, steps := [], value := false }
  else
    let data := patternHeader p codes.addElementalLoadToPattern theLoad.classTag theLoad.dbTag
      loadPattern
    { proxy := { p with msgData := data }
      steps := [Step.sendID self data,
        Step.sendObject self (MovableObject.elementalLoad theLoad)]
      value := true }

/-- The member function `removeSP_Constraint(tag)`; the value is the tag of the
constraint handed back (`none` for the null pointer). -/
def removeSP_Constraint (codes : ShadowActorCodes) (self : Nat) (p : ShadowSubdomain)
    (tag : Int) : Call (Option Int) :=
  match baseRemoveSP p tag with
  | (_, none) => { proxy := p, steps := [], value := none }
  | (p1, some spPtr) =>
    let data := (p1.msgData.set 0 codes.removeSP_Constraint).set 1 tag
    { proxy := { p1 with msgData := data, numSPs := p1.numSPs - 1 }
      steps := [Step.sendID self data], value := some spPtr }

/-- The member function `removeMP_Constraint(tag)`. -/
def removeMP_Constraint (codes : ShadowActorCodes) (self : Nat) (p : ShadowSubdomain)
    (tag : Int) : Call (Option Int) :=
  match baseRemoveMP p tag with
  | (_, none) => { proxy := p, steps := [], value := none }
  | (p1, some mpPtr) =>
    let data := (p1.msgData.set 0 codes.removeMP_Constraint).set 1 tag
    { proxy := { p1 with msgData := data, numMPs := p1.numMPs - 1 }
      steps := [Step.sendID self data], value := some mpPtr }

/-- The member function `removeLoadPattern(loadTag)`. -/
def removeLoadPattern (codes : ShadowActorCodes) (self : Nat) (p : ShadowSubdomain)
    (loadTag : Int) : Call (Option Int) :=
  match baseRemoveLoadPattern p loadTag with
  | (_, none) => { proxy := p, steps := [], value := none }
  | (p1, some res) =>
    let data := (p1.msgData.set 0 codes.removeLoadPattern).set 1 loadTag
    { proxy := { p1 with msgData := data }, steps := [Step.sendID self data], value := some res }

/-- The assignments `msgData(0) = code; msgData(1) = loadTag; msgData(2) =
loadPattern;` of the remove-from-pattern operations. -/
def removalHeader (p : ShadowSubdomain) (code loadTag loadPattern : Int) : ID :=
  ((p.msgData.set 0 code).set 1 loadTag).set 2 loadPattern

/-- The member function `removeNodalLoad(loadTag, loadPattern)`; `found` tells
whether `Subdomain::removeNodalLoad` (defined outside the sources at hand)
handed back a load. -/
def removeNodalLoad (codes : ShadowActorCodes) (self : Nat) (p : ShadowSubdomain)
    (loadTag loadPattern : Int) (found : Bool) : Call (Option Int) :=
  if found = false then { proxy := p, steps := [], value := none }
  else
    let data := removalHeader p codes.removeNodalLoadFromPattern loadTag loadPattern
    { proxy := { p with msgData := data }, steps := [Step.sendID self data]
      value := some loadTag }

/-- The member function `removeElementalLoad(loadTag, loadPattern)`; `found`
tells whether `Subdomain::removeElementalLoad` handed back a load. -/
def removeElementalLoad (codes : ShadowActorCodes) (self : Nat) (p : ShadowSubdomain)
    (loadTag loadPattern : Int) (found : Bool) : Call (Option Int) :=
  if found = false then { proxy := p, steps := [], value := none }
  else
    let data := removalHeader p codes.removeElementalLoadFromPattern loadTag loadPattern
    { proxy := { p with msgData := data }, steps := [Step.sendID self data]
      value := some loadTag }

/-- The member function `removeSP_Constraint(loadTag, loadPattern)`; `found`
tells whether the base partition handed back a constraint. -/
def removeSP_ConstraintFromPattern (codes : ShadowActorCodes) (self : Nat)
    (p : ShadowSubdomain) (loadTag loadPattern : Int) (found : Bool) : Call (Option Int) :=
  if found = false then { proxy := p, steps := [], value := none }
  else
    let data := removalHeader p codes.removeSP_ConstraintFromPattern loadTag loadPattern
    { proxy := { p with msgData := data }, steps := [Step.sendID self data]
      value := some loadTag }

/-- The member function `getElementPtr(tag)`; the value is the element handed
back (`none` for the null pointer), the outer `none` means that a receive
blocks. -/
def getElementPtr (codes : ShadowActorCodes) (broker : FEM_ObjectBroker) (self : Nat)
    (p : ShadowSubdomain) (tag : Int) : Option (Call (Option Element)) :=
  if idGetLocation p.theElements tag < 0 then
    some { proxy := p, steps := [], value := none }
  else
    let request := (p.msgData.set 0 codes.getElementPtr).set 1 tag
    match recvID { p with msgData := request } request.length with
    | none => none
    | some (p2, reply) =>
      let p3 : ShadowSubdomain := { p2 with msgData := reply }
      let steps := [Step.sendID self request, Step.recvID self reply]
      if broker.getNewElement (idAt reply 0) then
        match recvObject p3 with
        | some (p4, MovableObject.element e) =>
          some { proxy := p4
                 steps := steps ++ [Step.recvObject self (MovableObject.element e)]
                 value := some e }
        | _ => none
      else
        some { proxy := p3, steps := steps, value := none }

/-- The member function `getNodePtr(tag)`; as `getElementPtr`. -/
def getNodePtr (codes : ShadowActorCodes) (broker : FEM_ObjectBroker) (self : Nat)
    (p : ShadowSubdomain) (tag : Int) : Option (Call (Option Node)) :=
  if idGetLocation p.theNodes tag < 0 then
    some { proxy := p, steps := [], value := none }
  else
    let request := (p.msgData.set 0 codes.getNodePtr).set 1 tag
    match recvID { p with msgData := request } request.length with
    | none => none
    | some (p2, reply) =>
      let p3 : ShadowSubdomain := { p2 with msgData := reply }
      let steps := [Step.sendID self request, Step.recvID self reply]
      if broker.getNewNode (idAt reply 0) then
        match recvObject p3 with
        | some (p4, MovableObject.node n) =>
          some { proxy := p4
                 steps := steps ++ [Step.recvObject self (MovableObject.node n)]
                 value := some n }
        | _ => none
      else
        some { proxy := p3, steps := steps, value := none }

/-- The member function `applyLoad(time)`. -/
def applyLoad (codes : ShadowActorCodes) (self : Nat) (p : ShadowSubdomain) : Call Unit :=
  if analysesRemotely p then
    let data := p.msgData.set 0 codes.applyLoad
    { proxy := { p with msgData := data }
      steps := [Step.sendID self data, Step.sendVector self], value := () }
  else { proxy := p, steps := [], value := () }

/-- The member function `setCommitTag(newTag)`. -/
def setCommitTag (codes : ShadowActorCodes) (self : Nat) (p : ShadowSubdomain)
    (newTag : Int) : Call Unit :=
  let data := (p.msgData.set 0 codes.setCommitTag).set 1 newTag
  { proxy := { p with msgData := data }, steps := [Step.sendID self data], value := () }

/-- The member function `setCurrentTime(time)`. -/
def setCurrentTime (codes : ShadowActorCodes) (self : Nat) (p : ShadowSubdomain) : Call Unit :=
  let data := p.msgData.set 0 codes.setCurrentTime
  { proxy := { p with msgData := data }
    steps := [Step.sendID self data, Step.sendVector self], value := () }

/-- The member function `setCommittedTime(time)`. -/
def setCommittedTime (codes : ShadowActorCodes) (self : Nat) (p : ShadowSubdomain) :
    Call Unit :=
  let data := p.msgData.set 0 codes.setCommittedTime
  { proxy := { p with msgData := data }
    steps := [Step.sendID self data, Step.sendVector self], value := () }

/-- The member function `setLoadConstant`. -/
def setLoadConstant (codes : ShadowActorCodes) (self : Nat) (p : ShadowSubdomain) :
    Call Unit :=
  let data := p.msgData.set 0 codes.setLoadConstant
  { proxy := { p with msgData := data }, steps := [Step.sendID self data], value := () }

/-- The member function `update`. -/
def update (codes : ShadowActorCodes) (self : Nat) (p : ShadowSubdomain) : Call Int :=
  if analysesRemotely p then
    let data := p.msgData.set 0 codes.update
    { proxy := { p with msgData := data }, steps := [Step.sendID self data], value := 0 }
  else { proxy := p, steps := [], value := 0 }

/-- The member function `commit` of the proxy. -/
def ShadowSubdomain.commit (codes : ShadowActorCodes) (self : Nat) (p : ShadowSubdomain) :
    Call Int :=
  if analysesRemotely p then
    let data := p.msgData.set 0 codes.commit
    { proxy := { p with msgData := data }, steps := [Step.sendID self data], value := 0 }
  else { proxy := p, steps := [], value := 0 }

/-- The member function `revertToLastCommit`. -/
def revertToLastCommit (codes : ShadowActorCodes) (self : Nat) (p : ShadowSubdomain) :
    Call Int :=
  if analysesRemotely p then
    let data := p.msgData.set 0 codes.revertToLastCommit
    { proxy := { p with msgData := data }, steps := [Step.sendID self data], value := 0 }
  else { proxy := p, steps := [], value := 0 }

/-- The member function `revertToStart`. -/
def revertToStart (codes : ShadowActorCodes) (self : Nat) (p : ShadowSubdomain) : Call Int :=
  let data := p.msgData.set 0 codes.revertToStart
  { proxy := { p with msgData := data }, steps := [Step.sendID self data], value := 0 }

/-- The member function `setDomainDecompAnalysis(theDDAnalysis)`. -/
def setDomainDecompAnalysis (codes : ShadowActorCodes) (self : Nat) (p : ShadowSubdomain)
    (theDDAnalysis : DomainDecompositionAnalysis) : Call Unit :=
  let data := (p.msgData.set 0 codes.setDomainDecompAnalysis).set 1 theDDAnalysis.classTag
  { proxy := baseSetDomainDecompAnalysis { p with msgData := data } theDDAnalysis
    steps := [Step.sendID self data, Step.sendObject self (MovableObject.analysis theDDAnalysis)]
    value := () }

/-- The member function `setAnalysisAlgorithm(theAlgorithm)`; `classTag` is
`theAlgorithm.getClassTag()`. -/
def setAnalysisAlgorithm (codes : ShadowActorCodes) (self : Nat) (p : ShadowSubdomain)
    (classTag : Int) : Call Int :=
  let data := (p.msgData.set 0 codes.setAnalysisAlgorithm).set 1 classTag
  { proxy := { p with msgData := data }
    steps := [Step.sendID self data, Step.sendObject self (MovableObject.algorithm classTag)]
    value := 0 }

/-- The member function `setAnalysisIntegrator(theIntegrator)`; `classTag` is
`theIntegrator.getClassTag()`. -/
def setAnalysisIntegrator (codes : ShadowActorCodes) (self : Nat) (p : ShadowSubdomain)
    (classTag : Int) : Call Int :=
  let data := (p.msgData.set 0 codes.setAnalysisIntegrator).set 1 classTag
  { proxy := { p with msgData := data }
    steps := [Step.sendID self data, Step.sendObject self (MovableObject.integrator classTag)]
    value := 0 }

/-- The member function `setAnalysisLinearSOE(theSOE)`; `classTag` is
`theSOE.getClassTag()`. -/
def setAnalysisLinearSOE (codes : ShadowActorCodes) (self : Nat) (p : ShadowSubdomain)
    (classTag : Int) : Call Int :=
  let data := (p.msgData.set 0 codes.setAnalysisLinearSOE).set 1 classTag
  { proxy := { p with msgData := data }
    steps := [Step.sendID self data, Step.sendObject self (MovableObject.linearSOE classTag)]
    value := 0 }

/-- The member function `invokeChangeOnAnalysis`: after the header is sent,
`theVector` and `theMatrix` are made to have the size `numDOF`. -/
def invokeChangeOnAnalysis (codes : ShadowActorCodes) (self : Nat) (p : ShadowSubdomain) :
    Call Int :=
  let data := p.msgData.set 0 codes.invokeChangeOnAnalysis
  { proxy := { p with msgData := data, theVector := some p.numDOF, theMatrix := some p.numDOF }
    steps := [Step.sendID self data], value := 0 }

/-- The member function `clearAnalysis`. -/
def clearAnalysis (codes : ShadowActorCodes) (self : Nat) (p : ShadowSubdomain) : Call Unit :=
  let data := p.msgData.set 0 codes.clearAnalysis
  { proxy := { p with msgData := data }, steps := [Step.sendID self data], value := () }

/-- The member function `computeNodalResponse`; `theFePtr` is the size of the
last response of the element `getFE_ElementPtr()` hands out (`none` for the
null pointer). -/
def computeNodalResponse (codes : ShadowActorCodes) (self : Nat) (p : ShadowSubdomain)
    (theFePtr : Option Int) : Call Int :=
  if analysesRemotely p then
    match theFePtr with
    | none => { proxy := p, steps := [], value := 0 }
    | some size =>
      let data := (p.msgData.set 0 codes.computeNodalResponse).set 1 size
      { proxy := { p with msgData := data, numDOF := if p.numDOF ≠ idAt data 1 then idAt data 1
                                                      else p.numDOF }
        steps := [Step.sendID self data, Step.sendVector self], value := 0 }
  else { proxy := p, steps := [], value := 0 }

/-- The member function `newStep(dT)` of the proxy. -/
def ShadowSubdomain.newStep (codes : ShadowActorCodes) (self : Nat) (p : ShadowSubdomain) :
    Call Int :=
  let data := p.msgData.set 0 codes.newStep
  { proxy := { p with msgData := data }
    steps := [Step.sendID self data, Step.sendVector self], value := 0 }

/-- The member function `Print`: the header is sent and a reply is received
into the same buffer; `none` when the receive blocks. -/
def Print (codes : ShadowActorCodes) (self : Nat) (p : ShadowSubdomain) :
    Option (Call Unit) :=
  let request := p.msgData.set 0 codes.Print
  match recvID { p with msgData := request } request.length with
  | none => none
  | some (p2, reply) =>
    some { proxy := { p2 with msgData := reply }
           steps := [Step.sendID self request, Step.recvID self reply], value := () }

/-- A structural change would add a tag to an index in which the tag is already
present. -/
def Mutation.readds (p : ShadowSubdomain) : Mutation → Bool
  | .addNode n => decide (n.tag ∈ p.theNodes)
  | .addExternalNode n => decide (n.tag ∈ p.theNodes ∨ n.tag ∈ p.theExternalNodes)
  | .addElement e => decide (e.tag ∈ p.theElements)
  | .removeNode _ => false
  | .removeElement _ => false

/-- A sequence of structural changes on one proxy; the result lists the proxy
after every call, `none` when a call does not return. -/
def applyMutations (codes : ShadowActorCodes) (broker : FEM_ObjectBroker) (self : Nat) :
    ShadowSubdomain → List Mutation → Option (List ShadowSubdomain)
  | _, [] => some []
  | p, m :: rest =>
    match applyMutation codes broker self p m with
    | none => none
    | some c =>
      match applyMutations codes broker self c.proxy rest with
      | none => none
      | some states => some (c.proxy :: states)

/-- No call of the sequence adds a tag while it is present in the index it is
added to. -/
def noReadd (codes : ShadowActorCodes) (broker : FEM_ObjectBroker) (self : Nat) :
    ShadowSubdomain → List Mutation → Bool
  | _, [] => true
  | p, m :: rest =>
    !m.readds p &&
      match applyMutation codes broker self p m with
      | none => true
      | some c => noReadd codes broker self c.proxy rest

/-- The counters of a proxy agree with its local indices: `numElements` and
`numNodes` are the numbers of tags in the element and node index, and no tag
occurs twice in either. -/
structure Counted (p : ShadowSubdomain) : Prop where
  elements : p.numElements = (p.theElements.length : Int)
  nodes : p.numNodes = (p.theNodes.length : Int)
  elementsNodup : p.theElements.Nodup
  nodesNodup : p.theNodes.Nodup

/-! ## ShadowSubdomain: construction, destruction and call sequences -/

/-- The constructor `ShadowSubdomain(tag, theMachineBroker, theObjectBroker)`
run on the storage `this`: the registry is extended as by the other
constructor, and then `msgData(0) = ShadowActorSubdomain_setTag;
msgData(1) = tag; this->sendID(msgData);`. -/
def ShadowSubdomain.constructOnMachine (codes : ShadowActorCodes) (w : World) (tag : Int)
    (this : Nat) : Option World :=
  let data := ((ShadowSubdomain.fresh tag).msgData.set 0 codes.setTag).set 1 tag
  match w.allocate this { ShadowSubdomain.fresh tag with msgData := data } with
  | none => none
  | some w1 =>
    some { w1 with numShadowSubdomains := w1.numShadowSubdomains + 1
                   theShadowSubdomains :=
                     w1.theShadowSubdomains.take w1.numShadowSubdomains.toNat ++ [this]
                   trace := w1.trace ++ [Step.sendID this data] }

/-- The object a pointer refers to: `none` for a pointer to the cell of a
destroyed proxy (it dangles) and for a pointer to no cell. -/
def World.object (w : World) (self : Nat) : Option ShadowSubdomain :=
  if self ∈ w.freed then none else w.proxies[self]?

/-- A member function of one proxy called in the process-wide state: the proxy
`self` is replaced by the proxy after the call and the steps of the call are
appended to the trace; `none` when `self` refers to no object or the call does
not return. -/
def World.call {α : Type} (w : World) (self : Nat)
    (f : Nat → ShadowSubdomain → Option (Call α)) : Option (World × α) :=
  match w.object self with
  | none => none
  | some p =>
    match f self p with
    | none => none
    | some c =>
      some ({ w with proxies := w.proxies.set self c.proxy, trace := w.trace ++ c.steps },
        c.value)

/-- The destruction of the proxy `self` in the process-wide state: the
destructor sends its header and the object ceases to exist, its cell is free
for a later object.  The statics `numShadowSubdomains` and
`theShadowSubdomains` are not touched by the destructor, so a registry entry
pointing to the cell dangles from now on. -/
def ShadowSubdomain.destroy (codes : ShadowActorCodes) (w : World) (self : Nat) :
    Option World :=
  match w.call self (fun s p => some (destructor codes s p)) with
  | none => none
  | some (w1, _) => some { w1 with freed := self :: w1.freed }

/-- The pointers on which the fan-out loop of `computeTang` and
`computeResidual`, run by the proxy `self`, calls the member function: the
entries `theShadowSubdomains[i]`, `i < numShadowSubdomains`, other than
`self`. -/
def fanOutTargets (w : World) (self : Nat) : List Nat :=
  (w.theShadowSubdomains.take w.numShadowSubdomains.toNat).filter (fun q => decide (q ≠ self))

/-- The events in the life of the proxies of a process: a construction on a
channel or on a machine broker, each with the storage `this` the object is
constructed in, and the destruction of the proxy a pointer refers to. -/
inductive Lifecycle where
  | construct (tag : Int) (this : Nat) : Lifecycle
  | constructOnMachine (tag : Int) (this : Nat) : Lifecycle
  | destroy (self : Nat) : Lifecycle
  deriving DecidableEq, Repr

/-- The `this` pointers of the constructions among some events, in order. -/
def pointers : List Lifecycle → List Nat
  | [] => []
  | .construct _ this :: rest => this :: pointers rest
  | .constructOnMachine _ this :: rest => this :: pointers rest
  | .destroy _ :: rest => pointers rest

/-- The event is a construction. -/
def Lifecycle.isConstruction : Lifecycle → Bool
  | .construct _ _ => true
  | .constructOnMachine _ _ => true
  | .destroy _ => false

/-- The number of constructions among some events. -/
def constructions (evs : List Lifecycle) : Nat := (evs.filter Lifecycle.isConstruction).length

/-- The pointers of the proxies destroyed by some events. -/
def destroyed : List Lifecycle → List Nat
  | [] => []
  | .destroy self :: rest => self :: destroyed rest
  | _ :: rest => destroyed rest

/-- The events respect the lifetime of objects, `cells` cells being in use and
those of `freed` holding no object before the events: every construction is in
a cell never used before or in the cell of a destroyed proxy, and every
destruction is that of a proxy that exists. -/
def wellFormed : Nat → List Nat → List Lifecycle → Bool
  | _, _, [] => true
  | cells, freed, .destroy self :: rest =>
    decide (self < cells ∧ self ∉ freed) && wellFormed cells (self :: freed) rest
  | cells, freed, .construct _ this :: rest =>
    if this = cells then wellFormed (cells + 1) freed rest
    else decide (this ∈ freed) &&
      wellFormed cells (freed.filter (fun q => decide (q ≠ this))) rest
  | cells, freed, .constructOnMachine _ this :: rest =>
    if this = cells then wellFormed (cells + 1) freed rest
    else decide (this ∈ freed) &&
      wellFormed cells (freed.filter (fun q => decide (q ≠ this))) rest

/-- One event in the process-wide state; `none` when it has no defined
outcome. -/
def lifecycle (codes : ShadowActorCodes) (w : World) : Lifecycle → Option World
  | .construct tag this => ShadowSubdomain.construct w tag this
  | .constructOnMachine tag this => ShadowSubdomain.constructOnMachine codes w tag this
  | .destroy self => ShadowSubdomain.destroy codes w self

/-- A sequence of events, from the state `w`. -/
def lifecycles (codes : ShadowActorCodes) (w : World) (evs : List Lifecycle) : Option World :=
  evs.foldlM (lifecycle codes) w

/-- The registry and the storage of a process after constructions in the
storage `made`, in this order, no `computeTang` round being under way: the
registry holds exactly these pointers, the cells in use are those of the
constructions, the cells of the destroyed proxies are among them, and the
counter is `0`. -/
structure Constructed (w : World) (made : List Nat) : Prop where
  num : w.numShadowSubdomains = (made.length : Int)
  registry : w.theShadowSubdomains = made
  cells : ∀ q, q ∈ made ↔ q < w.proxies.length
  dangling : ∀ q ∈ w.freed, q < w.proxies.length
  count : w.count = 0

/-- The member functions of one proxy that can put a header on the channel,
with their arguments (of a time or a time step, whose value is not modelled,
nothing is kept). -/
inductive Operation where
  | buildSubdomain (numSubdomains : Int) (theBuilder : PartitionedModelBuilder) : Operation
  | getRemoteData : Operation
  | getExternalNodes : Operation
  | getNumDOF : Operation
  | getTang : Operation
  | getResistingForce : Operation
  | addElement (theEle : Element) : Operation
  | addNode (theNode : Node) : Operation
  | addExternalNode (theNode : Node) : Operation
  | addSP_Constraint (theSP : SP_Constraint) : Operation
  | addMP_Constraint (theMP : MP_Constraint) : Operation
  | addLoadPattern (thePattern : LoadPattern) : Operation
  | addSP_ConstraintToPattern (theSP : SP_Constraint) (loadPattern : Int) (patternAdds : Bool) :
      Operation
  | addNodalLoad (theLoad : NodalLoad) (loadPattern : Int) (patternAdds : Bool) : Operation
  | addElementalLoad (theLoad : ElementalLoad) (loadPattern : Int) (patternAdds : Bool) :
      Operation
  | removeElement (tag : Int) : Operation
  | removeNode (tag : Int) : Operation
  | removeSP_Constraint (tag : Int) : Operation
  | removeMP_Constraint (tag : Int) : Operation
  | removeLoadPattern (loadTag : Int) : Operation
  | removeNodalLoad (loadTag loadPattern : Int) (found : Bool) : Operation
  | removeElementalLoad (loadTag loadPattern : Int) (found : Bool) : Operation
  | removeSP_ConstraintFromPattern (loadTag loadPattern : Int) (found : Bool) : Operation
  | getElementPtr (tag : Int) : Operation
  | getNodePtr (tag : Int) : Operation
  | applyLoad : Operation
  | setCommitTag (newTag : Int) : Operation
  | setCurrentTime : Operation
  | setCommittedTime : Operation
  | setLoadConstant : Operation
  | update : Operation
  | commit : Operation
  | revertToLastCommit : Operation
  | revertToStart : Operation
  | setDomainDecompAnalysis (theDDAnalysis : DomainDecompositionAnalysis) : Operation
  | setAnalysisAlgorithm (classTag : Int) : Operation
  | setAnalysisIntegrator (classTag : Int) : Operation
  | setAnalysisLinearSOE (classTag : Int) : Operation
  | invokeChangeOnAnalysis : Operation
  | clearAnalysis : Operation
  | computeNodalResponse (theFePtr : Option Int) : Operation
  | newStep : Operation
  | Print : Operation

/-- The operation code of a member function, the `ShadowActorSubdomain_*`
constant its body assigns to `msgData(0)`; `getExternalNodes` and `getNumDOF`
have none, they only send through the nested call of `getRemoteData`. -/
def Operation.code (codes : ShadowActorCodes) : Operation → Option Int
  | .buildSubdomain _ _ => some codes.buildSubdomain
  | .getRemoteData => some codes.getRemoteData
  | .getExternalNodes => none
  | .getNumDOF => none
  | .getTang => some codes.getTang
  | .getResistingForce => some codes.getResistingForce
  | .addElement _ => some codes.addElement
  | .addNode _ => some codes.addNode
  | .addExternalNode _ => some codes.addExternalNode
  | .addSP_Constraint _ => some codes.addSP_Constraint
  | .addMP_Constraint _ => some codes.addMP_Constraint
  | .addLoadPattern _ => some codes.addLoadPattern
  | .addSP_ConstraintToPattern _ _ _ => some codes.addSP_ConstraintToPattern
  | .addNodalLoad _ _ _ => some codes.addNodalLoadToPattern
  | .addElementalLoad _ _ _ => some codes.addElementalLoadToPattern
  | .removeElement _ => some codes.removeElement
  | .removeNode _ => some codes.removeNode
  | .removeSP_Constraint _ => some codes.removeSP_Constraint
  | .removeMP_Constraint _ => some codes.removeMP_Constraint
  | .removeLoadPattern _ => some codes.removeLoadPattern
  | .removeNodalLoad _ _ _ => some codes.removeNodalLoadFromPattern
  | .removeElementalLoad _ _ _ => some codes.removeElementalLoadFromPattern
  | .removeSP_ConstraintFromPattern _ _ _ => some codes.removeSP_ConstraintFromPattern
  | .getElementPtr _ => some codes.getElementPtr
  | .getNodePtr _ => some codes.getNodePtr
  | .applyLoad => some codes.applyLoad
  | .setCommitTag _ => some codes.setCommitTag
  | .setCurrentTime => some codes.setCurrentTime
  | .setCommittedTime => some codes.setCommittedTime
  | .setLoadConstant => some codes.setLoadConstant
  | .update => some codes.update
  | .commit => some codes.commit
  | .revertToLastCommit => some codes.revertToLastCommit
  | .revertToStart => some codes.revertToStart
  | .setDomainDecompAnalysis _ => some codes.setDomainDecompAnalysis
  | .setAnalysisAlgorithm _ => some codes.setAnalysisAlgorithm
  | .setAnalysisIntegrator _ => some codes.setAnalysisIntegrator
  | .setAnalysisLinearSOE _ => some codes.setAnalysisLinearSOE
  | .invokeChangeOnAnalysis => some codes.invokeChangeOnAnalysis
  | .clearAnalysis => some codes.clearAnalysis
  | .computeNodalResponse _ => some codes.computeNodalResponse
  | .newStep => some codes.newStep
  | .Print => some codes.Print

/-- A call with its returned value dropped. -/
def Call.forget {α : Type} (c : Call α) : Call Unit :=
  { proxy := c.proxy, steps := c.steps, value := () }

/-- One member function called on a proxy; `none` when the call does not
return. -/
def perform (codes : ShadowActorCodes) (broker : FEM_ObjectBroker) (self : Nat)
    (p : ShadowSubdomain) : Operation → Option (Call Unit)
  | .buildSubdomain numSubdomains theBuilder =>
    some (buildSubdomain codes self p numSubdomains theBuilder).forget
  | .getRemoteData => (getRemoteData codes self p).map Call.forget
  | .getExternalNodes => (getExternalNodes codes self p).map Call.forget
  | .getNumDOF => (getNumDOF codes self p).map Call.forget
  | .getTang => (getTang codes self p).map Call.forget
  | .getResistingForce => (getResistingForce codes self p).map Call.forget
  | .addElement theEle => (addElement codes self p theEle).map Call.forget
  | .addNode theNode => (addNode codes self p theNode).map Call.forget
  | .addExternalNode theNode => (addExternalNode codes self p theNode).map Call.forget
  | .addSP_Constraint theSP => some (addSP_Constraint codes self p theSP).forget
  | .addMP_Constraint theMP => some (addMP_Constraint codes self p theMP).forget
  | .addLoadPattern thePattern => some (addLoadPattern codes self p thePattern).forget
  | .addSP_ConstraintToPattern theSP loadPattern patternAdds =>
    some (addSP_ConstraintToPattern codes self p theSP loadPattern patternAdds).forget
  | .addNodalLoad theLoad loadPattern patternAdds =>
    some (addNodalLoad codes self p theLoad loadPattern patternAdds).forget
  | .addElementalLoad theLoad loadPattern patternAdds =>
    some (addElementalLoad codes self p theLoad loadPattern patternAdds).forget
  | .removeElement tag => (removeElement codes broker self p tag).map Call.forget
  | .removeNode tag => (removeNode codes broker self p tag).map Call.forget
  | .removeSP_Constraint tag => some (removeSP_Constraint codes self p tag).forget
  | .removeMP_Constraint tag => some (removeMP_Constraint codes self p tag).forget
  | .removeLoadPattern loadTag => some (removeLoadPattern codes self p loadTag).forget
  | .removeNodalLoad loadTag loadPattern found =>
    some (removeNodalLoad codes self p loadTag loadPattern found).forget
  | .removeElementalLoad loadTag loadPattern found =>
    some (removeElementalLoad codes self p loadTag loadPattern found).forget
  | .removeSP_ConstraintFromPattern loadTag loadPattern found =>
    some (removeSP_ConstraintFromPattern codes self p loadTag loadPattern found).forget
  | .getElementPtr tag => (getElementPtr codes broker self p tag).map Call.forget
  | .getNodePtr tag => (getNodePtr codes broker self p tag).map Call.forget
  | .applyLoad => some (applyLoad codes self p)
  | .setCommitTag newTag => some (setCommitTag codes self p newTag)
  | .setCurrentTime => some (setCurrentTime codes self p)
  | .setCommittedTime => some (setCommittedTime codes self p)
  | .setLoadConstant => some (setLoadConstant codes self p)
  | .update => some (update codes self p).forget
  | .commit => some (ShadowSubdomain.commit codes self p).forget
  | .revertToLastCommit => some (revertToLastCommit codes self p).forget
  | .revertToStart => some (revertToStart codes self p).forget
  | .setDomainDecompAnalysis theDDAnalysis =>
    some (setDomainDecompAnalysis codes self p theDDAnalysis)
  | .setAnalysisAlgorithm classTag => some (setAnalysisAlgorithm codes self p classTag).forget
  | .setAnalysisIntegrator classTag => some (setAnalysisIntegrator codes self p classTag).forget
  | .setAnalysisLinearSOE classTag => some (setAnalysisLinearSOE codes self p classTag).forget
  | .invokeChangeOnAnalysis => some (invokeChangeOnAnalysis codes self p).forget
  | .clearAnalysis => some (clearAnalysis codes self p)
  | .computeNodalResponse theFePtr => some (computeNodalResponse codes self p theFePtr).forget
  | .newStep => some (ShadowSubdomain.newStep codes self p).forget
  | .Print => Print codes self p

/-- The member function begins with the test of `gotRemoteData` and
`buildRemote` and the nested call of `getRemoteData`. -/
def Operation.fetches : Operation → Bool
  | .getExternalNodes => true
  | .getNumDOF => true
  | .getTang => true
  | .getResistingForce => true
  | _ => false

/-- The steps of the call of `getRemoteData` nested in a member function
called on `p` (none unless the member function makes one). -/
def fetchSteps (codes : ShadowActorCodes) (self : Nat) (p : ShadowSubdomain)
    (op : Operation) : List Step :=
  if op.fetches then
    match fetchIfNeeded codes self p with
    | none => []
    | some f => f.steps
  else []

/-- What a driver can invoke in the process: the two constructors (each with
the storage of the new object), the destructor, a member function of a proxy,
and the two coordinated member functions. -/
inductive Invocation where
  | construct (tag : Int) (this : Nat) : Invocation
  | constructOnMachine (tag : Int) (this : Nat) : Invocation
  | destroy (self : Nat) : Invocation
  | member (self : Nat) (op : Operation) : Invocation
  | computeTang (self : Nat) : Invocation
  | computeResidual (self : Nat) : Invocation

/-- The operation code of the member function an invocation runs (the
constructor on a channel has none and sends nothing). -/
def Invocation.code (codes : ShadowActorCodes) : Invocation → Option Int
  | .construct _ _ => none
  | .constructOnMachine _ _ => some codes.setTag
  | .destroy _ => some codes.DIE
  | .member _ op => op.code codes
  | .computeTang _ => some codes.computeTang
  | .computeResidual _ => some codes.computeResidual

/-- One entry of the log of a run: the invocation, the steps of the call of
`getRemoteData` nested in it, and its remaining steps. -/
structure Entry where
  invocation : Invocation
  fetch : List Step
  own : List Step

/-- One invocation in the process-wide state, with its log entry; `none` when
the call does not return or has no defined outcome. -/
def invoke (codes : ShadowActorCodes) (broker : FEM_ObjectBroker) (fuel : Nat) (w : World) :
    Invocation → Option (World × Entry)
  | .construct tag this =>
    match ShadowSubdomain.construct w tag this with
    | none => none
    | some w1 => some (w1, { invocation := .construct tag this, fetch := [], own := [] })
  | .constructOnMachine tag this =>
    match ShadowSubdomain.constructOnMachine codes w tag this with
    | none => none
    | some w1 =>
      some (w1, { invocation := .constructOnMachine tag this, fetch := []
                  own := w1.trace.drop w.trace.length })
  | .destroy self =>
    match ShadowSubdomain.destroy codes w self with
    | none => none
    | some w1 =>
      some (w1, { invocation := .destroy self, fetch := []
                  own := w1.trace.drop w.trace.length })
  | .member self op =>
    match w.object self with
    | none => none
    | some p =>
      match perform codes broker self p op with
      | none => none
      | some c =>
        some ({ w with proxies := w.proxies.set self c.proxy, trace := w.trace ++ c.steps },
          { invocation := .member self op, fetch := fetchSteps codes self p op
            own := c.steps.drop (fetchSteps codes self p op).length })
  | .computeTang self =>
    match computeTang codes fuel w self with
    | none => none
    | some w1 =>
      some (w1, { invocation := .computeTang self, fetch := []
                  own := w1.trace.drop w.trace.length })
  | .computeResidual self =>
    match computeResidual codes fuel w self with
    | none => none
    | some w1 =>
      some (w1, { invocation := .computeResidual self, fetch := []
                  own := w1.trace.drop w.trace.length })

/-- A sequence of invocations, with the log of the run. -/
def invokeAll (codes : ShadowActorCodes) (broker : FEM_ObjectBroker) (fuel : Nat) :
    World → List Invocation → Option (World × List Entry)
  | w, [] => some (w, [])
  | w, inv :: rest =>
    match invoke codes broker fuel w inv with
    | none => none
    | some (w1, e) =>
      match invokeAll codes broker fuel w1 rest with
      | none => none
      | some (w2, log) => some (w2, e :: log)

/-- Every header among some steps carries `code` in slot 0 (and there is no
header at all when there is no code). -/
def HeadersCarry (code : Option Int) (steps : List Step) : Prop :=
  ∀ s ∈ steps, ∀ c, s.opcode = some c → code = some c

/-- Every proxy of the process has its 4-slot header buffer. -/
def HeaderBuffers (w : World) : Prop := ∀ p ∈ w.proxies, p.msgData.length = 4

/-! ## Concrete inputs -/

/-- The local 2×2 identity tangent. -/
def identity2 : Matrix Int := [[1, 0], [0, 1]]

/-- Scenario A, first source: mapping `[0,1]`, identity tangent. -/
def scenarioA_source1 : FE_Element Int :=
  { getID := [0, 1], getTangent := fun _ => identity2, getResidual := fun _ => [3, 4] }

/-- Scenario A, second source: mapping `[1,2]`, identity tangent. -/
def scenarioA_source2 : FE_Element Int :=
  { getID := [1, 2], getTangent := fun _ => identity2, getResidual := fun _ => [5, 6] }

/-- A nodal DOF group on equations `[0,2]`. -/
def scenarioA_dof : DOF_Group Int := { getID := [0, 2], getUnbalance := fun _ => [10, 20] }

/-- Scenario A: the model with the two sources. -/
def scenarioA_model : AnalysisModel Int :=
  { getFEs := [scenarioA_source1, scenarioA_source2], getDOFs := [scenarioA_dof]
    commitDomain := 0 }

/-- A 3-equation Assembly Target holding arbitrary values before the call. -/
def scenarioA_target : AssemblyTarget Int :=
  { n := 3, A := fun _ _ => 7, b := fun _ => 5, X := [10, 20, 30] }

/-- Scenario A: the integrator linked to the model and the target. -/
def scenarioA : IncrementalIntegrator (AssemblyTarget Int) Int :=
  setLinks (IncrementalIntegrator.new (AssemblyTarget Int) Int) scenarioA_model scenarioA_target

/-- A second nodal DOF group, on equation `[1]`. -/
def scenarioA_dof2 : DOF_Group Int := { getID := [1], getUnbalance := fun _ => [7] }

/-- A model with two elements and two DOF groups. -/
def permModel : AnalysisModel Int :=
  { getFEs := [scenarioA_source1, scenarioA_source2], getDOFs := [scenarioA_dof, scenarioA_dof2]
    commitDomain := 0 }

/-- The same model with both iteration orders reversed. -/
def permModelSwapped : AnalysisModel Int :=
  { getFEs := [scenarioA_source2, scenarioA_source1], getDOFs := [scenarioA_dof2, scenarioA_dof]
    commitDomain := 0 }

/-- A source whose mapping `[0,3]` leaves the bounds of a 3-equation target. -/
def badSource : FE_Element Int :=
  { getID := [0, 3], getTangent := fun _ => identity2, getResidual := fun _ => [8, 9] }

/-- A model whose first element has a bad mapping, followed by a good element
and a DOF group. -/
def bestEffortModel : AnalysisModel Int :=
  { getFEs := [badSource, scenarioA_source2], getDOFs := [scenarioA_dof], commitDomain := 0 }

/-- The integrator linked to `bestEffortModel` and the 3-equation target. -/
def bestEffort : IncrementalIntegrator (AssemblyTarget Int) Int :=
  setLinks (IncrementalIntegrator.new (AssemblyTarget Int) Int) bestEffortModel scenarioA_target

/-- An integrator on which `setLinks` has not been called. -/
def unlinked : IncrementalIntegrator (AssemblyTarget Int) Int :=
  IncrementalIntegrator.new (AssemblyTarget Int) Int

/-- Some pairwise distinct operation codes. -/
def exampleCodes : ShadowActorCodes :=
  { setTag := 1, newStep := 2, buildSubdomain := 3, getRemoteData := 4, addElement := 5,
    addNode := 6, addExternalNode := 7, addSP_Constraint := 8, addMP_Constraint := 9,
    addLoadPattern := 10, addSP_ConstraintToPattern := 11, addNodalLoadToPattern := 12,
    addElementalLoadToPattern := 13, removeElement := 14, removeNode := 15,
    removeSP_Constraint := 16, removeMP_Constraint := 17, removeLoadPattern := 18,
    removeNodalLoadFromPattern := 19, removeElementalLoadFromPattern := 20,
    removeSP_ConstraintFromPattern := 21, getElementPtr := 22, getNodePtr := 23,
    applyLoad := 24, setCommitTag := 25, setCurrentTime := 26, setCommittedTime := 27,
    setLoadConstant := 28, update := 29, commit := 30, revertToLastCommit := 31,
    revertToStart := 32, setDomainDecompAnalysis := 33, setAnalysisAlgorithm := 34,
    setAnalysisIntegrator := 35, setAnalysisLinearSOE := 36, invokeChangeOnAnalysis := 37,
    clearAnalysis := 38, computeTang := 39, computeResidual := 40, computeNodalResponse := 41,
    getTang := 42, getResistingForce := 43, getCost := 44, Print := 45, DIE := 46 }

/-- Two passes over three proxies, each in its own order. -/
def examplePasses : List (List Nat) := [[1, 0, 2], [2, 1, 0]]

/-- A freshly constructed proxy with tag `1`. -/
def freshProxy : ShadowSubdomain := ShadowSubdomain.fresh 1

/-- A builder with class tag `77`. -/
def exampleBuilder : PartitionedModelBuilder := { classTag := 77 }

/-- A freshly constructed proxy on which `buildSubdomain` has been called. -/
def builtProxy : ShadowSubdomain := (buildSubdomain exampleCodes 0 freshProxy 2 exampleBuilder).proxy

/-- Two external nodes with three DOFs each. -/
def nodeSeven : Node := { tag := 7, classTag := 1, dbTag := 0, numberDOF := 3 }

/-- The second external node. -/
def nodeEight : Node := { tag := 8, classTag := 1, dbTag := 0, numberDOF := 3 }

/-- A proxy to which two external nodes were added before `buildSubdomain` was
called, and whose worker answers each get-remote-data request with the count
`1`. -/
def shrinkingProxy : Option ShadowSubdomain :=
  match addExternalNode exampleCodes 0 freshProxy nodeSeven with
  | none => none
  | some c1 =>
    match addExternalNode exampleCodes 0 c1.proxy nodeEight with
    | none => none
    | some c2 =>
      some { (buildSubdomain exampleCodes 0 c2.proxy 2 exampleBuilder).proxy with
             incoming := [Wire.id [1, 3, 0, 0], Wire.id [1, 3, 0, 0]] }

/-- An element with tag `5`. -/
def elementFive : Element := { tag := 5, classTag := 11, dbTag := 21 }

/-- A broker that knows every class tag. -/
def fullBroker : FEM_ObjectBroker := { getNewElement := fun _ => true, getNewNode := fun _ => true }

/-- An empty graph. -/
def emptyGraph : Graph := { numVertex := 0 }

/-- A proxy holding element `5` and node `7` in its local indices, whose worker
is about to answer a remove request with the class tag `11` and the object. -/
def holdingProxy (reply : List Wire) : Option ShadowSubdomain :=
  match addElement exampleCodes 0 freshProxy elementFive with
  | none => none
  | some c1 =>
    match addNode exampleCodes 0 c1.proxy nodeSeven with
    | none => none
    | some c2 => some { c2.proxy with incoming := reply }

/-- The proxy `holdingProxy` written out, about to receive the removed
element. -/
def holdingElement : ShadowSubdomain :=
  { freshProxy with msgData := [6, 1, 0, 0], theElements := [5], theNodes := [7]
                    numElements := 1, numNodes := 1, hasDomainChangedFlag := true
                    incoming := [Wire.id [11, 0, 0, 0],
                      Wire.object (MovableObject.element elementFive)] }

/-- The proxy `holdingProxy` written out, about to receive the removed node. -/
def holdingNode : ShadowSubdomain :=
  { freshProxy with msgData := [6, 1, 0, 0], theElements := [5], theNodes := [7]
                    numElements := 1, numNodes := 1, hasDomainChangedFlag := true
                    incoming := [Wire.id [1, 0, 0, 0],
                      Wire.object (MovableObject.node nodeSeven)] }

/-- The proxy `builtProxy` after one fetch in which the worker reported two
external nodes, `7` and `8`, and six DOFs. -/
def fetchedProxy : ShadowSubdomain :=
  { builtProxy with msgData := [2, 6, 0, 0], numExternalNodes := 2, numDOF := 6
                    theExternalNodes := [7, 8], gotRemoteData := true }

/-- The proxy `shrinkingProxy` written out. -/
def shrunkProxy : ShadowSubdomain :=
  { freshProxy with msgData := [3, 77, 2, 1], theNodes := [7, 8], theExternalNodes := [7, 8]
                    numDOF := 6, numNodes := 2, numExternalNodes := 2, buildRemote := true
                    hasDomainChangedFlag := true
                    incoming := [Wire.id [1, 3, 0, 0], Wire.id [1, 3, 0, 0]] }

/-- Four accessor calls in a row. -/
def exampleCalls : List Accessor :=
  [Accessor.getTang, Accessor.getNumDOF, Accessor.getExternalNodes, Accessor.getResistingForce]

/-- A model whose `commitDomain()` answers `-5`. -/
def failingCommitModel : AnalysisModel Int :=
  { getFEs := [scenarioA_source1], getDOFs := [], commitDomain := -5 }

/-- An integrator linked to `failingCommitModel` and the 3-equation target. -/
def failingCommit : IncrementalIntegrator (AssemblyTarget Int) Int :=
  setLinks (IncrementalIntegrator.new (AssemblyTarget Int) Int) failingCommitModel
    scenarioA_target

/-- An index array with a negative entry and two entries outside a 3-equation
system. -/
def frameIds : ID := [-1, 0, 3, 2, 5]

/-- A result vector holding `9` at its five positions. -/
def nines : Vector Int := [9, 9, 9, 9, 9]

/-- An analysis that leaves the work to the worker. -/
def remoteAnalysis : DomainDecompositionAnalysis :=
  { classTag := 50, doesIndependentAnalysis := false }

/-- An analysis that works independently. -/
def independentAnalysis : DomainDecompositionAnalysis :=
  { classTag := 51, doesIndependentAnalysis := true }

/-- A freshly constructed proxy to which `remoteAnalysis` has been attached. -/
def analysedProxy : ShadowSubdomain :=
  (setDomainDecompAnalysis exampleCodes 0 freshProxy remoteAnalysis).proxy

/-- A freshly constructed proxy to which `independentAnalysis` has been
attached. -/
def independentProxy : ShadowSubdomain :=
  (setDomainDecompAnalysis exampleCodes 0 freshProxy independentAnalysis).proxy

/-- A proxy holding element `5`, whose worker answers the remove request with
`-1` in slot 0 and has nothing else to say. -/
def missingElement : ShadowSubdomain :=
  { freshProxy with msgData := [5, 11, 21, 0], theElements := [5], numElements := 1
                    hasDomainChangedFlag := false
                    incoming := [Wire.id [-1, 0, 0, 0]] }

/-- A proxy on which two nodes and an element are about to be added and
removed again; the worker answers the two remove requests. -/
def busyProxy : ShadowSubdomain :=
  { freshProxy with incoming := [Wire.id [-1, 0, 0, 0], Wire.id [1, 0, 0, 0],
                      Wire.object (MovableObject.node nodeSeven)] }

/-- Adds and removes in which no tag is added while present. -/
def busyMutations : List Mutation :=
  [Mutation.addNode nodeSeven, Mutation.addExternalNode nodeEight,
    Mutation.addElement elementFive, Mutation.removeElement 5, Mutation.removeElement 5,
    Mutation.removeNode 7, Mutation.addNode nodeSeven]

/-- The proxy after each of the calls `busyMutations` on `busyProxy`. -/
def busyStates : List ShadowSubdomain :=
  (applyMutations exampleCodes fullBroker 0 busyProxy busyMutations).getD []

/-- Three proxies are constructed, the second one on a machine broker; the
first one is destroyed and a fourth proxy is constructed in its cell; then the
second one is destroyed. -/
def exampleLife : List Lifecycle :=
  [Lifecycle.construct 1 0, Lifecycle.constructOnMachine 2 1, Lifecycle.construct 3 2,
    Lifecycle.destroy 0, Lifecycle.construct 4 0, Lifecycle.destroy 1]

/-- The process after the events `exampleLife`. -/
def lifeWorld : World :=
  (lifecycles exampleCodes World.initial exampleLife).getD World.initial

/-- Two constructed proxies; the worker of the first one is going to answer a
fetch (one external node, three DOFs), a `getTang`, a remove request (with a
miss) and a `Print`. -/
def headerWorld : World :=
  { count := 0, numShadowSubdomains := 2, theShadowSubdomains := [0, 1]
    proxies := [{ ShadowSubdomain.fresh 1 with
                  incoming := [Wire.id [1, 3, 0, 0], Wire.id [7], Wire.matrix,
                    Wire.id [-1, 0, 0, 0], Wire.id [9, 9, 9, 9]] },
                ShadowSubdomain.fresh 2]
    freed := [], trace := [] }

/-- Ten invocations on the proxies of `headerWorld`. -/
def headerRun : List Invocation :=
  [Invocation.member 0 (Operation.addElement elementFive),
    Invocation.member 0 (Operation.buildSubdomain 2 exampleBuilder),
    Invocation.member 0 Operation.getTang,
    Invocation.member 0 (Operation.removeElement 5),
    Invocation.member 0 Operation.update,
    Invocation.computeTang 1,
    Invocation.member 0 Operation.Print,
    Invocation.member 0 Operation.revertToStart,
    Invocation.constructOnMachine 3 2,
    Invocation.destroy 0]

/-- The process and the log after the invocations `headerRun`. -/
def headerResult : World × List Entry :=
  (invokeAll exampleCodes fullBroker 2 headerWorld headerRun).getD (headerWorld, [])


/-! # Theorems -/

/-! ## Assembly into the Assembly Target -/

/-- A left fold whose step adds `g x` to an observation of the state adds the
sum of the `g x` to it. -/
theorem foldl_eval_add {S ι R : Type} [AddMonoid R] (ev : S → R) (f : S → ι → S) (g : ι → R)
    (l : List ι) (hf : ∀ s, ∀ x ∈ l, ev (f s x) = ev s + g x) (s : S) :
    ev (l.foldl f s) = ev s + (l.map g).sum := by
  induction l generalizing s with
  | nil => simp
  | cons x xs ih =>
    have hx := hf s x (List.mem_cons_self x xs)
    have hxs : ∀ s, ∀ y ∈ xs, ev (f s y) = ev s + g y :=
      fun s y hy => hf s y (List.mem_cons_of_mem x hy)
    simp only [List.foldl_cons, List.map_cons, List.sum_cons]
    rw [ih hxs, hx, add_assoc]

/-- A position of the mapping holds one of its entries. -/
theorem idAt_mem (id : ID) (i : Nat) (hi : i < id.length) : idAt id i ∈ id := by
  unfold idAt
  rw [List.getD_eq_getElem id 0 hi]
  exact List.getElem_mem hi

/-- An in-range mapping is in bounds at every position. -/
theorem inBounds_idAt (n : Nat) (id : ID) (h : mappingInRange n id) (i : Nat)
    (hi : i ∈ List.range id.length) : inBounds n (idAt id i) = true := by
  have := h _ (idAt_mem id i (List.mem_range.mp hi))
  simpa [inBounds] using this

/-- For an index in bounds, the storage position is the index itself. -/
theorem toNat_eq_iff_of_inBounds (n : Nat) (g : Int) (h : inBounds n g = true) (r : Nat) :
    r = g.toNat ↔ g = (r : Int) := by
  have h0 : 0 ≤ g := by
    simp [inBounds] at h
    exact h.1
  constructor
  · intro hr
    rw [hr, Int.toNat_of_nonneg h0]
  · intro hg
    rw [hg, Int.toNat_natCast]

/-- The accumulation loops of `addA` add the local contribution at every
entry. -/
theorem accumulateA_apply {R : Type} [AddMonoid R] (n : Nat) (m : Matrix R) (id : ID)
    (h : mappingInRange n id) (A : Nat → Nat → R) (r c : Nat) :
    accumulateA n m id A r c = A r c + localTangentAt m id r c := by
  unfold accumulateA localTangentAt
  refine foldl_eval_add (fun B : Nat → Nat → R => B r c) _ _ _ ?_ A
  intro A1 i hi
  refine foldl_eval_add (fun B : Nat → Nat → R => B r c) _ _ _ ?_ A1
  intro A2 j hj
  have hbi := inBounds_idAt n id h i hi
  have hbj := inBounds_idAt n id h j hj
  simp only [hbi, hbj, Bool.and_self, if_true, bumpA]
  have e1 := toNat_eq_iff_of_inBounds n _ hbi r
  have e2 := toNat_eq_iff_of_inBounds n _ hbj c
  by_cases hc : idAt id i = (r : Int) ∧ idAt id j = (c : Int)
  · rw [if_pos ⟨e1.mpr hc.1, e2.mpr hc.2⟩, if_pos hc]
  · rw [if_neg (fun h => hc ⟨e1.mp h.1, e2.mp h.2⟩), if_neg hc, add_zero]

/-- The accumulation loop of `addB` adds the local contribution at every
entry. -/
theorem accumulateB_apply {R : Type} [AddMonoid R] (n : Nat) (v : Vector R) (id : ID)
    (h : mappingInRange n id) (b : Nat → R) (r : Nat) :
    accumulateB n v id b r = b r + localVectorAt v id r := by
  unfold accumulateB localVectorAt
  refine foldl_eval_add (fun B : Nat → R => B r) _ _ _ ?_ b
  intro b1 i hi
  have hbi := inBounds_idAt n id h i hi
  simp only [hbi, if_true, bumpB]
  have e1 := toNat_eq_iff_of_inBounds n _ hbi r
  by_cases hc : idAt id i = (r : Int)
  · rw [if_pos (e1.mpr hc), if_pos hc]
  · rw [if_neg (fun h => hc (e1.mp h)), if_neg hc, add_zero]

/-- An in-range mapping makes the accumulation succeed. -/
theorem accumulateCode_of_inRange (n : Nat) (id : ID) (h : mappingInRange n id) :
    accumulateCode n id = 0 := by
  unfold accumulateCode
  rw [if_pos]
  rw [List.all_eq_true]
  intro g hg
  simpa [inBounds] using h g hg

/-- The element loop of `formTangent` on the Assembly Target: with in-range
mappings it adds the reference sum to `A` and changes nothing else. -/
theorem formTangent_fold {R : Type} [AddMonoid R] (flag : Int) (fes : List (FE_Element R)) :
    ∀ p : Pass (AssemblyTarget R) R, (∀ e ∈ fes, mappingInRange p.soe.n e.getID) →
      (fes.foldl (formTangentStep (assemblyTarget R) flag) p).soe.n = p.soe.n ∧
      (fes.foldl (formTangentStep (assemblyTarget R) flag) p).soe.b = p.soe.b ∧
      (fes.foldl (formTangentStep (assemblyTarget R) flag) p).soe.X = p.soe.X ∧
      (fes.foldl (formTangentStep (assemblyTarget R) flag) p).res = p.res ∧
      ∀ r c, (fes.foldl (formTangentStep (assemblyTarget R) flag) p).soe.A r c =
        p.soe.A r c + referenceA fes flag r c := by
  induction fes with
  | nil => intro p _; simp [referenceA]
  | cons e es ih =>
    intro p h
    have he := h e (List.mem_cons_self e es)
    have hes : ∀ x ∈ es, mappingInRange (formTangentStep (assemblyTarget R) flag p e).soe.n
        x.getID := fun x hx => h x (List.mem_cons_of_mem e hx)
    obtain ⟨h1, h2, h3, h4, h5⟩ := ih (formTangentStep (assemblyTarget R) flag p e) hes
    simp only [List.foldl_cons]
    refine ⟨h1, h2, h3, ?_, ?_⟩
    · rw [h4]
      simp [formTangentStep, assemblyTarget, accumulateCode_of_inRange _ _ he]
    · intro r c
      rw [h5 r c]
      simp only [formTangentStep, assemblyTarget, referenceA, List.map_cons, List.sum_cons]
      rw [accumulateA_apply _ _ _ he, add_assoc]

/-- With in-range mappings `formTangent` succeeds on the Assembly Target and
leaves `A` equal to the reference sum. -/
theorem formTangent_sum {R : Type} [AddMonoid R]
    (I : IncrementalIntegrator (AssemblyTarget R) R) (model : AnalysisModel R)
    (T : AssemblyTarget R) (statFlag : Int)
    (hM : I.theAnalysisModel = some model) (hS : I.theSOE = some T)
    (hin : ∀ e ∈ model.getFEs, mappingInRange T.n e.getID) :
    (formTangent (assemblyTarget R) I statFlag).ret = 0 ∧
    ∃ T1, (formTangent (assemblyTarget R) I statFlag).integ.theSOE = some T1 ∧
      T1.n = T.n ∧ ∀ r c, T1.A r c = referenceA model.getFEs statFlag r c := by
  obtain ⟨h1, -, -, h4, h5⟩ := formTangent_fold statFlag model.getFEs
    { soe := (assemblyTarget R).zeroA T, res := 0, trace := [Event.zeroA] } hin
  simp only [formTangent, hM, hS]
  refine ⟨h4, _, rfl, h1, ?_⟩
  intro r c
  rw [h5 r c]
  simp [assemblyTarget]

/-- C1: with model and Assembly Target linked and every mapping index of every
source inside `[0, n)`, `formTangent` succeeds and leaves the target matrix equal
to the reference sum, whatever `A` held before: for all `r`, `c`, `A(r,c)` is
the sum over every source and every local pair `(i, j)` mapped to `(r, c)` of
the source's tangent entry `(i, j)`. -/
theorem formTangent_eq_referenceA {R : Type} [AddMonoid R]
    (I : IncrementalIntegrator (AssemblyTarget R) R) (model : AnalysisModel R)
    (T : AssemblyTarget R) (statFlag : Int)
    (hM : I.theAnalysisModel = some model) (hS : I.theSOE = some T)
    (hin : ∀ e ∈ model.getFEs, mappingInRange T.n e.getID) :
    (formTangent (assemblyTarget R) I statFlag).ret = 0 ∧
    ∃ T1, (formTangent (assemblyTarget R) I statFlag).integ.theSOE = some T1 ∧
      T1.n = T.n ∧ ∀ r c, T1.A r c = referenceA model.getFEs statFlag r c := by
  obtain ⟨hn, -, -, hres, hA⟩ := formTangent_fold statFlag model.getFEs
    { soe := (assemblyTarget R).zeroA T, res := 0, trace := [Event.zeroA] } hin
  simp only [formTangent, hM, hS]
  refine ⟨hres, _, rfl, hn, fun r c => ?_⟩
  rw [hA r c]
  simp [assemblyTarget]

/-- Scenario A: two sources with mappings `[0,1]` and `[1,2]` and 2×2 identity
tangents give the 3×3 matrix `diag(1,2,1)`, whatever the target held before. -/
theorem formTangent_eq_referenceA_witness :
    (∀ e ∈ scenarioA_model.getFEs, mappingInRange scenarioA_target.n e.getID) ∧
    ((formTangent (assemblyTarget Int) scenarioA 0).ret = 0 ∧
      ∃ T1, (formTangent (assemblyTarget Int) scenarioA 0).integ.theSOE = some T1 ∧
        T1.n = scenarioA_target.n ∧
        ∀ r c, T1.A r c = referenceA scenarioA_model.getFEs 0 r c) ∧
    (∀ r c : Fin 3, matrixOf (formTangent (assemblyTarget Int) scenarioA 0) r c =
      if r = c then [1, 2, 1].getD r 0 else 0) :=
  ⟨by decide,
   formTangent_eq_referenceA scenarioA scenarioA_model scenarioA_target 0 rfl rfl (by decide),
   by decide⟩

/-- The loop of `formElementResidual` on the Assembly Target: with in-range
mappings it adds the element residuals to `b` and changes nothing else. -/
theorem formElementResidual_fold {R : Type} [AddMonoid R] (flag : Int)
    (fes : List (FE_Element R)) :
    ∀ p : Pass (AssemblyTarget R) R, (∀ e ∈ fes, mappingInRange p.soe.n e.getID) →
      (fes.foldl (formElementResidualStep (assemblyTarget R) flag) p).soe.n = p.soe.n ∧
      (fes.foldl (formElementResidualStep (assemblyTarget R) flag) p).soe.A = p.soe.A ∧
      (fes.foldl (formElementResidualStep (assemblyTarget R) flag) p).res = p.res ∧
      ∀ r, (fes.foldl (formElementResidualStep (assemblyTarget R) flag) p).soe.b r =
        p.soe.b r + (fes.map fun e => localVectorAt (e.getResidual flag) e.getID r).sum := by
  induction fes with
  | nil => intro p _; simp
  | cons e es ih =>
    intro p h
    have he := h e (List.mem_cons_self e es)
    have hes : ∀ x ∈ es,
        mappingInRange (formElementResidualStep (assemblyTarget R) flag p e).soe.n x.getID :=
      fun x hx => h x (List.mem_cons_of_mem e hx)
    obtain ⟨h1, h2, h4, h5⟩ := ih (formElementResidualStep (assemblyTarget R) flag p e) hes
    simp only [List.foldl_cons]
    refine ⟨h1, h2, ?_, ?_⟩
    · rw [h4]
      simp [formElementResidualStep, assemblyTarget, accumulateCode_of_inRange _ _ he]
    · intro r
      rw [h5 r]
      simp only [formElementResidualStep, assemblyTarget, List.map_cons, List.sum_cons]
      rw [accumulateB_apply _ _ _ he, add_assoc]

/-- The loop of `formNodalUnbalance` on the Assembly Target: with in-range
mappings it adds the nodal unbalances to `b` and changes nothing else. -/
theorem formNodalUnbalance_fold {R : Type} [AddMonoid R] (flag : Int)
    (dofs : List (DOF_Group R)) :
    ∀ p : Pass (AssemblyTarget R) R, (∀ d ∈ dofs, mappingInRange p.soe.n d.getID) →
      (dofs.foldl (formNodalUnbalanceStep (assemblyTarget R) flag) p).soe.n = p.soe.n ∧
      (dofs.foldl (formNodalUnbalanceStep (assemblyTarget R) flag) p).soe.A = p.soe.A ∧
      (dofs.foldl (formNodalUnbalanceStep (assemblyTarget R) flag) p).res = p.res ∧
      ∀ r, (dofs.foldl (formNodalUnbalanceStep (assemblyTarget R) flag) p).soe.b r =
        p.soe.b r + (dofs.map fun d => localVectorAt (d.getUnbalance flag) d.getID r).sum := by
  induction dofs with
  | nil => intro p _; simp
  | cons e es ih =>
    intro p h
    have he := h e (List.mem_cons_self e es)
    have hes : ∀ x ∈ es,
        mappingInRange (formNodalUnbalanceStep (assemblyTarget R) flag p e).soe.n x.getID :=
      fun x hx => h x (List.mem_cons_of_mem e hx)
    obtain ⟨h1, h2, h4, h5⟩ := ih (formNodalUnbalanceStep (assemblyTarget R) flag p e) hes
    simp only [List.foldl_cons]
    refine ⟨h1, h2, ?_, ?_⟩
    · rw [h4]
      simp [formNodalUnbalanceStep, assemblyTarget, accumulateCode_of_inRange _ _ he]
    · intro r
      rw [h5 r]
      simp only [formNodalUnbalanceStep, assemblyTarget, List.map_cons, List.sum_cons]
      rw [accumulateB_apply _ _ _ he, add_assoc]

/-- With in-range mappings `formUnbalance` succeeds on the Assembly Target,
keeps `A` and leaves `b` equal to the reference sum. -/
theorem formUnbalance_eq_referenceB {R : Type} [AddMonoid R]
    (I : IncrementalIntegrator (AssemblyTarget R) R) (model : AnalysisModel R)
    (T : AssemblyTarget R)
    (hM : I.theAnalysisModel = some model) (hS : I.theSOE = some T)
    (hinE : ∀ e ∈ model.getFEs, mappingInRange T.n e.getID)
    (hinD : ∀ d ∈ model.getDOFs, mappingInRange T.n d.getID) :
    (formUnbalance (assemblyTarget R) I).ret = 0 ∧
    ∃ T1, (formUnbalance (assemblyTarget R) I).integ.theSOE = some T1 ∧
      T1.n = T.n ∧ T1.A = T.A ∧ ∀ r, T1.b r = referenceB model I.statusFlag r := by
  obtain ⟨e1, e2, e3, e4⟩ := formElementResidual_fold I.statusFlag model.getFEs
    { soe := (assemblyTarget R).zeroB T, res := 0, trace := [] } hinE
  have hinD1 : ∀ d ∈ model.getDOFs, mappingInRange
      (formElementResidual (assemblyTarget R) I.statusFlag model
        ((assemblyTarget R).zeroB T)).soe.n d.getID := by
    intro d hd
    unfold formElementResidual
    rw [e1]
    exact hinD d hd
  obtain ⟨d1, d2, d3, d4⟩ := formNodalUnbalance_fold I.statusFlag model.getDOFs
    { soe := (formElementResidual (assemblyTarget R) I.statusFlag model
        ((assemblyTarget R).zeroB T)).soe, res := 0, trace := [] } hinD1
  have hr1 : (formElementResidual (assemblyTarget R) I.statusFlag model
      ((assemblyTarget R).zeroB T)).res = 0 := e3
  have hr2 : (formNodalUnbalance (assemblyTarget R) I.statusFlag model
      (formElementResidual (assemblyTarget R) I.statusFlag model
        ((assemblyTarget R).zeroB T)).soe).res = 0 := d3
  simp only [formUnbalance, hM, hS, hr1, hr2, lt_self_iff_false, if_false]
  refine ⟨trivial, _, rfl, ?_, ?_, ?_⟩
  · exact d1.trans e1
  · exact d2.trans e2
  · intro r
    have := d4 r
    unfold formNodalUnbalance
    rw [this]
    have := e4 r
    unfold formElementResidual
    rw [this]
    simp [assemblyTarget, referenceB]

/-- "formTangent followed by formUnbalance" on the Assembly Target, with
in-range mappings: both succeed and `A` and `b` are the reference sums. -/
theorem assemble_eq_reference {R : Type} [AddMonoid R]
    (I : IncrementalIntegrator (AssemblyTarget R) R) (model : AnalysisModel R)
    (T : AssemblyTarget R) (statFlag : Int)
    (hM : I.theAnalysisModel = some model) (hS : I.theSOE = some T)
    (hinE : ∀ e ∈ model.getFEs, mappingInRange T.n e.getID)
    (hinD : ∀ d ∈ model.getDOFs, mappingInRange T.n d.getID) :
    (formTangent (assemblyTarget R) I statFlag).ret = 0 ∧
    (assemble (assemblyTarget R) I statFlag).ret = 0 ∧
    ∃ T1, (assemble (assemblyTarget R) I statFlag).integ.theSOE = some T1 ∧
      (∀ r c, T1.A r c = referenceA model.getFEs statFlag r c) ∧
      ∀ r, T1.b r = referenceB model statFlag r := by
  obtain ⟨hret, T0, hT0, hn, hA⟩ := formTangent_sum I model T statFlag hM hS hinE
  have hM1 : (formTangent (assemblyTarget R) I statFlag).integ.theAnalysisModel = some model := by
    simp [formTangent, hM, hS]
  have hF : (formTangent (assemblyTarget R) I statFlag).integ.statusFlag = statFlag := by
    simp [formTangent, hM, hS]
  obtain ⟨hret2, T1, hT1, -, hA1, hb1⟩ := formUnbalance_eq_referenceB
    (formTangent (assemblyTarget R) I statFlag).integ model T0 hM1 hT0
    (by rw [hn]; exact hinE) (by rw [hn]; exact hinD)
  refine ⟨hret, hret2, T1, hT1, ?_, ?_⟩
  · intro r c
    rw [hA1, hA r c]
  · intro r
    rw [hb1 r, hF]

/-- The reference sum for the matrix does not depend on the order of the
sources. -/
theorem referenceA_perm {R : Type} [AddCommMonoid R] (fes fes1 : List (FE_Element R))
    (h : fes1.Perm fes) (flag : Int) (r c : Nat) :
    referenceA fes1 flag r c = referenceA fes flag r c := by
  unfold referenceA
  exact (h.map _).sum_eq

/-- The reference sum for the vector does not depend on the order of the
sources. -/
theorem referenceB_perm {R : Type} [AddCommMonoid R] (model model1 : AnalysisModel R)
    (hfe : model1.getFEs.Perm model.getFEs) (hdof : model1.getDOFs.Perm model.getDOFs)
    (flag : Int) (r : Nat) : referenceB model1 flag r = referenceB model flag r := by
  unfold referenceB
  rw [(hfe.map _).sum_eq, (hdof.map _).sum_eq]

/-- C2 (assembly commutativity): for sources with in-range mappings and every
permutation of the order in which the model's element iterator and DOF-group
iterator yield them, `formTangent` followed by `formUnbalance` produces the same
Assembly Target matrix `A` and vector `b` (and the same return codes) as with
the unpermuted order. -/
theorem assemble_perm_invariant {R : Type} [AddCommMonoid R]
    (I : IncrementalIntegrator (AssemblyTarget R) R) (model model1 : AnalysisModel R)
    (T : AssemblyTarget R) (statFlag : Int)
    (hfe : model1.getFEs.Perm model.getFEs) (hdof : model1.getDOFs.Perm model.getDOFs)
    (hinE : ∀ e ∈ model.getFEs, mappingInRange T.n e.getID)
    (hinD : ∀ d ∈ model.getDOFs, mappingInRange T.n d.getID) :
    (assemble (assemblyTarget R) (setLinks I model1 T) statFlag).ret =
      (assemble (assemblyTarget R) (setLinks I model T) statFlag).ret ∧
    ∃ T1 T2, (assemble (assemblyTarget R) (setLinks I model T) statFlag).integ.theSOE = some T1 ∧
      (assemble (assemblyTarget R) (setLinks I model1 T) statFlag).integ.theSOE = some T2 ∧
      T2.A = T1.A ∧ T2.b = T1.b := by
  obtain ⟨-, hr, T1, hT1, hA1, hb1⟩ := assemble_eq_reference (setLinks I model T) model T statFlag
    rfl rfl hinE hinD
  obtain ⟨-, hr2, T2, hT2, hA2, hb2⟩ := assemble_eq_reference (setLinks I model1 T) model1 T
    statFlag rfl rfl (fun e he => hinE e (hfe.mem_iff.mp he))
    (fun d hd => hinD d (hdof.mem_iff.mp hd))
  refine ⟨hr2.trans hr.symm, T1, T2, hT1, hT2, ?_, ?_⟩
  · funext r c
    rw [hA2, hA1, referenceA_perm _ _ hfe]
  · funext r
    rw [hb2, hb1, referenceB_perm _ _ hfe hdof]

/-- Reversing both iteration orders of a model with two elements and two DOF
groups gives the same matrix and vector. -/
theorem assemble_perm_invariant_witness :
    permModelSwapped.getFEs.Perm permModel.getFEs ∧
    permModelSwapped.getDOFs.Perm permModel.getDOFs ∧
    (∀ e ∈ permModel.getFEs, mappingInRange scenarioA_target.n e.getID) ∧
    (∀ d ∈ permModel.getDOFs, mappingInRange scenarioA_target.n d.getID) ∧
    ((assemble (assemblyTarget Int) (setLinks scenarioA permModelSwapped scenarioA_target) 0).ret =
        (assemble (assemblyTarget Int) (setLinks scenarioA permModel scenarioA_target) 0).ret ∧
      ∃ T1 T2,
        (assemble (assemblyTarget Int)
          (setLinks scenarioA permModel scenarioA_target) 0).integ.theSOE = some T1 ∧
        (assemble (assemblyTarget Int)
          (setLinks scenarioA permModelSwapped scenarioA_target) 0).integ.theSOE = some T2 ∧
        T2.A = T1.A ∧ T2.b = T1.b) :=
  ⟨List.Perm.swap _ _ _, List.Perm.swap _ _ _, by decide, by decide,
   assemble_perm_invariant scenarioA permModel permModelSwapped scenarioA_target 0
     (List.Perm.swap _ _ _) (List.Perm.swap _ _ _) (by decide) (by decide)⟩


/-! ## Order of the operations and return codes -/

/-- The shape shared by the three assembly loops: each iteration queries its
source, accumulates once, and overwrites the result by `code` when the
accumulation returned a negative value.  The loop then performs exactly one
accumulation per source, in order, and its result is `code` as soon as one of
them failed and the initial result otherwise. -/
theorem assembly_loop {σ R ι : Type} (f : Pass σ R → ι → Pass σ R) (code : Int)
    (qev : ι → Event R) (opev : ι → Int → Event R) (op : ι → SOEOp R)
    (hq : ∀ x, (qev x).soeOp = none ∧ (qev x).failed = false ∧ (qev x).isQuery = true)
    (ho : ∀ x r, (opev x r).soeOp = some (op x) ∧ (opev x r).failed = decide (r < 0) ∧
      (opev x r).isQuery = false)
    (hf : ∀ p x, ∃ r, (f p x).trace = p.trace ++ [qev x, opev x r] ∧
      (f p x).res = if r < 0 then code else p.res)
    (l : List ι) :
    ∀ p, ∃ tr, (l.foldl f p).trace = p.trace ++ tr ∧ soeOps tr = l.map op ∧
      tr.filter Event.isQuery = l.map qev ∧
      ((∃ ev ∈ tr, ev.failed = true) → (l.foldl f p).res = code) ∧
      ((∀ ev ∈ tr, ev.failed = false) → (l.foldl f p).res = p.res) := by
  induction l with
  | nil =>
    intro p
    exact ⟨[], by simp, rfl, rfl, by simp, by simp⟩
  | cons x xs ih =>
    intro p
    obtain ⟨r, htr, hres⟩ := hf p x
    obtain ⟨tr, h1, h2, h3, h4, h5⟩ := ih (f p x)
    obtain ⟨hq1, hq2, hq3⟩ := hq x
    obtain ⟨ho1, ho2, ho3⟩ := ho x r
    refine ⟨[qev x, opev x r] ++ tr, ?_, ?_, ?_, ?_, ?_⟩
    · rw [List.foldl_cons, h1, htr, List.append_assoc]
    · simp only [soeOps] at h2 ⊢
      simp [List.filterMap_cons, hq1, ho1, h2]
    · simp [List.filter_cons, hq3, ho3, h3]
    · rintro ⟨ev, hev, hfail⟩
      rw [List.foldl_cons]
      by_cases hex : ∃ ev ∈ tr, ev.failed = true
      · exact h4 hex
      · have hall : ∀ ev ∈ tr, ev.failed = false := by
          intro e he
          by_contra hne
          exact hex ⟨e, he, by simpa using hne⟩
        rw [h5 hall, hres]
        have hmem : ev = qev x ∨ ev = opev x r ∨ ev ∈ tr := by simpa using hev
        rcases hmem with h | h | h
        · rw [h, hq2] at hfail
          exact absurd hfail (by simp)
        · rw [h, ho2] at hfail
          rw [if_pos (by simpa using hfail)]
        · exact absurd (hall ev h) (by simp [hfail])
    · intro hall
      rw [List.foldl_cons]
      have hall1 : ∀ ev ∈ tr, ev.failed = false := fun e he => hall e (by simp [he])
      have hr : (opev x r).failed = false := hall _ (by simp)
      rw [h5 hall1, hres]
      rw [ho2] at hr
      rw [if_neg (by simpa using hr)]

/-- The loop of `formTangent`, for any `LinearSOE`. -/
theorem formTangent_loop {σ R : Type} (ops : LinearSOE σ R) (flag : Int)
    (fes : List (FE_Element R)) (p : Pass σ R) :
    ∃ tr, (fes.foldl (formTangentStep ops flag) p).trace = p.trace ++ tr ∧
      soeOps tr = fes.map (fun e => SOEOp.addA (e.getTangent flag) e.getID) ∧
      tr.filter Event.isQuery = fes.map (fun e => Event.queryFE e.getID) ∧
      ((∃ ev ∈ tr, ev.failed = true) → (fes.foldl (formTangentStep ops flag) p).res = -3) ∧
      ((∀ ev ∈ tr, ev.failed = false) → (fes.foldl (formTangentStep ops flag) p).res = p.res) :=
  assembly_loop (formTangentStep ops flag) (-3) (fun e => Event.queryFE e.getID)
    (fun e r => Event.addA (e.getTangent flag) e.getID r)
    (fun e => SOEOp.addA (e.getTangent flag) e.getID)
    (fun _ => ⟨rfl, rfl, rfl⟩) (fun _ _ => ⟨rfl, rfl, rfl⟩)
    (fun p e => ⟨(ops.addA p.soe (e.getTangent flag) e.getID).2, rfl, rfl⟩) fes p

/-- The loop of `formElementResidual`, for any `LinearSOE`. -/
theorem formElementResidual_loop {σ R : Type} (ops : LinearSOE σ R) (flag : Int)
    (model : AnalysisModel R) (soe : σ) :
    ∃ tr, (formElementResidual ops flag model soe).trace = tr ∧
      soeOps tr = model.getFEs.map (fun e => SOEOp.addB (e.getResidual flag) e.getID) ∧
      tr.filter Event.isQuery = model.getFEs.map (fun e => Event.queryFE e.getID) ∧
      ((∃ ev ∈ tr, ev.failed = true) → (formElementResidual ops flag model soe).res = -2) ∧
      ((∀ ev ∈ tr, ev.failed = false) → (formElementResidual ops flag model soe).res = 0) := by
  have h := assembly_loop (formElementResidualStep ops flag) (-2)
    (fun e => Event.queryFE e.getID)
    (fun e r => Event.addB (e.getResidual flag) e.getID r)
    (fun e => SOEOp.addB (e.getResidual flag) e.getID)
    (fun _ => ⟨rfl, rfl, rfl⟩) (fun _ _ => ⟨rfl, rfl, rfl⟩)
    (fun p e => ⟨(ops.addB p.soe (e.getResidual flag) e.getID).2, rfl, rfl⟩) model.getFEs
    { soe := soe, res := 0, trace := [] }
  simpa [formElementResidual] using h

/-- The loop of `formNodalUnbalance`, for any `LinearSOE`. -/
theorem formNodalUnbalance_loop {σ R : Type} (ops : LinearSOE σ R) (flag : Int)
    (model : AnalysisModel R) (soe : σ) :
    ∃ tr, (formNodalUnbalance ops flag model soe).trace = tr ∧
      soeOps tr = model.getDOFs.map (fun d => SOEOp.addB (d.getUnbalance flag) d.getID) ∧
      tr.filter Event.isQuery = model.getDOFs.map (fun d => Event.queryDOF d.getID) ∧
      ((∃ ev ∈ tr, ev.failed = true) → (formNodalUnbalance ops flag model soe).res = -2) ∧
      ((∀ ev ∈ tr, ev.failed = false) → (formNodalUnbalance ops flag model soe).res = 0) := by
  have h := assembly_loop (formNodalUnbalanceStep ops flag) (-2)
    (fun d => Event.queryDOF d.getID)
    (fun d r => Event.addB (d.getUnbalance flag) d.getID r)
    (fun d => SOEOp.addB (d.getUnbalance flag) d.getID)
    (fun _ => ⟨rfl, rfl, rfl⟩) (fun _ _ => ⟨rfl, rfl, rfl⟩)
    (fun p d => ⟨(ops.addB p.soe (d.getUnbalance flag) d.getID).2, rfl, rfl⟩) model.getDOFs
    { soe := soe, res := 0, trace := [] }
  simpa [formNodalUnbalance] using h

/-- C3: `formTangent` is best-effort.  With model and Assembly Target linked,
for every list of sources and every `LinearSOE`, the operations on the target
are `zeroA` followed by exactly one `addA` per source in iteration order
(whether or not an earlier `addA` failed); the call returns `-3` if and only if
at least one `addA` returned a negative code and `0` if and only if none did;
and `-3` differs from the code `-1` that `formTangent` returns on an integrator
that has not been linked. -/
theorem formTangent_best_effort {σ R : Type} (ops : LinearSOE σ R)
    (I : IncrementalIntegrator σ R) (model : AnalysisModel R) (soe : σ) (statFlag : Int)
    (hM : I.theAnalysisModel = some model) (hS : I.theSOE = some soe) :
    soeOps (formTangent ops I statFlag).trace =
      SOEOp.zeroA :: model.getFEs.map (fun e => SOEOp.addA (e.getTangent statFlag) e.getID) ∧
    ((formTangent ops I statFlag).ret = -3 ↔
      ∃ ev ∈ (formTangent ops I statFlag).trace, ev.failed = true) ∧
    ((formTangent ops I statFlag).ret = 0 ↔
      ∀ ev ∈ (formTangent ops I statFlag).trace, ev.failed = false) ∧
    (formTangent ops (IncrementalIntegrator.new σ R) statFlag).ret = -1 ∧
    ((formTangent ops I statFlag).ret = -3 →
      (formTangent ops I statFlag).ret ≠
        (formTangent ops (IncrementalIntegrator.new σ R) statFlag).ret) := by
  obtain ⟨tr, h1, h2, -, h4, h5⟩ := formTangent_loop ops statFlag model.getFEs
    { soe := ops.zeroA soe, res := 0, trace := [Event.zeroA] }
  have htr : (formTangent ops I statFlag).trace = Event.zeroA :: tr := by
    simp only [formTangent, hM, hS]
    exact h1
  have hret : (formTangent ops I statFlag).ret =
      (model.getFEs.foldl (formTangentStep ops statFlag)
        { soe := ops.zeroA soe, res := 0, trace := [Event.zeroA] }).res := by
    simp only [formTangent, hM, hS]
  have hnew : (formTangent ops (IncrementalIntegrator.new σ R) statFlag).ret = -1 := rfl
  have hmem : (∃ ev ∈ Event.zeroA :: tr, ev.failed = true) ↔ ∃ ev ∈ tr, ev.failed = true := by
    constructor
    · rintro ⟨ev, hev, hf⟩
      rcases List.mem_cons.mp hev with h | h
      · rw [h] at hf
        exact absurd hf (by simp [Event.failed])
      · exact ⟨ev, h, hf⟩
    · rintro ⟨ev, hev, hf⟩
      exact ⟨ev, List.mem_cons_of_mem _ hev, hf⟩
  have hdich : (∃ ev ∈ tr, ev.failed = true) ∨ ∀ ev ∈ tr, ev.failed = false := by
    by_cases hex : ∃ ev ∈ tr, ev.failed = true
    · exact Or.inl hex
    · refine Or.inr (fun e he => ?_)
      by_contra hne
      exact hex ⟨e, he, by simpa using hne⟩
  refine ⟨?_, ?_, ?_, hnew, ?_⟩
  · rw [htr]
    simp only [soeOps] at h2 ⊢
    simp [List.filterMap_cons, Event.soeOp, h2]
  · rw [htr, hmem, hret]
    constructor
    · intro h3
      rcases hdich with h | h
      · exact h
      · rw [h5 h] at h3
        exact absurd h3 (by norm_num)
    · exact h4
  · rw [htr, hret]
    constructor
    · intro h0 ev hev
      rcases List.mem_cons.mp hev with h | h
      · rw [h]
        rfl
      · rcases hdich with hd | hd
        · rw [h4 hd] at h0
          exact absurd h0 (by norm_num)
        · exact hd ev h
    · intro hall
      exact h5 (fun e he => hall e (List.mem_cons_of_mem _ he))
  · intro h3
    rw [h3, hnew]
    decide

/-- A model whose first source has the out-of-bounds mapping `[0,3]`: the call
returns `-3`, both sources were accumulated exactly once in order, and the
second source's tangent is in the target. -/
theorem formTangent_best_effort_witness :
    bestEffort.theAnalysisModel = some bestEffortModel ∧
    bestEffort.theSOE = some scenarioA_target ∧
    (soeOps (formTangent (assemblyTarget Int) bestEffort 0).trace =
      SOEOp.zeroA :: bestEffortModel.getFEs.map (fun e => SOEOp.addA (e.getTangent 0) e.getID) ∧
    ((formTangent (assemblyTarget Int) bestEffort 0).ret = -3 ↔
      ∃ ev ∈ (formTangent (assemblyTarget Int) bestEffort 0).trace, ev.failed = true) ∧
    ((formTangent (assemblyTarget Int) bestEffort 0).ret = 0 ↔
      ∀ ev ∈ (formTangent (assemblyTarget Int) bestEffort 0).trace, ev.failed = false) ∧
    (formTangent (assemblyTarget Int)
      (IncrementalIntegrator.new (AssemblyTarget Int) Int) 0).ret = -1 ∧
    ((formTangent (assemblyTarget Int) bestEffort 0).ret = -3 →
      (formTangent (assemblyTarget Int) bestEffort 0).ret ≠
        (formTangent (assemblyTarget Int)
          (IncrementalIntegrator.new (AssemblyTarget Int) Int) 0).ret)) ∧
    (formTangent (assemblyTarget Int) bestEffort 0).ret = -3 ∧
    (formTangent (assemblyTarget Int) bestEffort 0).trace =
      [Event.zeroA, Event.queryFE [0, 3], Event.addA identity2 [0, 3] (-1),
        Event.queryFE [1, 2], Event.addA identity2 [1, 2] 0] ∧
    matrixOf (formTangent (assemblyTarget Int) bestEffort 0) 2 2 = 1 :=
  ⟨rfl, rfl,
   formTangent_best_effort (assemblyTarget Int) bestEffort bestEffortModel scenarioA_target 0
     rfl rfl,
   by decide, by decide, by decide⟩

/-- C4: configuration errors abort.  When the model or the Assembly Target has
not been linked, `formTangent` and `formUnbalance` each return `-1`, perform no
operation on the Assembly Target and query no Contribution Source (the trace of
the call is empty and both links are as before); `commit` with no model linked
returns `-1`; `getLastResponse` with no Assembly Target linked returns `-1` and
leaves the result vector unchanged. -/
theorem unlinked_aborts {σ R : Type} [Zero R] (ops : LinearSOE σ R)
    (I : IncrementalIntegrator σ R) (statFlag : Int) (result : Vector R) (id : ID)
    (h : I.theAnalysisModel = none ∨ I.theSOE = none) :
    ((formTangent ops I statFlag).ret = -1 ∧ (formTangent ops I statFlag).trace = [] ∧
      (formTangent ops I statFlag).integ.theSOE = I.theSOE ∧
      (formTangent ops I statFlag).integ.theAnalysisModel = I.theAnalysisModel) ∧
    ((formUnbalance ops I).ret = -1 ∧ (formUnbalance ops I).trace = [] ∧
      (formUnbalance ops I).integ = I) ∧
    (I.theAnalysisModel = none → (commit I).ret = -1 ∧ (commit I).trace = [] ∧
      (commit I).integ = I) ∧
    (I.theSOE = none → (getLastResponse ops I result id).res = -1 ∧
      (getLastResponse ops I result id).result = result ∧
      (getLastResponse ops I result id).trace = []) := by
  obtain ⟨flag, s, m⟩ := I
  refine ⟨?_, ?_, ?_, ?_⟩
  · rcases h with h | h
    · simp only at h
      subst h
      simp [formTangent]
    · simp only at h
      subst h
      cases m <;> simp [formTangent]
  · rcases h with h | h
    · simp only at h
      subst h
      simp [formUnbalance]
    · simp only at h
      subst h
      cases m <;> simp [formUnbalance]
  · intro hm
    simp only at hm
    subst hm
    simp [commit]
  · intro hs
    simp only at hs
    subst hs
    simp [getLastResponse]

/-- On an integrator on which `setLinks` was never called, all four calls
abort with `-1`. -/
theorem unlinked_aborts_witness :
    (unlinked.theAnalysisModel = none ∨ unlinked.theSOE = none) ∧
    (((formTangent (assemblyTarget Int) unlinked 0).ret = -1 ∧
      (formTangent (assemblyTarget Int) unlinked 0).trace = [] ∧
      (formTangent (assemblyTarget Int) unlinked 0).integ.theSOE = unlinked.theSOE ∧
      (formTangent (assemblyTarget Int) unlinked 0).integ.theAnalysisModel =
        unlinked.theAnalysisModel) ∧
    ((formUnbalance (assemblyTarget Int) unlinked).ret = -1 ∧
      (formUnbalance (assemblyTarget Int) unlinked).trace = [] ∧
      (formUnbalance (assemblyTarget Int) unlinked).integ = unlinked) ∧
    (unlinked.theAnalysisModel = none → (commit unlinked).ret = -1 ∧
      (commit unlinked).trace = [] ∧ (commit unlinked).integ = unlinked) ∧
    (unlinked.theSOE = none →
      (getLastResponse (assemblyTarget Int) unlinked [4, 5] [0, 1]).res = -1 ∧
      (getLastResponse (assemblyTarget Int) unlinked [4, 5] [0, 1]).result = [4, 5] ∧
      (getLastResponse (assemblyTarget Int) unlinked [4, 5] [0, 1]).trace = [])) ∧
    (commit unlinked).ret = -1 ∧
    (getLastResponse (assemblyTarget Int) unlinked [4, 5] [0, 1]).result = [4, 5] :=
  ⟨Or.inl rfl, unlinked_aborts (assemblyTarget Int) unlinked 0 [4, 5] [0, 1] (Or.inl rfl),
   by decide, by decide⟩

/-- No event of a list failed, or one did. -/
theorem failed_dichotomy {R : Type} (tr : List (Event R)) :
    (∃ ev ∈ tr, ev.failed = true) ∨ ∀ ev ∈ tr, ev.failed = false := by
  by_cases hex : ∃ ev ∈ tr, ev.failed = true
  · exact Or.inl hex
  · refine Or.inr (fun e he => ?_)
    by_contra hne
    exact hex ⟨e, he, by simpa using hne⟩

/-- C5: `formUnbalance` has a fixed order.  With model and Assembly Target
linked and no accumulation failing, the operations on the Assembly Target are
exactly `zeroB`, then one `addB` per element in iteration order, then one `addB`
per nodal DOF group in iteration order; the sources are queried elements first,
DOF groups afterwards (so no nodal contribution is added before the last
element contribution); and the call returns `0`. -/
theorem formUnbalance_fixed_order {σ R : Type} (ops : LinearSOE σ R)
    (I : IncrementalIntegrator σ R) (model : AnalysisModel R) (soe : σ)
    (hM : I.theAnalysisModel = some model) (hS : I.theSOE = some soe)
    (hok : ∀ ev ∈ (formUnbalance ops I).trace, ev.failed = false) :
    (formUnbalance ops I).ret = 0 ∧
    soeOps (formUnbalance ops I).trace =
      SOEOp.zeroB ::
        (model.getFEs.map (fun e => SOEOp.addB (e.getResidual I.statusFlag) e.getID) ++
          model.getDOFs.map (fun d => SOEOp.addB (d.getUnbalance I.statusFlag) d.getID)) ∧
    (formUnbalance ops I).trace.filter Event.isQuery =
      model.getFEs.map (fun e => Event.queryFE e.getID) ++
        model.getDOFs.map (fun d => Event.queryDOF d.getID) := by
  obtain ⟨tr1, e1, e2, e3, e4, e5⟩ :=
    formElementResidual_loop ops I.statusFlag model (ops.zeroB soe)
  obtain ⟨tr2, d1, d2, d3, d4, d5⟩ := formNodalUnbalance_loop ops I.statusFlag model
    (formElementResidual ops I.statusFlag model (ops.zeroB soe)).soe
  have hr1 : (formElementResidual ops I.statusFlag model (ops.zeroB soe)).res = 0 := by
    rcases failed_dichotomy tr1 with hf | hf
    · exfalso
      have hneg := e4 hf
      obtain ⟨ev, hev, hfail⟩ := hf
      have hmem : ev ∈ (formUnbalance ops I).trace := by
        simp only [formUnbalance, hM, hS, hneg]
        simp [e1, hev]
      rw [hok ev hmem] at hfail
      exact absurd hfail (by simp)
    · exact e5 hf
  have hr2 : (formNodalUnbalance ops I.statusFlag model
      (formElementResidual ops I.statusFlag model (ops.zeroB soe)).soe).res = 0 := by
    rcases failed_dichotomy tr2 with hf | hf
    · exfalso
      have hneg := d4 hf
      obtain ⟨ev, hev, hfail⟩ := hf
      have hmem : ev ∈ (formUnbalance ops I).trace := by
        simp only [formUnbalance, hM, hS, hr1, hneg]
        simp [d1, hev]
      rw [hok ev hmem] at hfail
      exact absurd hfail (by simp)
    · exact d5 hf
  have htr : (formUnbalance ops I).trace = Event.zeroB :: (tr1 ++ tr2) := by
    simp only [formUnbalance, hM, hS, hr1, hr2, lt_self_iff_false, if_false, e1, d1]
  refine ⟨?_, ?_, ?_⟩
  · simp only [formUnbalance, hM, hS, hr1, hr2, lt_self_iff_false, if_false]
  · rw [htr]
    simp only [soeOps] at e2 d2 ⊢
    simp [List.filterMap_cons, List.filterMap_append, Event.soeOp, e2, d2]
  · rw [htr]
    simp [List.filter_cons, Event.isQuery, e3, d3]

/-- Scenario A with its DOF group: `zeroB`, the two element residuals, then the
nodal unbalance. -/
theorem formUnbalance_fixed_order_witness :
    scenarioA.theAnalysisModel = some scenarioA_model ∧
    scenarioA.theSOE = some scenarioA_target ∧
    (∀ ev ∈ (formUnbalance (assemblyTarget Int) scenarioA).trace, ev.failed = false) ∧
    ((formUnbalance (assemblyTarget Int) scenarioA).ret = 0 ∧
      soeOps (formUnbalance (assemblyTarget Int) scenarioA).trace =
        SOEOp.zeroB ::
          (scenarioA_model.getFEs.map
              (fun e => SOEOp.addB (e.getResidual scenarioA.statusFlag) e.getID) ++
            scenarioA_model.getDOFs.map
              (fun d => SOEOp.addB (d.getUnbalance scenarioA.statusFlag) d.getID)) ∧
      (formUnbalance (assemblyTarget Int) scenarioA).trace.filter Event.isQuery =
        scenarioA_model.getFEs.map (fun e => Event.queryFE e.getID) ++
          scenarioA_model.getDOFs.map (fun d => Event.queryDOF d.getID)) ∧
    soeOps (formUnbalance (assemblyTarget Int) scenarioA).trace =
      [SOEOp.zeroB, SOEOp.addB [3, 4] [0, 1], SOEOp.addB [5, 6] [1, 2],
        SOEOp.addB [10, 20] [0, 2]] :=
  ⟨rfl, rfl, by decide,
   formUnbalance_fixed_order (assemblyTarget Int) scenarioA scenarioA_model scenarioA_target
     rfl rfl (by decide),
   by decide⟩

/-- C6, counterexample.  The first element of `bestEffortModel` has the
out-of-bounds mapping `[0,3]`, so its `addB` fails.  The remaining element is
still accumulated, but the nodal unbalance of the DOF group (`addB [10,20]
[0,2]`) is never accumulated, and the call returns `-1`, which is the very code
`formUnbalance` returns when nothing is linked. -/
theorem formUnbalance_partial_failure_counterexample :
    (∃ ev ∈ (formElementResidual (assemblyTarget Int) bestEffort.statusFlag bestEffortModel
        ((assemblyTarget Int).zeroB scenarioA_target)).trace, ev.failed = true) ∧
    soeOps (formUnbalance (assemblyTarget Int) bestEffort).trace =
      [SOEOp.zeroB, SOEOp.addB [8, 9] [0, 3], SOEOp.addB [5, 6] [1, 2]] ∧
    SOEOp.addB [10, 20] [0, 2] ∉ soeOps (formUnbalance (assemblyTarget Int) bestEffort).trace ∧
    (formUnbalance (assemblyTarget Int) bestEffort).ret = -1 ∧
    (formUnbalance (assemblyTarget Int) bestEffort).ret =
      (formUnbalance (assemblyTarget Int) unlinked).ret := by
  decide

/-- C6, amended.  With model and Assembly Target linked, when the `addB` of
some element residual fails, the element pass still runs to its end (after
`zeroB`, exactly one `addB` per element in iteration order), no nodal DOF group
is queried or accumulated, and `formUnbalance` returns `-1`, the same code it
returns when nothing is linked. -/
theorem formUnbalance_element_failure {σ R : Type} (ops : LinearSOE σ R)
    (I : IncrementalIntegrator σ R) (model : AnalysisModel R) (soe : σ)
    (hM : I.theAnalysisModel = some model) (hS : I.theSOE = some soe)
    (hfail : ∃ ev ∈ (formElementResidual ops I.statusFlag model (ops.zeroB soe)).trace,
      ev.failed = true) :
    (formUnbalance ops I).ret = -1 ∧
    soeOps (formUnbalance ops I).trace =
      SOEOp.zeroB :: model.getFEs.map (fun e => SOEOp.addB (e.getResidual I.statusFlag) e.getID) ∧
    (formUnbalance ops I).trace.filter Event.isQuery =
      model.getFEs.map (fun e => Event.queryFE e.getID) ∧
    (formUnbalance ops I).ret = (formUnbalance ops (IncrementalIntegrator.new σ R)).ret := by
  obtain ⟨tr1, e1, e2, e3, e4, -⟩ :=
    formElementResidual_loop ops I.statusFlag model (ops.zeroB soe)
  rw [e1] at hfail
  have hneg := e4 hfail
  have htr : (formUnbalance ops I).trace = Event.zeroB :: tr1 := by
    simp only [formUnbalance, hM, hS, hneg]
    simp [e1]
  have hret : (formUnbalance ops I).ret = -1 := by
    simp only [formUnbalance, hM, hS, hneg]
    simp
  refine ⟨hret, ?_, ?_, ?_⟩
  · rw [htr]
    simp only [soeOps] at e2 ⊢
    simp [List.filterMap_cons, Event.soeOp, e2]
  · rw [htr]
    simp [List.filter_cons, Event.isQuery, e3]
  · rw [hret]
    rfl

/-- The amended statement on `bestEffortModel`, whose first element has a bad
mapping. -/
theorem formUnbalance_element_failure_witness :
    bestEffort.theAnalysisModel = some bestEffortModel ∧
    bestEffort.theSOE = some scenarioA_target ∧
    (∃ ev ∈ (formElementResidual (assemblyTarget Int) bestEffort.statusFlag bestEffortModel
        ((assemblyTarget Int).zeroB scenarioA_target)).trace, ev.failed = true) ∧
    ((formUnbalance (assemblyTarget Int) bestEffort).ret = -1 ∧
      soeOps (formUnbalance (assemblyTarget Int) bestEffort).trace =
        SOEOp.zeroB :: bestEffortModel.getFEs.map
          (fun e => SOEOp.addB (e.getResidual bestEffort.statusFlag) e.getID) ∧
      (formUnbalance (assemblyTarget Int) bestEffort).trace.filter Event.isQuery =
        bestEffortModel.getFEs.map (fun e => Event.queryFE e.getID) ∧
      (formUnbalance (assemblyTarget Int) bestEffort).ret =
        (formUnbalance (assemblyTarget Int)
          (IncrementalIntegrator.new (AssemblyTarget Int) Int)).ret) :=
  ⟨rfl, rfl, by decide,
   formUnbalance_element_failure (assemblyTarget Int) bestEffort bestEffortModel
     scenarioA_target rfl rfl (by decide)⟩


/-! ## getLastResponse -/

/-- The loop of `getLastResponse` keeps the size of `result`. -/
theorem getLastResponseLoop_length {R : Type} [Zero R] (size : Int) (X : Vector R)
    (ids : List Int) : ∀ (k : Nat) (s : Response R),
    (getLastResponseLoop size X k ids s).result.length = s.result.length := by
  induction ids with
  | nil => intro k s; rfl
  | cons loc rest ih =>
    intro k s
    unfold getLastResponseLoop
    split_ifs <;> simp [ih]

/-- The loop of `getLastResponse`, started at position `k`, does not touch the
positions before `k`. -/
theorem getLastResponseLoop_before {R : Type} [Zero R] (size : Int) (X : Vector R)
    (ids : List Int) : ∀ (k : Nat) (s : Response R) (j : Nat), j < k →
    (getLastResponseLoop size X k ids s).result[j]? = s.result[j]? := by
  induction ids with
  | nil => intro k s j _; rfl
  | cons loc rest ih =>
    intro k s j hj
    have hne : k ≠ j := by omega
    unfold getLastResponseLoop
    split_ifs
    · rw [ih (k + 1) _ j (by omega)]
      exact List.getElem?_set_ne hne
    · rw [ih (k + 1) _ j (by omega)]
      exact List.getElem?_set_ne hne
    · rw [ih (k + 1) _ j (by omega)]

/-- What the loop of `getLastResponse` leaves at the position of the `d`-th
remaining index: `0` for a negative index, the entry of `X` for an index up to
`size`, and the previous content for a larger index. -/
theorem getLastResponseLoop_at {R : Type} [Zero R] (size : Int) (X : Vector R)
    (ids : List Int) : ∀ (k : Nat) (s : Response R) (d : Nat) (loc : Int),
    ids[d]? = some loc → k + d < s.result.length →
    (loc < 0 → (getLastResponseLoop size X k ids s).result[k + d]? = some 0) ∧
    (0 ≤ loc → loc ≤ size →
      (getLastResponseLoop size X k ids s).result[k + d]? = some (vectorAt X loc.toNat)) ∧
    (size < loc → 0 ≤ loc →
      (getLastResponseLoop size X k ids s).result[k + d]? = s.result[k + d]?) := by
  induction ids with
  | nil => intro k s d loc h; simp at h
  | cons g rest ih =>
    intro k s d loc hd hlen
    cases d with
    | zero =>
      simp only [List.getElem?_cons_zero, Option.some.injEq] at hd
      subst hd
      simp only [Nat.add_zero] at hlen ⊢
      unfold getLastResponseLoop
      refine ⟨?_, ?_, ?_⟩
      · intro hneg
        rw [if_pos hneg, getLastResponseLoop_before size X rest (k + 1) _ k (by omega)]
        exact List.getElem?_set_self hlen
      · intro h0 hle
        rw [if_neg (by omega), if_pos hle,
          getLastResponseLoop_before size X rest (k + 1) _ k (by omega)]
        exact List.getElem?_set_self hlen
      · intro hgt h0
        rw [if_neg (by omega), if_neg (by omega),
          getLastResponseLoop_before size X rest (k + 1) _ k (by omega)]
    | succ d =>
      simp only [List.getElem?_cons_succ] at hd
      have hk : k + (d + 1) = (k + 1) + d := by omega
      rw [hk] at hlen ⊢
      unfold getLastResponseLoop
      split_ifs with h1 h2
      · have := ih (k + 1) { s with result := s.result.set k 0 } d loc hd (by simpa using hlen)
        refine ⟨this.1, this.2.1, fun a b => ?_⟩
        rw [this.2.2 a b]
        exact List.getElem?_set_ne (by omega)
      · have := ih (k + 1)
          { s with result := s.result.set k (vectorAt X g.toNat)
                   trace := s.trace ++ [Event.readX k g] } d loc hd (by simpa using hlen)
        refine ⟨this.1, this.2.1, fun a b => ?_⟩
        rw [this.2.2 a b]
        exact List.getElem?_set_ne (by omega)
      · exact ih (k + 1) { s with res := -2 } d loc hd hlen

/-- The loop of `getLastResponse` only appends reads of `X`, each at an index
of `id` that lies in `[0, size]`, recorded with its position. -/
theorem getLastResponseLoop_trace {R : Type} [Zero R] (size : Int) (X : Vector R)
    (ids : List Int) : ∀ (k : Nat) (s : Response R),
    ∃ tr, (getLastResponseLoop size X k ids s).trace = s.trace ++ tr ∧
      ∀ ev ∈ tr, ∃ d loc, ev = Event.readX (k + d) loc ∧ ids[d]? = some loc ∧
        0 ≤ loc ∧ loc ≤ size := by
  induction ids with
  | nil => intro k s; exact ⟨[], by simp [getLastResponseLoop], by simp⟩
  | cons g rest ih =>
    intro k s
    unfold getLastResponseLoop
    split_ifs with h1 h2
    · obtain ⟨tr, h, hall⟩ := ih (k + 1) { s with result := s.result.set k 0 }
      refine ⟨tr, h, fun ev hev => ?_⟩
      obtain ⟨d, loc, a, b, c⟩ := hall ev hev
      exact ⟨d + 1, loc, by rw [a]; congr 1; omega, by simpa using b, c⟩
    · obtain ⟨tr, h, hall⟩ := ih (k + 1)
        { s with result := s.result.set k (vectorAt X g.toNat)
                 trace := s.trace ++ [Event.readX k g] }
      refine ⟨Event.readX k g :: tr, by simpa using h, fun ev hev => ?_⟩
      rcases List.mem_cons.mp hev with h0 | h0
      · exact ⟨0, g, by simpa using h0, by simp, by omega, h2⟩
      · obtain ⟨d, loc, a, b, c⟩ := hall ev h0
        exact ⟨d + 1, loc, by rw [a]; congr 1; omega, by simpa using b, c⟩
    · obtain ⟨tr, h, hall⟩ := ih (k + 1) { s with res := -2 }
      refine ⟨tr, h, fun ev hev => ?_⟩
      obtain ⟨d, loc, a, b, c⟩ := hall ev hev
      exact ⟨d + 1, loc, by rw [a]; congr 1; omega, by simpa using b, c⟩

/-- The loop of `getLastResponse` returns `-2` when some index exceeds `size`
and its initial result otherwise. -/
theorem getLastResponseLoop_res {R : Type} [Zero R] (size : Int) (X : Vector R)
    (ids : List Int) : ∀ (k : Nat) (s : Response R),
    ((∃ loc ∈ ids, size < loc ∧ 0 ≤ loc) → (getLastResponseLoop size X k ids s).res = -2) ∧
    ((∀ loc ∈ ids, loc < 0 ∨ loc ≤ size) → (getLastResponseLoop size X k ids s).res = s.res) := by
  induction ids with
  | nil => intro k s; simp [getLastResponseLoop]
  | cons g rest ih =>
    intro k s
    unfold getLastResponseLoop
    split_ifs with h1 h2
    · have := ih (k + 1) { s with result := s.result.set k 0 }
      refine ⟨?_, fun hall => this.2 (fun l hl => hall l (List.mem_cons_of_mem _ hl))⟩
      rintro ⟨loc, hloc, hgt⟩
      rcases List.mem_cons.mp hloc with h | h
      · omega
      · exact this.1 ⟨loc, h, hgt⟩
    · have := ih (k + 1)
        { s with result := s.result.set k (vectorAt X g.toNat)
                 trace := s.trace ++ [Event.readX k g] }
      refine ⟨?_, fun hall => this.2 (fun l hl => hall l (List.mem_cons_of_mem _ hl))⟩
      rintro ⟨loc, hloc, hgt⟩
      rcases List.mem_cons.mp hloc with h | h
      · omega
      · exact this.1 ⟨loc, h, hgt⟩
    · have := ih (k + 1) { s with res := -2 }
      refine ⟨fun _ => ?_, fun hall => ?_⟩
      · by_cases hex : ∃ loc ∈ rest, size < loc ∧ 0 ≤ loc
        · exact this.1 hex
        · exact this.2 (fun l hl => by
            by_contra hne
            exact hex ⟨l, hl, by omega⟩)
      · have := hall g (List.mem_cons_self g rest)
        omega

/-- C7: `getLastResponse` equals its reference definition pointwise.  With an
Assembly Target of `n` equations and solution vector `X` linked, for every
index array `id` and every position `i` of `id` and `result`: after the call
`result(i) = 0` if `id(i) < 0`, and `X` is not read for that position; and
`result(i) = X(id(i))` if `0 ≤ id(i) < n`.  The other entries of `id` are
arbitrary, so this holds also when another position is out of bounds. -/
theorem getLastResponse_pointwise {σ R : Type} [Zero R] (ops : LinearSOE σ R)
    (I : IncrementalIntegrator σ R) (soe : σ) (n : Nat) (result : Vector R) (id : ID)
    (i : Nat) (loc : Int)
    (hS : I.theSOE = some soe) (hn : ops.getNumEqn soe = (n : Int))
    (hid : id[i]? = some loc) (hi : i < result.length) :
    (loc < 0 → (getLastResponse ops I result id).result[i]? = some 0 ∧
      ∀ l, Event.readX i l ∉ (getLastResponse ops I result id).trace) ∧
    (0 ≤ loc → loc < (n : Int) →
      (getLastResponse ops I result id).result[i]? = some (vectorAt (ops.getX soe) loc.toNat)) := by
  have hat := getLastResponseLoop_at (ops.getNumEqn soe - 1) (ops.getX soe) id 0
    { result := result, res := 0, trace := [Event.getNumEqn, Event.getX] } i loc hid
    (by simpa using hi)
  obtain ⟨tr, htr, hall⟩ := getLastResponseLoop_trace (ops.getNumEqn soe - 1) (ops.getX soe) id 0
    { result := result, res := 0, trace := [Event.getNumEqn, Event.getX] }
  simp only [Nat.zero_add] at hat hall
  simp only [getLastResponse, hS]
  refine ⟨fun hneg => ⟨hat.1 hneg, ?_⟩, fun h0 hlt => hat.2.1 h0 (by omega)⟩
  intro l hmem
  rw [htr] at hmem
  simp only [List.mem_append, List.mem_cons, List.mem_singleton, List.not_mem_nil, or_false,
    reduceCtorEq, false_or] at hmem
  obtain ⟨d, loc1, a, b, c, -⟩ := hall _ hmem
  simp only [Event.readX.injEq] at a
  rw [← a.1, hid] at b
  simp only [Option.some.injEq] at b
  omega

/-- A 3-equation target with `X = [10,20,30]` and `id = [-1,0,3,2,5]`: position
0 (negative index) receives `0` without a read, position 3 receives `X(2)`. -/
theorem getLastResponse_pointwise_witness :
    (scenarioA.theSOE = some scenarioA_target ∧
      (assemblyTarget Int).getNumEqn scenarioA_target = ((3 : Nat) : Int) ∧
      [-1, 0, 3, 2, 5][0]? = some (-1 : Int) ∧ 0 < [9, 9, 9, 9, 9].length) ∧
    (((-1 : Int) < 0 →
        (getLastResponse (assemblyTarget Int) scenarioA [9, 9, 9, 9, 9]
          [-1, 0, 3, 2, 5]).result[0]? = some 0 ∧
        ∀ l, Event.readX 0 l ∉
          (getLastResponse (assemblyTarget Int) scenarioA [9, 9, 9, 9, 9]
            [-1, 0, 3, 2, 5]).trace) ∧
      (0 ≤ (-1 : Int) → (-1 : Int) < ((3 : Nat) : Int) →
        (getLastResponse (assemblyTarget Int) scenarioA [9, 9, 9, 9, 9]
          [-1, 0, 3, 2, 5]).result[0]? =
          some (vectorAt ((assemblyTarget Int).getX scenarioA_target) (-1 : Int).toNat))) ∧
    (getLastResponse (assemblyTarget Int) scenarioA [9, 9, 9, 9, 9] [-1, 0, 3, 2, 5]).result =
      [0, 10, 9, 30, 9] ∧
    (getLastResponse (assemblyTarget Int) scenarioA [9, 9, 9, 9, 9] [-1, 0, 3, 2, 5]).trace =
      [Event.getNumEqn, Event.getX, Event.readX 1 0, Event.readX 3 2] :=
  ⟨⟨rfl, rfl, rfl, by decide⟩,
   getLastResponse_pointwise (assemblyTarget Int) scenarioA scenarioA_target 3 [9, 9, 9, 9, 9]
     [-1, 0, 3, 2, 5] 0 (-1) rfl rfl rfl (by decide),
   by decide, by decide⟩

/-- C8: `getLastResponse` fails with the out-of-bounds code exactly when an
index exceeds the system.  With an Assembly Target of `n` equations linked, for
every index array `id` the call returns `-2` if and only if some entry is
`≥ n`, and `0` if and only if every entry is `< n` (negative entries never
cause a failure); and `X` is only read at positions in `[0, n)`. -/
theorem getLastResponse_code {σ R : Type} [Zero R] (ops : LinearSOE σ R)
    (I : IncrementalIntegrator σ R) (soe : σ) (n : Nat) (result : Vector R) (id : ID)
    (hS : I.theSOE = some soe) (hn : ops.getNumEqn soe = (n : Int)) :
    ((getLastResponse ops I result id).res = -2 ↔ ∃ loc ∈ id, (n : Int) ≤ loc) ∧
    ((getLastResponse ops I result id).res = 0 ↔ ∀ loc ∈ id, loc < (n : Int)) ∧
    (∀ i l, Event.readX i l ∈ (getLastResponse ops I result id).trace →
      0 ≤ l ∧ l < (n : Int)) := by
  have hres := getLastResponseLoop_res (ops.getNumEqn soe - 1) (ops.getX soe) id 0
    { result := result, res := 0, trace := [Event.getNumEqn, Event.getX] }
  obtain ⟨tr, htr, hall⟩ := getLastResponseLoop_trace (ops.getNumEqn soe - 1) (ops.getX soe) id 0
    { result := result, res := 0, trace := [Event.getNumEqn, Event.getX] }
  simp only [getLastResponse, hS]
  rw [hn] at hres hall
  have hcase : (∃ loc ∈ id, (n : Int) ≤ loc) ∨ ∀ loc ∈ id, loc < (n : Int) := by
    by_cases hex : ∃ loc ∈ id, (n : Int) ≤ loc
    · exact Or.inl hex
    · refine Or.inr (fun l hl => ?_)
      by_contra hne
      exact hex ⟨l, hl, by omega⟩
  have h2 : (∃ loc ∈ id, (n : Int) ≤ loc) →
      (getLastResponseLoop (ops.getNumEqn soe - 1) (ops.getX soe) 0 id
        { result := result, res := 0, trace := [Event.getNumEqn, Event.getX] }).res = -2 := by
    rintro ⟨l, hl, hge⟩
    rw [hn]
    exact hres.1 ⟨l, hl, by omega, by omega⟩
  have h0 : (∀ loc ∈ id, loc < (n : Int)) →
      (getLastResponseLoop (ops.getNumEqn soe - 1) (ops.getX soe) 0 id
        { result := result, res := 0, trace := [Event.getNumEqn, Event.getX] }).res = 0 := by
    intro hlt
    rw [hn]
    exact hres.2 (fun l hl => by have := hlt l hl; omega)
  refine ⟨⟨fun h => ?_, h2⟩, ⟨fun h => ?_, h0⟩, ?_⟩
  · rcases hcase with hc | hc
    · exact hc
    · rw [h0 hc] at h
      exact absurd h (by norm_num)
  · rcases hcase with hc | hc
    · rw [h2 hc] at h
      exact absurd h (by norm_num)
    · exact hc
  · intro i l hmem
    rw [htr] at hmem
    simp only [List.mem_append, List.mem_cons, List.mem_singleton, List.not_mem_nil, or_false,
      reduceCtorEq, false_or] at hmem
    obtain ⟨d, loc1, a, -, c, e⟩ := hall _ hmem
    simp only [Event.readX.injEq] at a
    omega

/-- A 3-equation target: `id = [-1,0,3,2,5]` has entries `≥ 3`, so the call
returns `-2`; `id = [-1,0,2]` has none, so the call returns `0`. -/
theorem getLastResponse_code_witness :
    (scenarioA.theSOE = some scenarioA_target ∧
      (assemblyTarget Int).getNumEqn scenarioA_target = ((3 : Nat) : Int)) ∧
    (((getLastResponse (assemblyTarget Int) scenarioA [9, 9, 9, 9, 9] [-1, 0, 3, 2, 5]).res = -2 ↔
        ∃ loc ∈ ([-1, 0, 3, 2, 5] : ID), ((3 : Nat) : Int) ≤ loc) ∧
      ((getLastResponse (assemblyTarget Int) scenarioA [9, 9, 9, 9, 9] [-1, 0, 3, 2, 5]).res = 0 ↔
        ∀ loc ∈ ([-1, 0, 3, 2, 5] : ID), loc < ((3 : Nat) : Int)) ∧
      (∀ i l, Event.readX i l ∈
          (getLastResponse (assemblyTarget Int) scenarioA [9, 9, 9, 9, 9]
            [-1, 0, 3, 2, 5]).trace →
        0 ≤ l ∧ l < ((3 : Nat) : Int))) ∧
    (getLastResponse (assemblyTarget Int) scenarioA [9, 9, 9, 9, 9] [-1, 0, 3, 2, 5]).res = -2 ∧
    (getLastResponse (assemblyTarget Int) scenarioA [9, 9, 9] [-1, 0, 2]).res = 0 :=
  ⟨⟨rfl, rfl⟩,
   getLastResponse_code (assemblyTarget Int) scenarioA scenarioA_target 3 [9, 9, 9, 9, 9]
     [-1, 0, 3, 2, 5] rfl rfl,
   by decide, by decide⟩


/-! ## The coordination counter of ShadowSubdomain -/

/-- `computeTang` is the shared control flow with the tagged header. -/
theorem computeTang_eq_coordinate (codes : ShadowActorCodes) :
    ∀ (fuel : Nat) (w : World) (self : Nat),
      computeTang codes fuel w self =
        coordinate (fun w1 s => sendTagged w1 s codes.computeTang) fuel w self := by
  intro fuel
  induction fuel with
  | zero => intro w self; rfl
  | succ n ih =>
    intro w self
    unfold computeTang coordinate
    simp only [ih]

/-- `computeResidual` is the shared control flow with the one-slot header. -/
theorem computeResidual_eq_coordinate (codes : ShadowActorCodes) :
    ∀ (fuel : Nat) (w : World) (self : Nat),
      computeResidual codes fuel w self =
        coordinate (fun w1 s => sendCode w1 s codes.computeResidual) fuel w self := by
  intro fuel
  induction fuel with
  | zero => intro w self; rfl
  | succ n ih =>
    intro w self
    unfold computeResidual coordinate
    simp only [ih]

/-- Slot 0 of a 4-slot header after `msgData(0) = code`. -/
theorem idAt_set_zero (l : ID) (code : Int) (h : l.length = 4) : idAt (l.set 0 code) 0 = code := by
  cases l with
  | nil => simp at h
  | cons a t => simp [idAt]

/-- Slot 0 of a 4-slot header after `msgData(0) = code; msgData(1) = tag`. -/
theorem idAt_set_zero_one (l : ID) (code tag : Int) (h : l.length = 4) :
    idAt ((l.set 0 code).set 1 tag) 0 = code := by
  cases l with
  | nil => simp at h
  | cons a t => simp [idAt]

/-- The header of `computeTang` carries its operation code. -/
theorem sendTagged_sendsCode (code : Int) : SendsCode (fun w s => sendTagged w s code) code := by
  intro w self p hp hlen
  refine ⟨{ p with msgData := (p.msgData.set 0 code).set 1 p.tag },
    (p.msgData.set 0 code).set 1 p.tag, ?_, ?_, ?_⟩
  · simp only [sendTagged, hp]
  · exact idAt_set_zero_one _ _ _ hlen
  · simp [hlen]

/-- The header of `computeResidual` carries its operation code. -/
theorem sendCode_sendsCode (code : Int) : SendsCode (fun w s => sendCode w s code) code := by
  intro w self p hp hlen
  refine ⟨{ p with msgData := p.msgData.set 0 code }, p.msgData.set 0 code, ?_, ?_, ?_⟩
  · simp only [sendCode, hp]
  · exact idAt_set_zero _ _ hlen
  · simp [hlen]

/-- Summaries of consecutive step lists concatenate. -/
theorem PassTrace.append {tr1 tr2 : List Step} {code : Int} {e1 e2 s1 s2 f1 f2 : List Nat}
    (h1 : PassTrace tr1 code e1 s1 f1) (h2 : PassTrace tr2 code e2 s2 f2) :
    PassTrace (tr1 ++ tr2) code (e1 ++ e2) (s1 ++ s2) (f1 ++ f2) where
  ent := by rw [List.filterMap_append, h1.ent, h2.ent]
  snd := by rw [List.filterMap_append, h1.snd, h2.snd]
  fan := by rw [List.filterMap_append, h1.fan, h2.fan]
  op := by
    intro s hs c hc
    rcases List.mem_append.mp hs with h | h
    · exact h1.op s h c hc
    · exact h2.op s h c hc

/-- No step at all. -/
theorem PassTrace.nil (code : Int) : PassTrace [] code [] [] [] where
  ent := rfl
  snd := rfl
  fan := rfl
  op := by simp

/-- Entering a member function. -/
theorem PassTrace.enter (code : Int) (self : Nat) :
    PassTrace [Step.enter self] code [self] [] [] where
  ent := rfl
  snd := rfl
  fan := rfl
  op := by simp [Step.opcode]

/-- Reaching the fan-out loop. -/
theorem PassTrace.fanOut (code : Int) (self : Nat) :
    PassTrace [Step.fanOut self] code [] [] [self] where
  ent := rfl
  snd := rfl
  fan := rfl
  op := by simp [Step.opcode]

/-- Sending a header with `code` in slot 0. -/
theorem PassTrace.sendID (code : Int) (self : Nat) (data : ID) (h : idAt data 0 = code) :
    PassTrace [Step.sendID self data] code [] [self] [] where
  ent := rfl
  snd := rfl
  fan := rfl
  op := by
    intro s hs c hc
    simp only [List.mem_singleton] at hs
    subst hs
    simp only [Step.opcode, Option.some.injEq] at hc
    rw [← hc, h]

/-- Being registered only depends on the registry, its size, the proxies and
the destroyed cells. -/
theorem Registered.congr {w w2 : World} {k : Nat} (hw : Registered w k)
    (h1 : w2.numShadowSubdomains = w.numShadowSubdomains)
    (h2 : w2.theShadowSubdomains = w.theShadowSubdomains)
    (h3 : w2.proxies = w.proxies) (h4 : w2.freed = w.freed) : Registered w2 k where
  num := by rw [h1]; exact hw.num
  len := by rw [h2]; exact hw.len
  nodup := by rw [h2]; exact hw.nodup
  valid := by rw [h2, h3]; exact hw.valid
  msg := by rw [h3]; exact hw.msg
  alive := by rw [h4]; exact hw.alive

/-- Sending a header keeps the registry consistent, keeps the counter, and logs
one `sendID` carrying the code. -/
theorem send_registered {send : World → Nat → Option World} {code : Int}
    (hsend : SendsCode send code) {w : World} {k : Nat} (hw : Registered w k) (self : Nat)
    (hself : self < w.proxies.length) :
    ∃ w2 data, send w self = some w2 ∧ Registered w2 k ∧ w2.count = w.count ∧
      w2.theShadowSubdomains = w.theShadowSubdomains ∧
      w2.trace = w.trace ++ [Step.sendID self data] ∧ idAt data 0 = code := by
  have hp : w.proxies[self]? = some (w.proxies[self]) := List.getElem?_eq_getElem hself
  obtain ⟨p1, data, h1, h2, h3⟩ := hsend w self _ hp (hw.msg _ (List.getElem_mem hself))
  refine ⟨_, data, h1, ?_, rfl, rfl, rfl, h2⟩
  exact {
    num := hw.num
    len := hw.len
    nodup := hw.nodup
    valid := by
      intro q hq
      simpa using hw.valid q hq
    msg := by
      intro p hp1
      rcases List.mem_or_eq_of_mem_set hp1 with h | h
      · exact hw.msg p h
      · rw [h]; exact h3
    alive := hw.alive }

/-- A call that is neither the first of a round nor beyond the number of
proxies sends its header. -/
theorem coordinate_mid {send : World → Nat → Option World} {code : Int}
    (hsend : SendsCode send code) {w : World} {k : Nat} (hw : Registered w k) (self : Nat)
    (hself : self < w.proxies.length) (hc0 : w.count ≠ 0) (hck : w.count + 1 ≤ (k : Int))
    (fuel : Nat) :
    ∃ w2 tr, coordinate send (fuel + 1) w self = some w2 ∧ Registered w2 k ∧
      w2.count = w.count + 1 ∧ w2.theShadowSubdomains = w.theShadowSubdomains ∧
      w2.trace = w.trace ++ tr ∧ PassTrace tr code [self] [self] [] := by
  have hw1 : Registered
      { w with count := w.count + 1, trace := w.trace ++ [Step.enter self] } k :=
    hw.congr rfl rfl rfl rfl
  obtain ⟨w2, data, h1, h2, h3, hreg, h4, h5⟩ := send_registered hsend hw1 self hself
  refine ⟨w2, [Step.enter self, Step.sendID self data], ?_, h2, h3, hreg, ?_, ?_⟩
  · unfold coordinate
    simp only
    rw [if_neg (by rw [hw.alive]; exact List.not_mem_nil self), if_neg (by omega),
      if_pos (by rw [hw.num]; exact hck)]
    exact h1
  · rw [h4]
    simp
  · exact (PassTrace.enter code self).append (PassTrace.sendID code self data h5)

/-- A call beyond the number of proxies sends nothing; it resets the counter
when the counter reaches `2k - 1`. -/
theorem coordinate_tail (send : World → Nat → Option World) {w : World} {k : Nat}
    (hw : Registered w k) (self : Nat) (hc0 : w.count ≠ 0) (hck : (k : Int) < w.count + 1)
    (fuel : Nat) :
    coordinate send (fuel + 1) w self =
      some { w with count := if w.count + 1 = 2 * (k : Int) - 1 then 0 else w.count + 1
                    trace := w.trace ++ [Step.enter self] } := by
  unfold coordinate
  simp only
  rw [if_neg (by rw [hw.alive]; exact List.not_mem_nil self), if_neg (by omega),
    if_neg (by rw [hw.num]; omega), hw.num]
  split_ifs <;> rfl

/-- The fan-out loop: every registered proxy other than the caller is entered
once, in registry order, and sends its header; the counter grows by the number
of siblings and nobody fans out again. -/
theorem fan_loop {send : World → Nat → Option World} {code : Int}
    (hsend : SendsCode send code) (self fuel k : Nat) :
    ∀ (l : List Nat) (w : World), Registered w k → (∀ q ∈ l, q ∈ w.theShadowSubdomains) →
      1 ≤ w.count → w.count + ((l.filter (fun q => decide (q ≠ self))).length : Int) ≤ (k : Int) →
      ∃ w2 tr,
        l.foldlM (fun (w3 : World) (q : Nat) =>
          if q ≠ self then coordinate send (fuel + 1) w3 q else some w3) w = some w2 ∧
        Registered w2 k ∧
        w2.count = w.count + ((l.filter (fun q => decide (q ≠ self))).length : Int) ∧
        w2.theShadowSubdomains = w.theShadowSubdomains ∧
        w2.trace = w.trace ++ tr ∧
        PassTrace tr code (l.filter (fun q => decide (q ≠ self)))
          (l.filter (fun q => decide (q ≠ self))) [] := by
  intro l
  induction l with
  | nil =>
    intro w hw _ _ _
    exact ⟨w, [], rfl, hw, by simp, rfl, by simp, PassTrace.nil code⟩
  | cons q t ih =>
    intro w hw hl hc hk
    have hq := hl q (List.mem_cons_self q t)
    by_cases hne : q ≠ self
    · have hfil : (q :: t).filter (fun q => decide (q ≠ self)) =
          q :: t.filter (fun q => decide (q ≠ self)) := by
        rw [List.filter_cons_of_pos (by simpa using hne)]
      rw [hfil] at hk ⊢
      simp only [List.length_cons, Nat.cast_add, Nat.cast_one] at hk ⊢
      obtain ⟨w1, tr1, a1, a2, a3, a4, a5, a6⟩ := coordinate_mid hsend hw q (hw.valid q hq)
        (by omega) (by omega) fuel
      obtain ⟨w2, tr2, b1, b2, b3, b4, b5, b6⟩ := ih w1 a2
        (fun x hx => by rw [a4]; exact hl x (List.mem_cons_of_mem q hx)) (by omega) (by omega)
      refine ⟨w2, tr1 ++ tr2, ?_, b2, by omega, by rw [b4, a4], ?_, ?_⟩
      · rw [List.foldlM_cons, if_pos hne, a1]
        exact b1
      · rw [b5, a5, List.append_assoc]
      · exact a6.append b6
    · have hfil : (q :: t).filter (fun q => decide (q ≠ self)) =
          t.filter (fun q => decide (q ≠ self)) := by
        rw [List.filter_cons_of_neg (by simpa using hne)]
      rw [hfil] at hk ⊢
      obtain ⟨w2, tr2, b1, b2, b3, b4, b5, b6⟩ := ih w hw
        (fun x hx => hl x (List.mem_cons_of_mem q hx)) hc hk
      refine ⟨w2, tr2, ?_, b2, b3, b4, b5, b6⟩
      rw [List.foldlM_cons, if_neg hne]
      exact b1

/-- A proxy registered once has one sibling fewer than there are proxies. -/
theorem siblings_length (l : List Nat) (a : Nat) (hd : l.Nodup) (ha : a ∈ l) :
    (l.filter (fun q => decide (q ≠ a))).length + 1 = l.length := by
  have hf : (fun q : Nat => decide (q ≠ a)) = (fun x => x != a) := by
    funext q
    by_cases h : q = a <;> simp [h]
  rw [hf, ← hd.erase_eq_filter a, List.length_erase_of_mem ha]
  have := List.length_pos_of_mem ha
  omega

/-- The siblings of a registered proxy together with it are the registry, up to
order. -/
theorem siblings_perm (l : List Nat) (a : Nat) (hd : l.Nodup) (ha : a ∈ l) :
    (a :: l.filter (fun q => decide (q ≠ a))).Perm l := by
  have hf : (fun q : Nat => decide (q ≠ a)) = (fun x => x != a) := by
    funext q
    by_cases h : q = a <;> simp [h]
  rw [hf, ← hd.erase_eq_filter a]
  exact (List.perm_cons_erase ha).symm

/-- The first call of a round (counter `0`): the called proxy sends its header
and fans out to its siblings, each of which sends its header; afterwards the
counter is the number of proxies.  Two levels of nesting suffice. -/
theorem coordinate_first {send : World → Nat → Option World} {code : Int}
    (hsend : SendsCode send code) {w : World} {k : Nat} (hw : Registered w k) (self : Nat)
    (hself : self ∈ w.theShadowSubdomains) (h0 : w.count = 0) (fuel : Nat) :
    ∃ w2 tr, coordinate send (fuel + 2) w self = some w2 ∧ Registered w2 k ∧
      w2.count = (k : Int) ∧ w2.theShadowSubdomains = w.theShadowSubdomains ∧
      w2.trace = w.trace ++ tr ∧
      PassTrace tr code
        (self :: w.theShadowSubdomains.filter (fun q => decide (q ≠ self)))
        (self :: w.theShadowSubdomains.filter (fun q => decide (q ≠ self))) [self] := by
  have hw1 : Registered
      { w with count := w.count + 1, trace := w.trace ++ [Step.enter self] } k :=
    hw.congr rfl rfl rfl rfl
  obtain ⟨w2, data, h1, h2, h3, hreg, h4, h5⟩ :=
    send_registered hsend hw1 self (hw.valid self hself)
  have hw3 : Registered { w2 with trace := w2.trace ++ [Step.fanOut self] } k :=
    h2.congr rfl rfl rfl rfl
  have hsib := siblings_length w.theShadowSubdomains self hw.nodup hself
  have hlen := hw.len
  simp only at hreg h3
  obtain ⟨w4, tr, b1, b2, b3, b4, b5, b6⟩ := fan_loop hsend self fuel k
    w.theShadowSubdomains { w2 with trace := w2.trace ++ [Step.fanOut self] } hw3
    (fun q hq => by simpa [hreg] using hq) (by simp only; omega) (by simp only; omega)
  refine ⟨w4, [Step.enter self, Step.sendID self data, Step.fanOut self] ++ tr, ?_, b2, ?_, ?_,
    ?_, ?_⟩
  · unfold coordinate
    simp only
    rw [if_neg (by rw [hw.alive]; exact List.not_mem_nil self), if_pos (by omega), h1]
    simp only
    have htake : w2.theShadowSubdomains.take w2.numShadowSubdomains.toNat =
        w.theShadowSubdomains := by
      rw [h2.num, hreg, Int.toNat_natCast, ← hw.len, List.take_length]
    rw [htake]
    exact b1
  · rw [b3]
    simp only
    omega
  · rw [b4]
    exact hreg
  · rw [b5]
    simp only
    rw [h4]
    simp
  · have := ((PassTrace.enter code self).append (PassTrace.sendID code self data h5)).append
      ((PassTrace.fanOut code self).append b6)
    simpa using this

/-- Entering member functions without sending. -/
theorem PassTrace.enters (code : Int) (l : List Nat) :
    PassTrace (l.map Step.enter) code l [] [] where
  ent := by induction l with
    | nil => rfl
    | cons a t ih => simpa [Step.entered] using ih
  snd := by induction l with
    | nil => rfl
    | cons a t ih => simp [Step.sender]
  fan := by induction l with
    | nil => rfl
    | cons a t ih => simp [Step.fanner]
  op := by
    intro s hs c hc
    obtain ⟨a, -, rfl⟩ := List.mem_map.mp hs
    simp [Step.opcode] at hc

/-- The calls after the fan-out: each only counts; the counter is reset to `0`
by the call that brings it to `2k - 1`. -/
theorem tail_loop (send : World → Nat → Option World) (k fuel : Nat) :
    ∀ (rest : List Nat) (w : World), Registered w k → (k : Int) ≤ w.count → 1 ≤ w.count →
      w.count < 2 * (k : Int) - 1 → w.count + (rest.length : Int) ≤ 2 * (k : Int) - 1 →
      ∃ w2, rest.foldlM (fun (w1 : World) (q : Nat) => coordinate send (fuel + 1) w1 q) w =
          some w2 ∧
        Registered w2 k ∧
        w2.count = (if w.count + (rest.length : Int) = 2 * (k : Int) - 1 then 0
          else w.count + (rest.length : Int)) ∧
        w2.theShadowSubdomains = w.theShadowSubdomains ∧
        w2.trace = w.trace ++ rest.map Step.enter := by
  intro rest
  induction rest with
  | nil =>
    intro w hw _ _ hlt _
    refine ⟨w, rfl, hw, ?_, rfl, by simp⟩
    rw [if_neg (by simp only [List.length_nil, Nat.cast_zero]; omega)]
    simp
  | cons q t ih =>
    intro w hw hk h1 hlt hlen
    simp only [List.length_cons, Nat.cast_add, Nat.cast_one] at hlen ⊢
    have hstep := coordinate_tail send hw q (by omega) (by omega) fuel
    by_cases hreset : w.count + 1 = 2 * (k : Int) - 1
    · have ht : t = [] := by
        have : (t.length : Int) = 0 := by omega
        exact List.length_eq_zero.mp (by exact_mod_cast this)
      subst ht
      rw [if_pos hreset] at hstep
      refine ⟨{ w with count := 0, trace := w.trace ++ [Step.enter q] }, ?_,
        hw.congr rfl rfl rfl rfl, ?_, rfl, ?_⟩
      · rw [List.foldlM_cons, hstep]
        rfl
      · simp only [List.length_nil, Nat.cast_zero]
        rw [if_pos (by omega)]
      · simp
    · rw [if_neg hreset] at hstep
      obtain ⟨w2, b1, b2, b3, b4, b5⟩ := ih
        { w with count := w.count + 1, trace := w.trace ++ [Step.enter q] }
        (hw.congr rfl rfl rfl rfl) (by simp only; omega) (by simp only; omega)
        (by simp only; omega) (by simp only; omega)
      refine ⟨w2, ?_, b2, ?_, b4, ?_⟩
      · rw [List.foldlM_cons, hstep]
        exact b1
      · rw [b3]
        simp only
        by_cases hc : w.count + 1 + (t.length : Int) = 2 * (k : Int) - 1
        · rw [if_pos hc, if_pos (by omega)]
        · rw [if_neg hc, if_neg (by omega)]
          omega
      · rw [b5]
        simp

/-- One full cycle on `k ≥ 2` registered proxies, from counter `0`: a call on a
registered proxy `p` followed by `k - 1` further calls.  The round consists of
`2k - 1` invocations (`p`, its `k - 1` siblings by fan-out, the `k - 1` further
calls), every registered proxy sends exactly one header, `p` is the only one to
fan out, and the counter is `0` again. -/
theorem coordinate_pass {send : World → Nat → Option World} {code : Int}
    (hsend : SendsCode send code) {w : World} {k : Nat} (hw : Registered w k) (hk : 2 ≤ k)
    (h0 : w.count = 0) (p : Nat) (rest : List Nat) (hp : p ∈ w.theShadowSubdomains)
    (hlen : rest.length + 1 = k) (fuel : Nat) :
    ∃ w2 tr, (p :: rest).foldlM
        (fun (w1 : World) (q : Nat) => coordinate send (fuel + 2) w1 q) w = some w2 ∧
      Registered w2 k ∧ w2.count = 0 ∧ w2.theShadowSubdomains = w.theShadowSubdomains ∧
      w2.trace = w.trace ++ tr ∧
      PassTrace tr code
        (p :: w.theShadowSubdomains.filter (fun q => decide (q ≠ p)) ++ rest)
        (p :: w.theShadowSubdomains.filter (fun q => decide (q ≠ p))) [p] := by
  obtain ⟨w1, tr1, a1, a2, a3, a4, a5, a6⟩ := coordinate_first hsend hw p hp h0 fuel
  have hlen1 : (rest.length : Int) + 1 = (k : Int) := by exact_mod_cast hlen
  obtain ⟨w2, b1, b2, b3, b4, b5⟩ := tail_loop send k (fuel + 1) rest w1 a2 (by omega)
    (by omega) (by omega) (by omega)
  refine ⟨w2, tr1 ++ rest.map Step.enter, ?_, b2, ?_, by rw [b4, a4], ?_, ?_⟩
  · rw [List.foldlM_cons, a1]
    exact b1
  · rw [b3, if_pos (by omega)]
  · rw [b5, a5, List.append_assoc]
  · have := a6.append (PassTrace.enters code rest)
    simpa using this

/-- One pass in which the driver calls each of the `k ≥ 2` registered proxies
once, in any order, from counter `0`: the pass succeeds with two levels of
nesting, ends with counter `0`, and its steps are those of one good pass. -/
theorem coordinate_one_pass {send : World → Nat → Option World} {code : Int}
    (hsend : SendsCode send code) {w : World} {k : Nat} (hw : Registered w k) (hk : 2 ≤ k)
    (h0 : w.count = 0) (ps : List Nat) (hperm : ps.Perm w.theShadowSubdomains) (fuel : Nat) :
    ∃ w2 tr, ps.foldlM (fun (w1 : World) (q : Nat) => coordinate send (fuel + 2) w1 q) w =
        some w2 ∧
      Registered w2 k ∧ w2.count = 0 ∧ w2.theShadowSubdomains = w.theShadowSubdomains ∧
      w2.trace = w.trace ++ tr ∧ OnePass w.theShadowSubdomains code tr := by
  have hlen : ps.length = k := by rw [hperm.length_eq, hw.len]
  cases ps with
  | nil => simp at hlen; omega
  | cons p rest =>
    have hp : p ∈ w.theShadowSubdomains := hperm.subset (List.mem_cons_self p rest)
    obtain ⟨w2, tr, a1, a2, a3, a4, a5, a6⟩ := coordinate_pass hsend hw hk h0 p rest hp
      (by simpa using hlen) fuel
    refine ⟨w2, tr, a1, a2, a3, a4, a5, ?_, ?_, a6.op⟩
    · rw [a6.snd]
      exact siblings_perm _ p hw.nodup hp
    · rw [a6.fan]
      rfl

/-- Any number of successive passes, each calling every one of the `k ≥ 2`
registered proxies once in its own order: every pass is a good pass. -/
theorem coordinate_passes {send : World → Nat → Option World} {code : Int}
    (hsend : SendsCode send code) {k : Nat} (hk : 2 ≤ k) (fuel : Nat) :
    ∀ (passes : List (List Nat)) (w : World), Registered w k → w.count = 0 →
      (∀ ps ∈ passes, ps.Perm w.theShadowSubdomains) →
      ∃ (w2 : World) (trs : List (List Step)), passes.foldlM (fun (w1 : World) (ps : List Nat) =>
          ps.foldlM (fun (w3 : World) (q : Nat) => coordinate send (fuel + 2) w3 q) w1) w =
            some w2 ∧
        Registered w2 k ∧ w2.count = 0 ∧ w2.theShadowSubdomains = w.theShadowSubdomains ∧
        w2.trace = w.trace ++ trs.flatten ∧ trs.length = passes.length ∧
        ∀ tr ∈ trs, OnePass w.theShadowSubdomains code tr := by
  intro passes
  induction passes with
  | nil =>
    intro w hw h0 _
    exact ⟨w, [], rfl, hw, h0, rfl, by simp, rfl, by simp⟩
  | cons ps rest ih =>
    intro w hw h0 hperm
    obtain ⟨w1, tr, a1, a2, a3, a4, a5, a6⟩ := coordinate_one_pass hsend hw hk h0 ps
      (hperm ps (List.mem_cons_self ps rest)) fuel
    obtain ⟨w2, trs, b1, b2, b3, b4, b5, b6, b7⟩ := ih w1 a2 a3
      (fun qs hqs => by rw [a4]; exact hperm qs (List.mem_cons_of_mem ps hqs))
    refine ⟨w2, tr :: trs, ?_, b2, b3, by rw [b4, a4], ?_, by simp [b6], ?_⟩
    · rw [List.foldlM_cons, a1]
      exact b1
    · rw [b5, a5]
      simp
    · intro t ht
      rcases List.mem_cons.mp ht with h | h
      · rw [h]; exact a6
      · rw [← a4]; exact b7 t h

/-- A construction in storage never used before. -/
theorem construct_fresh (w : World) (tag : Int) :
    ShadowSubdomain.construct w tag w.proxies.length =
      some { w with numShadowSubdomains := w.numShadowSubdomains + 1
                    theShadowSubdomains :=
                      w.theShadowSubdomains.take w.numShadowSubdomains.toNat ++
                        [w.proxies.length]
                    proxies := w.proxies ++ [ShadowSubdomain.fresh tag] } := by
  simp [ShadowSubdomain.construct, World.allocate]

/-- The world after `k` constructions: `k` proxies, registered in construction
order, counter `0`, nothing sent. -/
theorem worldOf_spec (k : Nat) :
    (worldOf k).count = 0 ∧ (worldOf k).numShadowSubdomains = (k : Int) ∧
      (worldOf k).theShadowSubdomains = List.range k ∧ (worldOf k).proxies.length = k ∧
      (∀ p ∈ (worldOf k).proxies, p.msgData.length = 4) ∧ (worldOf k).trace = [] := by
  induction k with
  | zero => simp [worldOf, World.initial]
  | succ n ih =>
    obtain ⟨h1, h2, h3, h4, h5, h6⟩ := ih
    have hw : worldOf (n + 1) =
        { worldOf n with
          numShadowSubdomains := (worldOf n).numShadowSubdomains + 1
          theShadowSubdomains :=
            (worldOf n).theShadowSubdomains.take (worldOf n).numShadowSubdomains.toNat ++
              [(worldOf n).proxies.length]
          proxies := (worldOf n).proxies ++ [ShadowSubdomain.fresh ((n : Int) + 1)] } := by
      show (ShadowSubdomain.construct (worldOf n) ((n : Int) + 1)
        (worldOf n).proxies.length).getD (worldOf n) = _
      rw [construct_fresh, Option.getD_some]
    rw [hw]
    refine ⟨h1, ?_, ?_, ?_, ?_, h6⟩
    · show (worldOf n).numShadowSubdomains + 1 = ((n + 1 : Nat) : Int)
      rw [h2]; push_cast; rfl
    · have htake : List.take n (List.range n) = List.range n :=
        List.take_of_length_le (by simp)
      show (worldOf n).theShadowSubdomains.take (worldOf n).numShadowSubdomains.toNat ++
        [(worldOf n).proxies.length] = List.range (n + 1)
      rw [h2, h3, h4, Int.toNat_natCast, List.range_succ, htake]
    · show ((worldOf n).proxies ++ [ShadowSubdomain.fresh ((n : Int) + 1)]).length = n + 1
      rw [List.length_append, h4]; rfl
    · intro p hp
      have hp2 : p ∈ (worldOf n).proxies ++ [ShadowSubdomain.fresh ((n : Int) + 1)] := hp
      rw [List.mem_append, List.mem_singleton] at hp2
      rcases hp2 with h | h
      · exact h5 p h
      · rw [h]; rfl

/-- After `k` constructions no proxy has been destroyed. -/
theorem worldOf_alive (k : Nat) : (worldOf k).freed = [] := by
  induction k with
  | zero => rfl
  | succ n ih =>
    show ((ShadowSubdomain.construct (worldOf n) ((n : Int) + 1)
      (worldOf n).proxies.length).getD (worldOf n)).freed = []
    rw [construct_fresh, Option.getD_some]
    exact ih

/-- After `k` constructions the registry is consistent. -/
theorem worldOf_registered (k : Nat) : Registered (worldOf k) k := by
  obtain ⟨-, h2, h3, h4, h5, -⟩ := worldOf_spec k
  exact {
    num := h2
    len := by rw [h3, List.length_range]
    nodup := by rw [h3]; exact List.nodup_range k
    valid := by
      intro q hq
      rw [h3] at hq
      rw [h4]
      exact List.mem_range.mp hq
    msg := h5
    alive := worldOf_alive k }

/-- The counter cycle for `k ≥ 2` registered proxies: from counter `0`, a
`computeTang` call on a registered proxy `p` followed by `k - 1` further calls
makes `2k - 1` invocations in all (those of the fan-out included), leaves the
counter at `0`, and `p`, the first one invoked, is the only proxy to fan out,
to its `k - 1` siblings. -/
theorem computeTang_cycle (codes : ShadowActorCodes) {w : World} {k : Nat}
    (hw : Registered w k) (hk : 2 ≤ k) (h0 : w.count = 0) (p : Nat) (rest : List Nat)
    (hp : p ∈ w.theShadowSubdomains) (hlen : rest.length + 1 = k) (fuel : Nat) :
    ∃ w2 tr, driveTang codes (fuel + 2) w (p :: rest) = some w2 ∧ w2.count = 0 ∧
      w2.trace = w.trace ++ tr ∧
      tr.filterMap Step.entered =
        p :: w.theShadowSubdomains.filter (fun q => decide (q ≠ p)) ++ rest ∧
      (tr.filterMap Step.entered).length = 2 * k - 1 ∧
      (w.theShadowSubdomains.filter (fun q => decide (q ≠ p))).length = k - 1 ∧
      tr.filterMap Step.fanner = [p] := by
  obtain ⟨w2, tr, a1, -, a3, -, a5, a6⟩ := coordinate_pass
    (sendTagged_sendsCode codes.computeTang) hw hk h0 p rest hp hlen fuel
  have hsib := siblings_length w.theShadowSubdomains p hw.nodup hp
  have hl := hw.len
  refine ⟨w2, tr, ?_, a3, a5, a6.ent, ?_, by omega, a6.fan⟩
  · simp only [driveTang, computeTang_eq_coordinate]
    exact a1
  · rw [a6.ent]
    simp only [List.cons_append, List.length_cons, List.length_append]
    omega

/-- The coordination effect for `k ≥ 2` registered proxies and `computeTang`:
for every number of successive passes and every order in which the driver calls
each proxy once within a pass, from counter `0`, each pass sends exactly one
header from each proxy (so `k` in total), carrying the `computeTang` code, and
reaches the fan-out exactly once. -/
theorem computeTang_passes (codes : ShadowActorCodes) {w : World} {k : Nat}
    (hw : Registered w k) (hk : 2 ≤ k) (h0 : w.count = 0) (passes : List (List Nat))
    (hperm : ∀ ps ∈ passes, ps.Perm w.theShadowSubdomains) (fuel : Nat) :
    ∃ (w2 : World) (trs : List (List Step)),
      passesTang codes (fuel + 2) w passes = some w2 ∧ w2.count = 0 ∧
      w2.trace = w.trace ++ trs.flatten ∧ trs.length = passes.length ∧
      ∀ tr ∈ trs, OnePass w.theShadowSubdomains codes.computeTang tr := by
  obtain ⟨w2, trs, a1, -, a3, -, a5, a6, a7⟩ := coordinate_passes
    (sendTagged_sendsCode codes.computeTang) hk fuel passes w hw h0 hperm
  refine ⟨w2, trs, ?_, a3, a5, a6, a7⟩
  simp only [passesTang, driveTang, computeTang_eq_coordinate]
  exact a1

/-- The coordination effect for `k ≥ 2` registered proxies and
`computeResidual`. -/
theorem computeResidual_passes (codes : ShadowActorCodes) {w : World} {k : Nat}
    (hw : Registered w k) (hk : 2 ≤ k) (h0 : w.count = 0) (passes : List (List Nat))
    (hperm : ∀ ps ∈ passes, ps.Perm w.theShadowSubdomains) (fuel : Nat) :
    ∃ (w2 : World) (trs : List (List Step)),
      passesResidual codes (fuel + 2) w passes = some w2 ∧ w2.count = 0 ∧
      w2.trace = w.trace ++ trs.flatten ∧ trs.length = passes.length ∧
      ∀ tr ∈ trs, OnePass w.theShadowSubdomains codes.computeResidual tr := by
  obtain ⟨w2, trs, a1, -, a3, -, a5, a6, a7⟩ := coordinate_passes
    (sendCode_sendsCode codes.computeResidual) hk fuel passes w hw h0 hperm
  refine ⟨w2, trs, ?_, a3, a5, a6, a7⟩
  simp only [passesResidual, driveResidual, computeResidual_eq_coordinate]
  exact a1

/-- With a single registered proxy the first `computeTang` call of a round
(counter `0`) leaves the counter at `1`: the branch `count == 1` is taken, so
the reset test `count == 2*numShadowSubdomains - 1` of the last branch is never
reached. -/
theorem computeTang_single_first (codes : ShadowActorCodes) {w : World}
    (hw : Registered w 1) (h0 : w.count = 0) (self : Nat)
    (hself : self ∈ w.theShadowSubdomains) (fuel : Nat) :
    ∃ w2, computeTang codes (fuel + 2) w self = some w2 ∧ w2.count = 1 ∧ Registered w2 1 := by
  obtain ⟨w2, tr, a1, a2, a3, -, -, -⟩ := coordinate_first
    (sendTagged_sendsCode codes.computeTang) hw self hself h0 fuel
  refine ⟨w2, ?_, by simpa using a3, a2⟩
  rw [computeTang_eq_coordinate]
  exact a1

/-- With a single registered proxy and a counter `≥ 1`, a `computeTang` call
only increments the counter: nothing is sent and the counter is never reset. -/
theorem computeTang_single_later (codes : ShadowActorCodes) {w : World}
    (hw : Registered w 1) (h1 : 1 ≤ w.count) (self : Nat) (fuel : Nat) :
    computeTang codes (fuel + 1) w self =
      some { w with count := w.count + 1, trace := w.trace ++ [Step.enter self] } := by
  rw [computeTang_eq_coordinate, coordinate_tail _ hw self (by omega) (by simp only [Nat.cast_one]; omega),
    if_neg (by simp only [Nat.cast_one]; omega)]

/-- C9, failing input: one registered proxy (`k = 1`), counter `0`.  After
`2k - 1 = 1` invocation of `computeTang` the counter is `1`, not `0` (the single
invocation entered the fan-out branch, which does not reset), and it is never
reset afterwards: after three invocations it is `3` and only the first one has
sent a header. -/
theorem computeTang_cycle_single_proxy :
    (worldOf 1).count = 0 ∧ (worldOf 1).numShadowSubdomains = 1 ∧
    (worldOf 1).theShadowSubdomains = [0] ∧
    (driveTang exampleCodes 2 (worldOf 1) [0]).map (fun w => (w.count, w.trace)) =
      some (1, [Step.enter 0, Step.sendID 0 [39, 1, 0, 0], Step.fanOut 0]) ∧
    (driveTang exampleCodes 2 (worldOf 1) [0, 0, 0]).map (fun w => (w.count, w.trace)) =
      some (3, [Step.enter 0, Step.sendID 0 [39, 1, 0, 0], Step.fanOut 0, Step.enter 0,
        Step.enter 0]) := by
  decide

/-- C10, failing input: one registered proxy (`k = 1`), two successive passes
of one call each, from counter `0`.  The first pass sends its header; the second
pass sends none (`k = 1` was due) and reaches no fan-out, for `computeTang` as
for `computeResidual`, and the counter is `2` afterwards. -/
theorem compute_passes_single_proxy :
    (worldOf 1).count = 0 ∧ (worldOf 1).theShadowSubdomains = [0] ∧
    (passesTang exampleCodes 2 (worldOf 1) [[0], [0]]).map (fun w => (w.count, w.trace)) =
      some (2, [Step.enter 0, Step.sendID 0 [39, 1, 0, 0], Step.fanOut 0, Step.enter 0]) ∧
    (passesResidual exampleCodes 2 (worldOf 1) [[0], [0]]).map (fun w => (w.count, w.trace)) =
      some (2, [Step.enter 0, Step.sendID 0 [40, 0, 0, 0], Step.fanOut 0, Step.enter 0]) := by
  decide

/-- The counter cycle on three proxies: the driver calls proxy 1, then proxies
0 and 2. -/
theorem computeTang_cycle_example :
    (2 ≤ 3 ∧ (worldOf 3).count = 0 ∧ 1 ∈ (worldOf 3).theShadowSubdomains ∧
      [0, 2].length + 1 = 3) ∧
    (∃ w2 tr, driveTang exampleCodes 2 (worldOf 3) [1, 0, 2] = some w2 ∧ w2.count = 0 ∧
      w2.trace = (worldOf 3).trace ++ tr ∧
      tr.filterMap Step.entered =
        1 :: (worldOf 3).theShadowSubdomains.filter (fun q => decide (q ≠ 1)) ++ [0, 2] ∧
      (tr.filterMap Step.entered).length = 2 * 3 - 1 ∧
      ((worldOf 3).theShadowSubdomains.filter (fun q => decide (q ≠ 1))).length = 3 - 1 ∧
      tr.filterMap Step.fanner = [1]) ∧
    (driveTang exampleCodes 2 (worldOf 3) [1, 0, 2]).map (fun w => (w.count, w.trace)) =
      some (0, [Step.enter 1, Step.sendID 1 [39, 2, 0, 0], Step.fanOut 1,
        Step.enter 0, Step.sendID 0 [39, 1, 0, 0], Step.enter 2, Step.sendID 2 [39, 3, 0, 0],
        Step.enter 0, Step.enter 2]) :=
  ⟨⟨by decide, by decide, by decide, by decide⟩,
   computeTang_cycle exampleCodes (worldOf_registered 3) (by decide) (by decide) 1 [0, 2]
     (by decide) (by decide) 0,
   by decide⟩

/-- Two passes over three proxies, in different orders: both are good passes. -/
theorem computeTang_passes_example :
    (2 ≤ 3 ∧ (worldOf 3).count = 0 ∧
      ∀ ps ∈ examplePasses, ps.Perm (worldOf 3).theShadowSubdomains) ∧
    (∃ (w2 : World) (trs : List (List Step)),
      passesTang exampleCodes 2 (worldOf 3) examplePasses = some w2 ∧ w2.count = 0 ∧
      w2.trace = (worldOf 3).trace ++ trs.flatten ∧ trs.length = examplePasses.length ∧
      ∀ tr ∈ trs, OnePass (worldOf 3).theShadowSubdomains exampleCodes.computeTang tr) ∧
    (∃ (w2 : World) (trs : List (List Step)),
      passesResidual exampleCodes 2 (worldOf 3) examplePasses = some w2 ∧ w2.count = 0 ∧
      w2.trace = (worldOf 3).trace ++ trs.flatten ∧ trs.length = examplePasses.length ∧
      ∀ tr ∈ trs, OnePass (worldOf 3).theShadowSubdomains exampleCodes.computeResidual tr) :=
  ⟨⟨by decide, by decide, by decide⟩,
   computeTang_passes exampleCodes (worldOf_registered 3) (by decide) (by decide) examplePasses
     (by decide) 0,
   computeResidual_passes exampleCodes (worldOf_registered 3) (by decide) (by decide)
     examplePasses (by decide) 0⟩


/-! ## The member functions of one proxy -/

/-- Slots 0 to 2 of a 4-slot header after the three assignments that open an
add operation. -/
theorem addHeader_slots (p : ShadowSubdomain) (code classTag dbTag : Int)
    (h : p.msgData.length = 4) :
    idAt (addHeader p code classTag dbTag) 0 = code ∧
      idAt (addHeader p code classTag dbTag) 1 = classTag ∧
      idAt (addHeader p code classTag dbTag) 2 = dbTag ∧
      (addHeader p code classTag dbTag).length = 4 := by
  unfold addHeader
  generalize p.msgData = l at h
  match l, h with
  | [a, b, c, d], _ => simp [idAt]

/-- Slots 0 and 1 of a 4-slot header after `msgData(0) = code; msgData(1) = tag`. -/
theorem request_slots (l : ID) (code tag : Int) (h : l.length = 4) :
    idAt ((l.set 0 code).set 1 tag) 0 = code ∧ idAt ((l.set 0 code).set 1 tag) 1 = tag ∧
      ((l.set 0 code).set 1 tag).length = 4 := by
  match l, h with
  | [a, b, c, d], _ => simp [idAt]

/-- An index assignment at a position that is not negative succeeds, stores the
value, and the index then has more entries than the position. -/
theorem idAssign_of_nonneg (l : ID) (i v : Int) (h : 0 ≤ i) :
    ∃ l1, idAssign l i v = some l1 ∧ v ∈ l1 ∧ l1[i.toNat]? = some v ∧
      l1.length = max l.length (i.toNat + 1) := by
  unfold idAssign
  rw [if_neg (by omega)]
  by_cases hlt : i.toNat < l.length
  · rw [if_pos hlt]
    refine ⟨_, rfl, ?_, ?_, ?_⟩
    · exact List.mem_iff_getElem?.mpr ⟨i.toNat, List.getElem?_set_self hlt⟩
    · exact List.getElem?_set_self hlt
    · simp only [List.length_set]
      omega
  · rw [if_neg hlt]
    refine ⟨_, rfl, by simp, ?_, ?_⟩
    · rw [List.getElem?_append_right (by simp; omega)]
      have hz : i.toNat - (l ++ List.replicate (i.toNat - l.length) 0).length = 0 := by
        simp only [List.length_append, List.length_replicate]
        omega
      rw [hz]
      rfl
    · simp only [List.length_append, List.length_replicate, List.length_singleton]
      omega

/-- Removing a tag that is not in the index reports `-1` and leaves the index
as it is. -/
theorem idRemoveValue_absent (l : ID) (tag : Int) (h : tag ∉ l) :
    idRemoveValue l tag = (l, -1) := by
  unfold idRemoveValue
  rw [if_neg h]
  congr 1
  rw [List.filter_eq_self]
  intro a ha
  have : a ≠ tag := fun e => h (e ▸ ha)
  simpa using this

/-- Removing a tag that is in the index reports a location that is not
negative, and the tag is no longer in the index. -/
theorem idRemoveValue_present (l : ID) (tag : Int) (h : tag ∈ l) :
    0 ≤ (idRemoveValue l tag).2 ∧ tag ∉ (idRemoveValue l tag).1 := by
  unfold idRemoveValue
  rw [if_pos h]
  refine ⟨by simp, ?_⟩
  simp [List.mem_filter]

/-- C19: the structural-iteration accessors are always fatal.  In every proxy
state, `getElements`, `getNodes`, `getInternalNodeIter` and
`getExternalNodeIter` end in `exit(-1)`: no iterator is handed back to the
caller, no message is sent or received, and the proxy is as before. -/
theorem iteration_accessors_fatal (self : Nat) (p : ShadowSubdomain) :
    ((getElements self p).isFatal = true ∧ (getElements self p).value? = none ∧
      sent (getElements self p).steps = [] ∧ received (getElements self p).steps = [] ∧
      (getElements self p).proxy = p) ∧
    ((getNodes self p).isFatal = true ∧ (getNodes self p).value? = none ∧
      sent (getNodes self p).steps = [] ∧ received (getNodes self p).steps = [] ∧
      (getNodes self p).proxy = p) ∧
    ((getInternalNodeIter self p).isFatal = true ∧
      (getInternalNodeIter self p).value? = none ∧
      sent (getInternalNodeIter self p).steps = [] ∧
      received (getInternalNodeIter self p).steps = [] ∧
      (getInternalNodeIter self p).proxy = p) ∧
    ((getExternalNodeIter self p).isFatal = true ∧
      (getExternalNodeIter self p).value? = none ∧
      sent (getExternalNodeIter self p).steps = [] ∧
      received (getExternalNodeIter self p).steps = [] ∧
      (getExternalNodeIter self p).proxy = p) := by
  refine ⟨⟨rfl, rfl, rfl, rfl, rfl⟩, ⟨rfl, rfl, rfl, rfl, rfl⟩, ⟨rfl, rfl, rfl, rfl, rfl⟩,
    ⟨rfl, rfl, rfl, rfl, rfl⟩⟩

/-- C20, counterexample: on a freshly constructed proxy `buildEleGraph` and
`buildNodeGraph` are not fatal; each hands the value `-1` back to its caller. -/
theorem buildGraph_returns_counterexample :
    (buildEleGraph 0 freshProxy emptyGraph).isFatal = false ∧
    (buildEleGraph 0 freshProxy emptyGraph).value? = some (-1) ∧
    (buildNodeGraph 0 freshProxy emptyGraph).isFatal = false ∧
    (buildNodeGraph 0 freshProxy emptyGraph).value? = some (-1) := by
  decide

/-- C20, amended: in every proxy state `getElementGraph` and `getNodeGraph`
are fatal (`exit(-1)`, no value handed back), whereas `buildEleGraph` and
`buildNodeGraph` return the error code `-1` to the caller; none of the four
sends or receives a message or changes the proxy. -/
theorem graph_construction_unsupported (self : Nat) (p : ShadowSubdomain) (g : Graph) :
    ((getElementGraph self p).isFatal = true ∧ (getElementGraph self p).value? = none ∧
      (getElementGraph self p).steps = [] ∧ (getElementGraph self p).proxy = p) ∧
    ((getNodeGraph self p).isFatal = true ∧ (getNodeGraph self p).value? = none ∧
      (getNodeGraph self p).steps = [] ∧ (getNodeGraph self p).proxy = p) ∧
    ((buildEleGraph self p g).isFatal = false ∧ (buildEleGraph self p g).value? = some (-1) ∧
      (buildEleGraph self p g).steps = [] ∧ (buildEleGraph self p g).proxy = p) ∧
    ((buildNodeGraph self p g).isFatal = false ∧
      (buildNodeGraph self p g).value? = some (-1) ∧
      (buildNodeGraph self p g).steps = [] ∧ (buildNodeGraph self p g).proxy = p) := by
  refine ⟨⟨rfl, rfl, rfl, rfl⟩, ⟨rfl, rfl, rfl, rfl⟩, ⟨rfl, rfl, rfl, rfl⟩, ⟨rfl, rfl, rfl, rfl⟩⟩

/-- C12, counterexample: a freshly constructed proxy on which `buildSubdomain`
has been called and no fetch performed answers `getNumExternalNodes()` with
`0`, the very value the same proxy answers after a fetch in which the worker
reported the count zero. -/
theorem getNumExternalNodes_unknown_counterexample :
    builtProxy.buildRemote = true ∧ builtProxy.gotRemoteData = false ∧
    (getNumExternalNodes 0 builtProxy).value = 0 ∧
    (getExternalNodes exampleCodes 0
        { builtProxy with incoming := remoteData 0 0 0 0 [] }).map
      (fun c => (c.proxy.gotRemoteData, (getNumExternalNodes 0 c.proxy).value)) =
      some (true, 0) := by
  decide

/-- C12, amended: for a proxy with `buildRemote = true` on which no fetch has
been performed, `getNumExternalNodes()` returns the stored counter
`numExternalNodes`, which is `0` when it was never set (the value the
constructor stores, the same as a fetched count of zero); that the data has not
been received only shows as one `WARNING` line on `opserr`; no message is sent
or received and the proxy is unchanged. -/
theorem getNumExternalNodes_before_fetch (self : Nat) (p : ShadowSubdomain)
    (hb : p.buildRemote = true) (hg : p.gotRemoteData = false) :
    (getNumExternalNodes self p).value = p.numExternalNodes ∧
    (p.numExternalNodes = 0 → (getNumExternalNodes self p).value = 0) ∧
    (getNumExternalNodes self p).steps = [Step.warning self] ∧
    (getNumExternalNodes self p).proxy = p := by
  unfold getNumExternalNodes
  rw [if_pos ⟨hg, hb⟩]
  exact ⟨rfl, fun h => h, rfl, rfl⟩

/-- The amended statement on a freshly constructed proxy on which
`buildSubdomain` has been called. -/
theorem getNumExternalNodes_before_fetch_witness :
    (builtProxy.buildRemote = true ∧ builtProxy.gotRemoteData = false) ∧
    ((getNumExternalNodes 0 builtProxy).value = builtProxy.numExternalNodes ∧
      (builtProxy.numExternalNodes = 0 → (getNumExternalNodes 0 builtProxy).value = 0) ∧
      (getNumExternalNodes 0 builtProxy).steps = [Step.warning 0] ∧
      (getNumExternalNodes 0 builtProxy).proxy = builtProxy) ∧
    builtProxy.numExternalNodes = 0 :=
  ⟨⟨by decide, by decide⟩, getNumExternalNodes_before_fetch 0 builtProxy (by decide) (by decide),
   by decide⟩

/-- C17: removing an unknown tag.  For every proxy state and every tag that is
not in the local element index (resp. node index), `removeElement(tag)` (resp.
`removeNode(tag)`) returns the null pointer, takes no step at all (no message
sent, none received) and leaves the proxy unchanged. -/
theorem remove_unknown_tag (codes : ShadowActorCodes) (broker : FEM_ObjectBroker) (self : Nat)
    (p : ShadowSubdomain) (tag : Int) :
    (tag ∉ p.theElements →
      ∃ c, removeElement codes broker self p tag = some c ∧ c.value = none ∧ c.steps = [] ∧
        sent c.steps = [] ∧ received c.steps = [] ∧ c.proxy = p) ∧
    (tag ∉ p.theNodes →
      ∃ c, removeNode codes broker self p tag = some c ∧ c.value = none ∧ c.steps = [] ∧
        sent c.steps = [] ∧ received c.steps = [] ∧ c.proxy = p) := by
  constructor
  · intro h
    refine ⟨{ proxy := p, steps := [], value := none }, ?_, rfl, rfl, rfl, rfl, rfl⟩
    unfold removeElement
    simp only [idRemoveValue_absent _ _ h]
    rfl
  · intro h
    refine ⟨{ proxy := p, steps := [], value := none }, ?_, rfl, rfl, rfl, rfl, rfl⟩
    unfold removeNode
    simp only [idRemoveValue_absent _ _ h]
    rfl

/-- Scenario C on a freshly constructed proxy: tag `5` is in neither index. -/
theorem remove_unknown_tag_witness :
    ((5 : Int) ∉ freshProxy.theElements ∧ (5 : Int) ∉ freshProxy.theNodes) ∧
    (((5 : Int) ∉ freshProxy.theElements →
      ∃ c, removeElement exampleCodes fullBroker 0 freshProxy 5 = some c ∧ c.value = none ∧
        c.steps = [] ∧ sent c.steps = [] ∧ received c.steps = [] ∧ c.proxy = freshProxy) ∧
    ((5 : Int) ∉ freshProxy.theNodes →
      ∃ c, removeNode exampleCodes fullBroker 0 freshProxy 5 = some c ∧ c.value = none ∧
        c.steps = [] ∧ sent c.steps = [] ∧ received c.steps = [] ∧ c.proxy = freshProxy)) :=
  ⟨⟨by decide, by decide⟩, remove_unknown_tag exampleCodes fullBroker 0 freshProxy 5⟩

/-- C15: add operations on the wire.  For every element `e` (resp. node `n`),
on a proxy with its 4-slot header and a counter that is not negative,
`addElement` (resp. `addNode`, `addExternalNode`) sends exactly two messages in
this order, a header whose slots 0..2 are (operation code, class tag, database
tag) and then the object, and receives nothing; afterwards the element count
(resp. node count) is one larger, the object's tag is in the local index, the
partition is marked changed and the call returns `true`; `addExternalNode` in
addition increases `numExternalNodes` by one and `numDOF` by the node's number
of DOFs. -/
theorem add_on_the_wire (codes : ShadowActorCodes) (self : Nat) (p : ShadowSubdomain)
    (e : Element) (n : Node) (hm : p.msgData.length = 4) :
    (0 ≤ p.numElements →
      ∃ c data, addElement codes self p e = some c ∧
        sent c.steps = [Step.sendID self data, Step.sendObject self (MovableObject.element e)] ∧
        idAt data 0 = codes.addElement ∧ idAt data 1 = e.classTag ∧ idAt data 2 = e.dbTag ∧
        received c.steps = [] ∧ getNumElements c.proxy = getNumElements p + 1 ∧
        e.tag ∈ c.proxy.theElements ∧ c.proxy.hasDomainChangedFlag = true ∧ c.value = true) ∧
    (0 ≤ p.numNodes →
      ∃ c data, addNode codes self p n = some c ∧
        sent c.steps = [Step.sendID self data, Step.sendObject self (MovableObject.node n)] ∧
        idAt data 0 = codes.addNode ∧ idAt data 1 = n.classTag ∧ idAt data 2 = n.dbTag ∧
        received c.steps = [] ∧ getNumNodes c.proxy = getNumNodes p + 1 ∧
        n.tag ∈ c.proxy.theNodes ∧ c.proxy.hasDomainChangedFlag = true ∧ c.value = true) ∧
    (0 ≤ p.numNodes → 0 ≤ p.numExternalNodes →
      ∃ c data, addExternalNode codes self p n = some c ∧
        sent c.steps = [Step.sendID self data, Step.sendObject self (MovableObject.node n)] ∧
        idAt data 0 = codes.addExternalNode ∧ idAt data 1 = n.classTag ∧
        idAt data 2 = n.dbTag ∧
        received c.steps = [] ∧ getNumNodes c.proxy = getNumNodes p + 1 ∧
        n.tag ∈ c.proxy.theNodes ∧ n.tag ∈ c.proxy.theExternalNodes ∧
        c.proxy.numExternalNodes = p.numExternalNodes + 1 ∧
        c.proxy.numDOF = p.numDOF + n.numberDOF ∧
        c.proxy.hasDomainChangedFlag = true ∧ c.value = true) := by
  refine ⟨fun h0 => ?_, fun h0 => ?_, fun h0 h1 => ?_⟩
  · obtain ⟨l1, hl, hmem, -, -⟩ := idAssign_of_nonneg p.theElements p.numElements e.tag h0
    obtain ⟨s0, s1, s2, -⟩ := addHeader_slots p codes.addElement e.classTag e.dbTag hm
    have hcall : addElement codes self p e = some
        { proxy := domainChange
            { p with msgData := addHeader p codes.addElement e.classTag e.dbTag
                     theElements := l1, numElements := p.numElements + 1 }
          steps := [Step.sendID self (addHeader p codes.addElement e.classTag e.dbTag),
            Step.sendObject self (MovableObject.element e),
            Step.delete self (MovableObject.element e)]
          value := true } := by
      simp only [addElement, hl]
    exact ⟨_, _, hcall, rfl, s0, s1, s2, rfl, rfl, hmem, rfl, rfl⟩
  · obtain ⟨l1, hl, hmem, -, -⟩ := idAssign_of_nonneg p.theNodes p.numNodes n.tag h0
    obtain ⟨s0, s1, s2, -⟩ := addHeader_slots p codes.addNode n.classTag n.dbTag hm
    have hcall : addNode codes self p n = some
        { proxy := domainChange
            { p with msgData := addHeader p codes.addNode n.classTag n.dbTag
                     theNodes := l1, numNodes := p.numNodes + 1 }
          steps := [Step.sendID self (addHeader p codes.addNode n.classTag n.dbTag),
            Step.sendObject self (MovableObject.node n), Step.delete self (MovableObject.node n)]
          value := true } := by
      simp only [addNode, hl]
    exact ⟨_, _, hcall, rfl, s0, s1, s2, rfl, rfl, hmem, rfl, rfl⟩
  · obtain ⟨l1, hl, hmem, -, -⟩ := idAssign_of_nonneg p.theNodes p.numNodes n.tag h0
    obtain ⟨l2, hl2, hmem2, -, -⟩ :=
      idAssign_of_nonneg p.theExternalNodes p.numExternalNodes n.tag h1
    obtain ⟨s0, s1, s2, -⟩ := addHeader_slots p codes.addExternalNode n.classTag n.dbTag hm
    have hcall : addExternalNode codes self p n = some
        { proxy := domainChange
            { p with msgData := addHeader p codes.addExternalNode n.classTag n.dbTag
                     theNodes := l1, theExternalNodes := l2
                     numNodes := p.numNodes + 1, numExternalNodes := p.numExternalNodes + 1
                     numDOF := p.numDOF + n.numberDOF }
          steps := [Step.sendID self (addHeader p codes.addExternalNode n.classTag n.dbTag),
            Step.sendObject self (MovableObject.node n)]
          value := true } := by
      simp only [addExternalNode, hl, hl2]
    exact ⟨_, _, hcall, rfl, s0, s1, s2, rfl, rfl, hmem, hmem2, rfl, rfl, rfl, rfl⟩

/-- The three add operations on a freshly constructed proxy. -/
theorem add_on_the_wire_witness :
    (freshProxy.msgData.length = 4 ∧ 0 ≤ freshProxy.numElements ∧ 0 ≤ freshProxy.numNodes ∧
      0 ≤ freshProxy.numExternalNodes) ∧
    ((0 ≤ freshProxy.numElements →
      ∃ c data, addElement exampleCodes 0 freshProxy elementFive = some c ∧
        sent c.steps =
          [Step.sendID 0 data, Step.sendObject 0 (MovableObject.element elementFive)] ∧
        idAt data 0 = exampleCodes.addElement ∧ idAt data 1 = elementFive.classTag ∧
        idAt data 2 = elementFive.dbTag ∧
        received c.steps = [] ∧ getNumElements c.proxy = getNumElements freshProxy + 1 ∧
        elementFive.tag ∈ c.proxy.theElements ∧ c.proxy.hasDomainChangedFlag = true ∧
        c.value = true) ∧
    (0 ≤ freshProxy.numNodes →
      ∃ c data, addNode exampleCodes 0 freshProxy nodeSeven = some c ∧
        sent c.steps = [Step.sendID 0 data, Step.sendObject 0 (MovableObject.node nodeSeven)] ∧
        idAt data 0 = exampleCodes.addNode ∧ idAt data 1 = nodeSeven.classTag ∧
        idAt data 2 = nodeSeven.dbTag ∧
        received c.steps = [] ∧ getNumNodes c.proxy = getNumNodes freshProxy + 1 ∧
        nodeSeven.tag ∈ c.proxy.theNodes ∧ c.proxy.hasDomainChangedFlag = true ∧
        c.value = true) ∧
    (0 ≤ freshProxy.numNodes → 0 ≤ freshProxy.numExternalNodes →
      ∃ c data, addExternalNode exampleCodes 0 freshProxy nodeSeven = some c ∧
        sent c.steps = [Step.sendID 0 data, Step.sendObject 0 (MovableObject.node nodeSeven)] ∧
        idAt data 0 = exampleCodes.addExternalNode ∧ idAt data 1 = nodeSeven.classTag ∧
        idAt data 2 = nodeSeven.dbTag ∧
        received c.steps = [] ∧ getNumNodes c.proxy = getNumNodes freshProxy + 1 ∧
        nodeSeven.tag ∈ c.proxy.theNodes ∧ nodeSeven.tag ∈ c.proxy.theExternalNodes ∧
        c.proxy.numExternalNodes = freshProxy.numExternalNodes + 1 ∧
        c.proxy.numDOF = freshProxy.numDOF + nodeSeven.numberDOF ∧
        c.proxy.hasDomainChangedFlag = true ∧ c.value = true)) ∧
    (addElement exampleCodes 0 freshProxy elementFive).map (fun c => c.steps) =
      some [Step.sendID 0 [5, 11, 21, 0], Step.sendObject 0 (MovableObject.element elementFive),
        Step.delete 0 (MovableObject.element elementFive)] :=
  ⟨⟨by decide, by decide, by decide, by decide⟩,
   add_on_the_wire exampleCodes 0 freshProxy elementFive nodeSeven (by decide),
   by decide⟩

/-- `removeElement` on a tag of the local index, when the worker answers: the
tag is removed from the index first, then the one header is sent, then the
reply is received; the count drops by one and the partition is marked
changed. -/
theorem removeElement_known (codes : ShadowActorCodes) (broker : FEM_ObjectBroker) (self : Nat)
    (p : ShadowSubdomain) (tag : Int) (reply : ID) (hm : p.msgData.length = 4)
    (hin : tag ∈ p.theElements) (hrep : ElementReply broker p.incoming reply) :
    ∃ c, removeElement codes broker self p tag = some c ∧
      c.steps.take 3 = [Step.removeValue self Index.elements tag,
        Step.sendID self ((p.msgData.set 0 codes.removeElement).set 1 tag),
        Step.recvID self reply] ∧
      sent c.steps = [Step.sendID self ((p.msgData.set 0 codes.removeElement).set 1 tag)] ∧
      c.proxy.theElements = (idRemoveValue p.theElements tag).1 ∧
      c.proxy.numElements = p.numElements - 1 ∧ c.proxy.hasDomainChangedFlag = true ∧
      c.proxy.theNodes = p.theNodes ∧ c.proxy.numNodes = p.numNodes ∧
      c.proxy.gotRemoteData = p.gotRemoteData ∧ c.proxy.buildRemote = p.buildRemote ∧
      c.proxy.msgData.length = 4 ∧
      (idAt reply 0 = -1 → c.value = none ∧ received c.steps = [Step.recvID self reply]) := by
  obtain ⟨hlen, tail, hinc, hcase⟩ := hrep
  obtain ⟨hloc, -⟩ := idRemoveValue_present p.theElements tag hin
  have hreq : ((p.msgData.set 0 codes.removeElement).set 1 tag).length = 4 := by simp [hm]
  unfold removeElement
  simp only [if_neg (not_lt.mpr hloc), recvID, domainChange, hinc, hreq, hlen, if_true]
  by_cases h1 : idAt reply 0 = -1
  · simp only [h1, if_true]
    exact ⟨_, rfl, rfl, rfl, rfl, rfl, rfl, rfl, rfl, rfl, rfl, hlen, fun _ => ⟨rfl, rfl⟩⟩
  · simp only [h1, if_false]
    by_cases hb : broker.getNewElement (idAt reply 0) = true
    · rcases hcase with h | h | ⟨e, tail1, h⟩
      · exact absurd h h1
      · rw [hb] at h
        exact absurd h (by simp)
      · subst h
        simp only [hb, if_true, recvObject]
        exact ⟨_, rfl, rfl, rfl, rfl, rfl, rfl, rfl, rfl, rfl, rfl, hlen,
          fun h => h.elim⟩
    · simp only [hb, Bool.false_eq_true, if_false]
      exact ⟨_, rfl, rfl, rfl, rfl, rfl, rfl, rfl, rfl, rfl, rfl, hlen, fun h => h.elim⟩

/-- `removeNode` on a tag of the local node index, when the worker answers:
the tag is removed from the index first, then the one header is sent; the count
drops by one and the partition is marked changed. -/
theorem removeNode_known (codes : ShadowActorCodes) (broker : FEM_ObjectBroker) (self : Nat)
    (p : ShadowSubdomain) (tag : Int) (reply : ID) (hm : p.msgData.length = 4)
    (hin : tag ∈ p.theNodes) (hrep : NodeReply broker p.incoming reply) :
    ∃ c, removeNode codes broker self p tag = some c ∧
      c.steps.take 2 = [Step.removeValue self Index.nodes tag,
        Step.sendID self ((p.msgData.set 0 codes.removeNode).set 1 tag)] ∧
      sent c.steps = [Step.sendID self ((p.msgData.set 0 codes.removeNode).set 1 tag)] ∧
      c.proxy.theNodes = (idRemoveValue p.theNodes tag).1 ∧
      c.proxy.numNodes = p.numNodes - 1 ∧ c.proxy.hasDomainChangedFlag = true ∧
      c.proxy.theElements = p.theElements ∧ c.proxy.numElements = p.numElements ∧
      c.proxy.gotRemoteData = p.gotRemoteData ∧ c.proxy.buildRemote = p.buildRemote ∧
      c.proxy.msgData.length = 4 := by
  obtain ⟨hlen, tail, hinc, hcase⟩ := hrep
  obtain ⟨hloc, -⟩ := idRemoveValue_present p.theNodes tag hin
  have hreq : ((p.msgData.set 0 codes.removeNode).set 1 tag).length = 4 := by simp [hm]
  unfold removeNode
  simp only [if_neg (not_lt.mpr hloc), recvID, domainChange, hinc, hreq, hlen, if_true]
  have hsent : ∀ (l : List Step), sent ([Step.removeValue self Index.nodes tag,
      Step.sendID self ((p.msgData.set 0 codes.removeNode).set 1 tag)] ++
      (if 0 ≤ (idRemoveValue p.theExternalNodes tag).2 then
        [Step.removeValue self Index.externalNodes tag] else []) ++
      [Step.recvID self reply] ++ l) =
      [Step.sendID self ((p.msgData.set 0 codes.removeNode).set 1 tag)] ++ sent l := by
    intro l
    split_ifs <;> simp [sent, Step.isSend]
  by_cases h1 : idAt reply 0 = -1
  · simp only [h1, if_true]
    refine ⟨_, rfl, rfl, ?_, rfl, rfl, rfl, rfl, rfl, rfl, rfl, hlen⟩
    simpa [sent] using hsent []
  · simp only [h1, if_false]
    by_cases hb : broker.getNewNode (idAt reply 0) = true
    · rcases hcase with h | h | ⟨n, tail1, h⟩
      · exact absurd h h1
      · rw [hb] at h
        exact absurd h (by simp)
      · subst h
        simp only [hb, if_true, recvObject]
        refine ⟨_, rfl, rfl, ?_, ?_, ?_, ?_, ?_, ?_, ?_, ?_, ?_⟩
        · simp [sent, Step.isSend]
        all_goals split_ifs <;> first | rfl | exact hlen
    · simp only [hb, Bool.false_eq_true, if_false]
      refine ⟨_, rfl, rfl, ?_, rfl, rfl, rfl, rfl, rfl, rfl, rfl, hlen⟩
      simpa [sent] using hsent []

/-- C18: removing a known tag.  For every tag present in the local element
index of a proxy whose worker answers the request, `removeElement(tag)` first
removes the tag from the local index, then sends exactly one header, whose
slots 0..1 are (remove-element code, tag); after the call the tag is no longer
in the local index and `getNumElements()` is one smaller than before.  The same
holds for `removeNode` with the node index and `getNumNodes()`. -/
theorem remove_known_tag (codes : ShadowActorCodes) (broker : FEM_ObjectBroker) (self : Nat)
    (p : ShadowSubdomain) (tag : Int) (reply : ID) (hm : p.msgData.length = 4) :
    (tag ∈ p.theElements → ElementReply broker p.incoming reply →
      ∃ c data, removeElement codes broker self p tag = some c ∧
        c.steps.take 2 = [Step.removeValue self Index.elements tag, Step.sendID self data] ∧
        sent c.steps = [Step.sendID self data] ∧
        idAt data 0 = codes.removeElement ∧ idAt data 1 = tag ∧
        tag ∉ c.proxy.theElements ∧ getNumElements c.proxy = getNumElements p - 1) ∧
    (tag ∈ p.theNodes → NodeReply broker p.incoming reply →
      ∃ c data, removeNode codes broker self p tag = some c ∧
        c.steps.take 2 = [Step.removeValue self Index.nodes tag, Step.sendID self data] ∧
        sent c.steps = [Step.sendID self data] ∧
        idAt data 0 = codes.removeNode ∧ idAt data 1 = tag ∧
        tag ∉ c.proxy.theNodes ∧ getNumNodes c.proxy = getNumNodes p - 1) := by
  constructor
  · intro hin hrep
    obtain ⟨c, h1, h2, h3, h4, h5, -⟩ := removeElement_known codes broker self p tag reply hm
      hin hrep
    obtain ⟨s0, s1, -⟩ := request_slots p.msgData codes.removeElement tag hm
    refine ⟨c, _, h1, ?_, h3, s0, s1, ?_, h5⟩
    · have := congrArg (List.take 2) h2
      simpa [List.take_take] using this
    · rw [h4]
      exact (idRemoveValue_present p.theElements tag hin).2
  · intro hin hrep
    obtain ⟨c, h1, h2, h3, h4, h5, -⟩ := removeNode_known codes broker self p tag reply hm
      hin hrep
    obtain ⟨s0, s1, -⟩ := request_slots p.msgData codes.removeNode tag hm
    refine ⟨c, _, h1, h2, h3, s0, s1, ?_, h5⟩
    rw [h4]
    exact (idRemoveValue_present p.theNodes tag hin).2

/-- A proxy holding element `5` and node `7`: both removals, each answered by
the worker with a class tag and the object. -/
theorem remove_known_tag_witness :
    (holdingElement.msgData.length = 4 ∧ (5 : Int) ∈ holdingElement.theElements ∧
      ElementReply fullBroker holdingElement.incoming [11, 0, 0, 0]) ∧
    (((5 : Int) ∈ holdingElement.theElements →
        ElementReply fullBroker holdingElement.incoming [11, 0, 0, 0] →
      ∃ c data, removeElement exampleCodes fullBroker 0 holdingElement 5 = some c ∧
        c.steps.take 2 = [Step.removeValue 0 Index.elements 5, Step.sendID 0 data] ∧
        sent c.steps = [Step.sendID 0 data] ∧
        idAt data 0 = exampleCodes.removeElement ∧ idAt data 1 = 5 ∧
        (5 : Int) ∉ c.proxy.theElements ∧
        getNumElements c.proxy = getNumElements holdingElement - 1) ∧
    ((5 : Int) ∈ holdingElement.theNodes →
        NodeReply fullBroker holdingElement.incoming [11, 0, 0, 0] →
      ∃ c data, removeNode exampleCodes fullBroker 0 holdingElement 5 = some c ∧
        c.steps.take 2 = [Step.removeValue 0 Index.nodes 5, Step.sendID 0 data] ∧
        sent c.steps = [Step.sendID 0 data] ∧
        idAt data 0 = exampleCodes.removeNode ∧ idAt data 1 = 5 ∧
        (5 : Int) ∉ c.proxy.theNodes ∧
        getNumNodes c.proxy = getNumNodes holdingElement - 1)) ∧
    (removeElement exampleCodes fullBroker 0 holdingElement 5).map
        (fun c => (c.steps, c.value, c.proxy.theElements, c.proxy.numElements)) =
      some ([Step.removeValue 0 Index.elements 5, Step.sendID 0 [14, 5, 0, 0],
        Step.recvID 0 [11, 0, 0, 0], Step.recvObject 0 (MovableObject.element elementFive)],
        some elementFive, [], 0) ∧
    (removeNode exampleCodes fullBroker 0 holdingNode 7).map
        (fun c => (c.steps, c.value, c.proxy.theNodes, c.proxy.numNodes)) =
      some ([Step.removeValue 0 Index.nodes 7, Step.sendID 0 [15, 7, 0, 0],
        Step.recvID 0 [1, 0, 0, 0], Step.recvObject 0 (MovableObject.node nodeSeven)],
        some nodeSeven, [], 0) ∧
    holdingProxy [Wire.id [11, 0, 0, 0], Wire.object (MovableObject.element elementFive)] =
      some holdingElement :=
  ⟨⟨by decide, by decide,
    ⟨by decide, _, rfl, Or.inr (Or.inr ⟨elementFive, [], rfl⟩)⟩⟩,
   remove_known_tag exampleCodes fullBroker 0 holdingElement 5 [11, 0, 0, 0] (by decide),
   by decide, by decide, by decide⟩

/-- Growing an index by assigning at position `c - 1` past its end gives an
index of `c` entries. -/
theorem idAssign_grow (l : ID) (c : Nat) (h : l.length < c) :
    ∃ l1, idAssign l ((c : Int) - 1) 0 = some l1 ∧ l1.length = c := by
  obtain ⟨l1, h1, -, -, h4⟩ := idAssign_of_nonneg l ((c : Int) - 1) 0 (by omega)
  refine ⟨l1, h1, ?_⟩
  rw [h4]
  omega

/-- The fetch, when it is due and the worker answers with a count `c` that the
external-node index can be resized to (`c` is at least its current size), the
number `d` of DOFs, and the `c` tags: one get-remote-data request is sent, the
counters and the index are filled from the answer, and `gotRemoteData` is
set. -/
theorem getRemoteData_fetch (codes : ShadowActorCodes) (self : Nat) (p : ShadowSubdomain)
    (c : Nat) (d x y : Int) (tags : ID) (tail : List Wire)
    (hb : p.buildRemote = true) (hg : p.gotRemoteData = false) (hm : p.msgData.length = 4)
    (hsize : p.theExternalNodes.length ≤ c) (htags : tags.length = c)
    (hin : p.incoming = remoteData c d x y tags ++ tail) :
    ∃ r, getRemoteData codes self p = some r ∧ r.value = 0 ∧
      r.proxy.gotRemoteData = true ∧ r.proxy.buildRemote = true ∧
      r.proxy.numExternalNodes = (c : Int) ∧ r.proxy.numDOF = d ∧
      r.proxy.theExternalNodes = tags ∧ r.proxy.msgData = [(c : Int), d, x, y] ∧
      r.proxy.incoming = tail ∧
      sent r.steps = [Step.sendID self (p.msgData.set 0 codes.getRemoteData)] ∧
      fetchRequests codes r.steps = 1 := by
  have hreq : (p.msgData.set 0 codes.getRemoteData).length = 4 := by simp [hm]
  have hcode : idAt (p.msgData.set 0 codes.getRemoteData) 0 = codes.getRemoteData :=
    idAt_set_zero _ _ hm
  have hcnt : idAt [(c : Int), d, x, y] 0 = (c : Int) := rfl
  have hdof : idAt [(c : Int), d, x, y] 1 = d := rfl
  unfold getRemoteData
  rw [if_pos ⟨hb, hg⟩]
  simp only [recvID, hin, remoteData, List.cons_append, hreq, List.length_cons,
    List.length_nil, if_true, hcnt, hdof]
  by_cases hsz : p.theExternalNodes.length = c
  · have hsz1 : ((p.theExternalNodes.length : Int) ≠ (c : Int)) = False := by
      simp [hsz]
    simp only [hsz1, if_false, ne_eq, not_true_eq_false]
    by_cases hc0 : c = 0
    · subst hc0
      have ht : tags = [] := List.length_eq_zero.mp htags
      have he : p.theExternalNodes = [] := List.length_eq_zero.mp hsz
      simp only [hsz, Nat.cast_zero, not_true_eq_false, if_false, if_true, List.nil_append, ht]
      refine ⟨_, rfl, rfl, rfl, hb, rfl, rfl, he, rfl, rfl, rfl, ?_⟩
      simp [fetchRequests, Step.isRequest, hcode]
    · have hc1 : ((c : Int) = 0) = False := by simp [hc0]
      simp only [hsz, hc0, hc1, not_true_eq_false, not_false_eq_true, if_false, if_true,
        List.singleton_append, htags]
      refine ⟨_, rfl, rfl, rfl, hb, rfl, rfl, rfl, rfl, rfl, rfl, ?_⟩
      simp [fetchRequests, Step.isRequest, hcode]
  · have hlt : p.theExternalNodes.length < c := by omega
    obtain ⟨l1, hl1, hlen1⟩ := idAssign_grow p.theExternalNodes c hlt
    have hsz1 : ((p.theExternalNodes.length : Int) ≠ (c : Int)) = True := by
      simp only [ne_eq, Nat.cast_inj, eq_iff_iff, iff_true]
      exact hsz
    have hc0 : c ≠ 0 := by omega
    have hc1 : ((c : Int) = 0) = False := by simp [hc0]
    simp only [hsz1, if_true, hl1, hlen1, hc0, hc1, ne_eq, not_true_eq_false, not_false_eq_true,
      if_false, List.singleton_append, htags]
    refine ⟨_, rfl, rfl, rfl, hb, rfl, rfl, rfl, rfl, rfl, rfl, ?_⟩
    simp [fetchRequests, Step.isRequest, hcode]

/-- The requests among consecutive steps add up. -/
theorem fetchRequests_append (codes : ShadowActorCodes) (s1 s2 : List Step) :
    fetchRequests codes (s1 ++ s2) = fetchRequests codes s1 + fetchRequests codes s2 := by
  simp [fetchRequests]

/-- Once the remote data has been fetched, no fetch is made. -/
theorem fetchIfNeeded_cached (codes : ShadowActorCodes) (self : Nat) (p : ShadowSubdomain)
    (hg : p.gotRemoteData = true) :
    fetchIfNeeded codes self p = some { proxy := p, steps := [], value := () } := by
  unfold fetchIfNeeded
  rw [if_neg (by simp [hg])]

/-- An accessor after its fetch test: given what the test left behind (a
fetched proxy and the steps of the fetch, if one was made) and the reply the
accessor itself waits for, the accessor returns, adds no get-remote-data
request of its own, keeps the cache, and hands back the cached value. -/
theorem callAccessor_after (codes : ShadowActorCodes) (self : Nat) (p : ShadowSubdomain)
    (a : Accessor) (f : Call Unit) (d : Int) (tags : ID) (tail : List Wire)
    (hc1 : codes.getRemoteData ≠ codes.getTang)
    (hc2 : codes.getRemoteData ≠ codes.getResistingForce)
    (hf : fetchIfNeeded codes self p = some f) (hF : Fetched f.proxy d tags)
    (hin : f.proxy.incoming = a.reply ++ tail) :
    ∃ c, callAccessor codes self p a = some c ∧ Fetched c.proxy d tags ∧
      c.proxy.incoming = tail ∧ c.proxy.buildRemote = f.proxy.buildRemote ∧
      fetchRequests codes c.steps = fetchRequests codes f.steps ∧
      c.value.agrees d tags ∧
      ((a = Accessor.getNumDOF ∨ a = Accessor.getExternalNodes) → c.steps = f.steps) := by
  have hmsg := hF.msg
  cases a with
  | getExternalNodes =>
    simp only [Accessor.reply, List.nil_append] at hin
    refine ⟨{ proxy := f.proxy, steps := f.steps
              value := AccessorValue.nodes f.proxy.theExternalNodes },
      ?_, hF, hin, rfl, rfl, hF.ext, fun _ => rfl⟩
    simp [callAccessor, getExternalNodes, hf]
  | getNumDOF =>
    simp only [Accessor.reply, List.nil_append] at hin
    refine ⟨{ proxy := f.proxy, steps := f.steps
              value := AccessorValue.numDOF f.proxy.numDOF },
      ?_, hF, hin, rfl, rfl, hF.dof, fun _ => rfl⟩
    simp [callAccessor, getNumDOF, hf]
  | getTang =>
    simp only [Accessor.reply, List.singleton_append] at hin
    have hcode : idAt (f.proxy.msgData.set 0 codes.getTang) 0 = codes.getTang :=
      idAt_set_zero _ _ hmsg
    refine ⟨{ proxy := { f.proxy with msgData := f.proxy.msgData.set 0 codes.getTang
                                      theMatrix := some f.proxy.numDOF, incoming := tail }
              steps := f.steps ++ [Step.sendID self (f.proxy.msgData.set 0 codes.getTang),
                Step.recvMatrix self]
              value := AccessorValue.tang f.proxy.numDOF }, ?_, ?_, rfl, rfl, ?_, trivial, ?_⟩
    · simp [callAccessor, getTang, hf, recvMatrix, hin]
    · exact ⟨hF.got, hF.dof, hF.ext, by simp [hmsg]⟩
    · rw [fetchRequests_append]
      simp [fetchRequests, Step.isRequest, hcode, Ne.symm hc1]
    · intro h
      rcases h with h | h <;> cases h
  | getResistingForce =>
    simp only [Accessor.reply, List.singleton_append] at hin
    have hcode : idAt (f.proxy.msgData.set 0 codes.getResistingForce) 0 =
        codes.getResistingForce := idAt_set_zero _ _ hmsg
    refine ⟨{ proxy := { f.proxy with msgData := f.proxy.msgData.set 0 codes.getResistingForce
                                      theVector := some f.proxy.numDOF, incoming := tail }
              steps := f.steps ++
                [Step.sendID self (f.proxy.msgData.set 0 codes.getResistingForce),
                  Step.recvVector self]
              value := AccessorValue.force f.proxy.numDOF }, ?_, ?_, rfl, rfl, ?_, trivial, ?_⟩
    · simp [callAccessor, getResistingForce, hf, recvVector, hin]
    · exact ⟨hF.got, hF.dof, hF.ext, by simp [hmsg]⟩
    · rw [fetchRequests_append]
      simp [fetchRequests, Step.isRequest, hcode, Ne.symm hc2]
    · intro h
      rcases h with h | h <;> cases h

/-- Accessor calls on a proxy whose remote data has been fetched: every call
returns, none sends a get-remote-data request, and every `getNumDOF` and
`getExternalNodes` hands back the cached value. -/
theorem callAccessors_cached (codes : ShadowActorCodes) (self : Nat) (d : Int) (tags : ID)
    (tail : List Wire) (hc1 : codes.getRemoteData ≠ codes.getTang)
    (hc2 : codes.getRemoteData ≠ codes.getResistingForce) :
    ∀ (as : List Accessor) (q : ShadowSubdomain), Fetched q d tags →
      q.incoming = repliesFor as ++ tail →
      ∃ r, callAccessors codes self q as = some r ∧ Fetched r.proxy d tags ∧
        r.proxy.incoming = tail ∧ r.proxy.buildRemote = q.buildRemote ∧
        fetchRequests codes r.steps = 0 ∧ r.value.length = as.length ∧
        ∀ v ∈ r.value, v.agrees d tags := by
  intro as
  induction as with
  | nil =>
    intro q hF hin
    exact ⟨{ proxy := q, steps := [], value := [] }, rfl, hF,
      by simpa [repliesFor] using hin, rfl, rfl, rfl, by simp⟩
  | cons a rest ih =>
    intro q hF hin
    have hin1 : q.incoming = a.reply ++ (repliesFor rest ++ tail) := by
      rw [hin]
      simp [repliesFor, List.flatMap_cons]
    obtain ⟨c, a1, a2, a3, a4, a5, a6, -⟩ := callAccessor_after codes self q a
      { proxy := q, steps := [], value := () } d tags (repliesFor rest ++ tail) hc1 hc2
      (fetchIfNeeded_cached codes self q hF.got) hF hin1
    obtain ⟨r, b1, b2, b3, b4, b5, b6, b7⟩ := ih c.proxy a2 a3
    refine ⟨{ proxy := r.proxy, steps := c.steps ++ r.steps, value := c.value :: r.value }, ?_,
      b2, b3, by rw [b4, a4], ?_, by simp [b6], ?_⟩
    · simp only [callAccessors, a1, b1]
    · rw [fetchRequests_append, a5, b5]
      rfl
    · intro v hv
      rcases List.mem_cons.mp hv with h | h
      · rw [h]; exact a6
      · exact b7 v h

/-- The fetch test of an accessor, when the fetch is due and the worker answers
with a count the external-node index can be resized to. -/
theorem fetchIfNeeded_fetch (codes : ShadowActorCodes) (self : Nat) (p : ShadowSubdomain)
    (c : Nat) (d x y : Int) (tags : ID) (tail : List Wire)
    (hb : p.buildRemote = true) (hg : p.gotRemoteData = false) (hm : p.msgData.length = 4)
    (hsize : p.theExternalNodes.length ≤ c) (htags : tags.length = c)
    (hin : p.incoming = remoteData c d x y tags ++ tail) :
    ∃ f, fetchIfNeeded codes self p = some f ∧ Fetched f.proxy d tags ∧
      f.proxy.incoming = tail ∧ f.proxy.buildRemote = true ∧
      f.proxy.numExternalNodes = (c : Int) ∧ fetchRequests codes f.steps = 1 := by
  obtain ⟨r, h1, -, h3, h4, h5, h6, h7, h8, h9, -, h11⟩ :=
    getRemoteData_fetch codes self p c d x y tags tail hb hg hm hsize htags hin
  refine ⟨{ proxy := r.proxy, steps := r.steps, value := () }, ?_, ⟨h3, h6, h7, ?_⟩, h9, h4,
    h5, h11⟩
  · unfold fetchIfNeeded
    rw [if_pos ⟨hg, hb⟩, h1]
  · rw [h8]
    rfl

/-- C13 (scenario B, after the fetch): for a proxy on which `buildSubdomain` was
called and whose external-node index is no longer than the count to come (a
freshly constructed proxy has an empty one), after exactly one
`getExternalNodes()` call in which the worker replies with the header `(c, d)`
followed by `c` external-node tags: the call made one get-remote-data request,
the returned list has exactly `c` entries, the tags received;
`getNumExternalNodes()` returns `c` without a warning, `getNumDOF()` returns `d`
without any further message, and `gotRemoteData` is true. -/
theorem fetch_then_cached (codes : ShadowActorCodes) (self : Nat) (p : ShadowSubdomain)
    (c : Nat) (d x y : Int) (tags : ID) (tail : List Wire)
    (hb : p.buildRemote = true) (hg : p.gotRemoteData = false) (hm : p.msgData.length = 4)
    (hsize : p.theExternalNodes.length ≤ c) (htags : tags.length = c)
    (hin : p.incoming = remoteData c d x y tags ++ tail) :
    ∃ r, getExternalNodes codes self p = some r ∧ r.value = tags ∧ r.value.length = c ∧
      fetchRequests codes r.steps = 1 ∧
      (getNumExternalNodes self r.proxy).value = (c : Int) ∧
      (getNumExternalNodes self r.proxy).steps = [] ∧
      getNumDOF codes self r.proxy = some { proxy := r.proxy, steps := [], value := d } ∧
      r.proxy.gotRemoteData = true := by
  obtain ⟨f, h1, hF, -, -, h5, h6⟩ :=
    fetchIfNeeded_fetch codes self p c d x y tags tail hb hg hm hsize htags hin
  refine ⟨{ proxy := f.proxy, steps := f.steps, value := f.proxy.theExternalNodes }, ?_, hF.ext,
    ?_, h6, ?_, ?_, ?_, hF.got⟩
  · simp only [getExternalNodes, h1]
  · simp only [hF.ext, htags]
  · simp only [getNumExternalNodes, hF.got]
    simpa using h5
  · simp [getNumExternalNodes, hF.got]
  · simp only [getNumDOF, fetchIfNeeded_cached codes self f.proxy hF.got, hF.dof]

/-- Scenario B on a freshly constructed proxy: the worker reports the two
external nodes `7`, `8` and six DOFs. -/
theorem fetch_then_cached_witness :
    (builtProxy.buildRemote = true ∧ builtProxy.gotRemoteData = false ∧
      builtProxy.msgData.length = 4 ∧ builtProxy.theExternalNodes.length ≤ 2 ∧
      ([7, 8] : ID).length = 2) ∧
    (∃ r, getExternalNodes exampleCodes 0
        { builtProxy with incoming := remoteData 2 6 0 0 [7, 8] ++ [] } = some r ∧
      r.value = [7, 8] ∧ r.value.length = 2 ∧ fetchRequests exampleCodes r.steps = 1 ∧
      (getNumExternalNodes 0 r.proxy).value = ((2 : Nat) : Int) ∧
      (getNumExternalNodes 0 r.proxy).steps = [] ∧
      getNumDOF exampleCodes 0 r.proxy = some { proxy := r.proxy, steps := [], value := 6 } ∧
      r.proxy.gotRemoteData = true) ∧
    (getExternalNodes exampleCodes 0
        { builtProxy with incoming := remoteData 2 6 0 0 [7, 8] ++ [] }).map
      (fun r => (r.proxy, r.steps)) =
      some (fetchedProxy, [Step.sendID 0 [4, 77, 2, 1], Step.recvID 0 [2, 6, 0, 0],
        Step.recvID 0 [7, 8]]) :=
  ⟨⟨by decide, by decide, by decide, by decide, by decide⟩,
   fetch_then_cached exampleCodes 0
     { builtProxy with incoming := remoteData 2 6 0 0 [7, 8] ++ [] } 2 6 0 0 [7, 8] []
     (by decide) (by decide) (by decide) (by decide) (by decide) rfl,
   by decide⟩

/-- The fetch, when it is due and the worker answers with a count `c ≥ 1` smaller
than the current size of the external-node index: the assignment at position
`c - 1` is inside the index and resizes nothing, the size test fails, and
`getRemoteData` returns `-1` after one request, without setting
`gotRemoteData`. -/
theorem getRemoteData_refused (codes : ShadowActorCodes) (self : Nat) (p : ShadowSubdomain)
    (c : Nat) (d x y : Int) (tail : List Wire)
    (hb : p.buildRemote = true) (hg : p.gotRemoteData = false) (hm : p.msgData.length = 4)
    (hc : 1 ≤ c) (hsize : c < p.theExternalNodes.length)
    (hin : p.incoming = Wire.id [(c : Int), d, x, y] :: tail) :
    ∃ r, getRemoteData codes self p = some r ∧ r.value = -1 ∧
      r.proxy.gotRemoteData = false ∧ r.proxy.buildRemote = true ∧
      r.proxy.theExternalNodes.length = p.theExternalNodes.length ∧
      r.proxy.incoming = tail ∧ fetchRequests codes r.steps = 1 := by
  have hreq : (p.msgData.set 0 codes.getRemoteData).length = 4 := by simp [hm]
  have hcode : idAt (p.msgData.set 0 codes.getRemoteData) 0 = codes.getRemoteData :=
    idAt_set_zero _ _ hm
  have hcnt : idAt [(c : Int), d, x, y] 0 = (c : Int) := rfl
  have hdof : idAt [(c : Int), d, x, y] 1 = d := rfl
  have hne : ((p.theExternalNodes.length : Int) ≠ (c : Int)) = True := by
    simp only [ne_eq, Nat.cast_inj, eq_iff_iff, iff_true]
    omega
  have hassign : idAssign p.theExternalNodes ((c : Int) - 1) 0 =
      some (p.theExternalNodes.set ((c : Int) - 1).toNat 0) := by
    unfold idAssign
    rw [if_neg (by omega), if_pos (by omega)]
  unfold getRemoteData
  rw [if_pos ⟨hb, hg⟩]
  simp only [recvID, hin, hreq, List.length_cons, List.length_nil, if_true, hcnt, hdof, hne,
    hassign, List.length_set]
  refine ⟨_, rfl, rfl, hg, hb, by simp, rfl, ?_⟩
  simp [fetchRequests, Step.isRequest, hcode]

/-- C11, counterexample: a proxy that holds two external nodes and on which
`buildSubdomain` has been called (`buildRemote = true`, `gotRemoteData =
false`), with a worker that answers each request with the count `1`.  The
external-node index cannot be resized from two entries to one, `getRemoteData`
returns `-1` without setting `gotRemoteData`, and two `getNumDOF()` calls send
two get-remote-data requests. -/
theorem fetch_once_counterexample :
    shrinkingProxy = some shrunkProxy ∧ shrunkProxy.buildRemote = true ∧
    shrunkProxy.gotRemoteData = false ∧
    (getRemoteData exampleCodes 0 shrunkProxy).map
      (fun r => (r.value, r.proxy.gotRemoteData)) = some (-1, false) ∧
    (callAccessors exampleCodes 0 shrunkProxy [Accessor.getNumDOF, Accessor.getNumDOF]).map
      (fun r => (fetchRequests exampleCodes r.steps, r.proxy.gotRemoteData)) =
      some (2, false) := by
  decide

/-- C11, amended (fetch-once idempotence): for a proxy on which `buildSubdomain`
has been called (`buildRemote = true`, `gotRemoteData = false`), when the worker
answers the request with a count `c` that is at least the current size of the
proxy's external-node index (any `c ≥ 0` for a freshly constructed proxy), `d`
DOFs and the `c` tags, every sequence of `N ≥ 1` calls to `getExternalNodes`,
`getNumDOF`, `getTang`, `getResistingForce` with nothing in between returns and
sends exactly one get-remote-data request, and every `getNumDOF` and
`getExternalNodes` of the sequence hands back the same value, `d` resp. the
tags received (so calls 2..N agree with call 1). -/
theorem fetch_once (codes : ShadowActorCodes) (self : Nat) (p : ShadowSubdomain)
    (c : Nat) (d x y : Int) (tags : ID) (a : Accessor) (as : List Accessor) (tail : List Wire)
    (hc1 : codes.getRemoteData ≠ codes.getTang)
    (hc2 : codes.getRemoteData ≠ codes.getResistingForce)
    (hb : p.buildRemote = true) (hg : p.gotRemoteData = false) (hm : p.msgData.length = 4)
    (hsize : p.theExternalNodes.length ≤ c) (htags : tags.length = c)
    (hin : p.incoming = remoteData c d x y tags ++ (repliesFor (a :: as) ++ tail)) :
    ∃ r, callAccessors codes self p (a :: as) = some r ∧
      fetchRequests codes r.steps = 1 ∧ r.value.length = as.length + 1 ∧
      (∀ v ∈ r.value, v.agrees d tags) ∧
      r.proxy.gotRemoteData = true ∧ r.proxy.incoming = tail := by
  have hrep : repliesFor (a :: as) ++ tail = a.reply ++ (repliesFor as ++ tail) := by
    simp [repliesFor, List.flatMap_cons]
  obtain ⟨f, f1, f2, f3, -, -, f6⟩ := fetchIfNeeded_fetch codes self p c d x y tags
    (repliesFor (a :: as) ++ tail) hb hg hm hsize htags hin
  obtain ⟨c1, a1, a2, a3, -, a5, a6, -⟩ := callAccessor_after codes self p a f d tags
    (repliesFor as ++ tail) hc1 hc2 f1 f2 (by rw [f3, hrep])
  obtain ⟨r, b1, b2, b3, -, b5, b6, b7⟩ := callAccessors_cached codes self d tags tail hc1 hc2
    as c1.proxy a2 a3
  refine ⟨{ proxy := r.proxy, steps := c1.steps ++ r.steps, value := c1.value :: r.value }, ?_,
    ?_, by simp [b6], ?_, b2.got, b3⟩
  · simp only [callAccessors, a1, b1]
  · rw [fetchRequests_append, a5, f6, b5]
  · intro v hv
    rcases List.mem_cons.mp hv with h | h
    · rw [h]; exact a6
    · exact b7 v h

/-- Four accessor calls on a freshly constructed proxy on which `buildSubdomain`
was called: one request, and the values of the cache. -/
theorem fetch_once_witness :
    (exampleCodes.getRemoteData ≠ exampleCodes.getTang ∧
      exampleCodes.getRemoteData ≠ exampleCodes.getResistingForce ∧
      builtProxy.buildRemote = true ∧ builtProxy.gotRemoteData = false ∧
      builtProxy.msgData.length = 4 ∧ builtProxy.theExternalNodes.length ≤ 2 ∧
      ([7, 8] : ID).length = 2) ∧
    (∃ r, callAccessors exampleCodes 0
        { builtProxy with
          incoming := remoteData 2 6 0 0 [7, 8] ++
            (repliesFor (Accessor.getTang ::
              [Accessor.getNumDOF, Accessor.getExternalNodes, Accessor.getResistingForce]) ++
              []) }
        (Accessor.getTang ::
          [Accessor.getNumDOF, Accessor.getExternalNodes, Accessor.getResistingForce]) =
          some r ∧
      fetchRequests exampleCodes r.steps = 1 ∧
      r.value.length =
        [Accessor.getNumDOF, Accessor.getExternalNodes, Accessor.getResistingForce].length + 1 ∧
      (∀ v ∈ r.value, v.agrees 6 [7, 8]) ∧
      r.proxy.gotRemoteData = true ∧ r.proxy.incoming = []) ∧
    (callAccessors exampleCodes 0
        { builtProxy with incoming := remoteData 2 6 0 0 [7, 8] ++ repliesFor exampleCalls }
        exampleCalls).map (fun r => (r.steps, r.value)) =
      some ([Step.sendID 0 [4, 77, 2, 1], Step.recvID 0 [2, 6, 0, 0], Step.recvID 0 [7, 8],
          Step.sendID 0 [42, 6, 0, 0], Step.recvMatrix 0, Step.sendID 0 [43, 6, 0, 0],
          Step.recvVector 0],
        [AccessorValue.tang 6, AccessorValue.numDOF 6, AccessorValue.nodes [7, 8],
          AccessorValue.force 6]) :=
  ⟨⟨by decide, by decide, by decide, by decide, by decide, by decide, by decide⟩,
   fetch_once exampleCodes 0 _ 2 6 0 0 [7, 8] Accessor.getTang
     [Accessor.getNumDOF, Accessor.getExternalNodes, Accessor.getResistingForce] []
     (by decide) (by decide) (by decide) (by decide) (by decide) (by decide) (by decide) rfl,
   by decide⟩

/-- Receiving an `ID` only consumes the head of the incoming messages. -/
theorem recvID_frame (p q : ShadowSubdomain) (n : Nat) (data : ID)
    (h : recvID p n = some (q, data)) : q = { p with incoming := p.incoming.tail } := by
  unfold recvID at h
  cases hinc : p.incoming with
  | nil => simp [hinc] at h
  | cons w rest =>
    cases w with
    | id d =>
      simp only [hinc] at h
      split_ifs at h
      simp only [Option.some.injEq, Prod.mk.injEq] at h
      rw [← h.1]
      rfl
    | object o => simp [hinc] at h
    | vector => simp [hinc] at h
    | matrix => simp [hinc] at h

/-- Receiving an object only consumes the head of the incoming messages. -/
theorem recvObject_frame (p q : ShadowSubdomain) (obj : MovableObject)
    (h : recvObject p = some (q, obj)) : q = { p with incoming := p.incoming.tail } := by
  unfold recvObject at h
  cases hinc : p.incoming with
  | nil => simp [hinc] at h
  | cons w rest =>
    cases w with
    | id d => simp [hinc] at h
    | object o =>
      simp only [hinc, Option.some.injEq, Prod.mk.injEq] at h
      rw [← h.1]
      rfl
    | vector => simp [hinc] at h
    | matrix => simp [hinc] at h

/-- A complete description of one entry of `result` after the loop of
`getLastResponse` started at position `k`: positions before `k` and positions
past the end of `id` keep their content; a position holding a negative index
receives `0`, one holding an index up to `size` receives the entry of `X`, and
one holding a larger index keeps its content. -/
theorem getLastResponseLoop_get {R : Type} [Zero R] (size : Int) (X : Vector R)
    (ids : List Int) : ∀ (k : Nat) (s : Response R) (j : Nat),
    (getLastResponseLoop size X k ids s).result[j]? =
      if j < k then s.result[j]?
      else match ids[j - k]? with
        | none => s.result[j]?
        | some l =>
          if l < 0 then s.result[j]?.map (fun _ => 0)
          else if l ≤ size then s.result[j]?.map (fun _ => vectorAt X l.toNat)
          else s.result[j]? := by
  induction ids with
  | nil => intro k s j; simp [getLastResponseLoop]
  | cons g rest ih =>
    intro k s j
    have hset : ∀ v : R, (s.result.set k v)[j]? =
        if k = j then s.result[j]?.map (fun _ => v) else s.result[j]? := by
      intro v
      rw [List.getElem?_set]
      by_cases hkj : k = j
      · subst hkj
        by_cases hlt : k < s.result.length
        · simp [hlt]
        · simp [hlt, List.getElem?_eq_none (not_lt.mp hlt)]
      · simp [hkj]
    have hidx : k < j → (g :: rest)[j - k]? = rest[j - (k + 1)]? := by
      intro hlt
      have : j - k = (j - (k + 1)) + 1 := by omega
      rw [this, List.getElem?_cons_succ]
    unfold getLastResponseLoop
    by_cases h1 : g < 0
    · rw [if_pos h1, ih]
      rcases Nat.lt_trichotomy j k with hjk | hjk | hjk
      · rw [if_pos (show j < k + 1 by omega), if_pos hjk, hset, if_neg (by omega)]
      · subst hjk
        rw [if_pos (show j < j + 1 by omega), if_neg (lt_irrefl j), hset, if_pos rfl]
        simp only [Nat.sub_self, List.getElem?_cons_zero, h1, if_true]
      · rw [if_neg (show ¬ j < k + 1 by omega), if_neg (show ¬ j < k by omega), hidx hjk]
        simp only [hset, if_neg (show k ≠ j by omega)]
    · rw [if_neg h1]
      by_cases h2 : g ≤ size
      · rw [if_pos h2, ih]
        rcases Nat.lt_trichotomy j k with hjk | hjk | hjk
        · rw [if_pos (show j < k + 1 by omega), if_pos hjk, hset, if_neg (by omega)]
        · subst hjk
          rw [if_pos (show j < j + 1 by omega), if_neg (lt_irrefl j), hset, if_pos rfl]
          simp only [Nat.sub_self, List.getElem?_cons_zero, h1, h2, if_true, if_false]
        · rw [if_neg (show ¬ j < k + 1 by omega), if_neg (show ¬ j < k by omega), hidx hjk]
          simp only [hset, if_neg (show k ≠ j by omega)]
      · rw [if_neg h2, ih]
        rcases Nat.lt_trichotomy j k with hjk | hjk | hjk
        · rw [if_pos (show j < k + 1 by omega), if_pos hjk]
        · subst hjk
          rw [if_pos (show j < j + 1 by omega), if_neg (lt_irrefl j)]
          simp only [Nat.sub_self, List.getElem?_cons_zero, h1, h2, if_false]
        · rw [if_neg (show ¬ j < k + 1 by omega), if_neg (show ¬ j < k by omega), hidx hjk]

/-- C24: `commit` delegates.  With a model linked, `commit` returns exactly the
value of the model's `commitDomain()`, which is invoked exactly once (it is the
only event of the call); no operation is performed on the Assembly Target and
the integrator, its link to the Assembly Target included, is as before. -/
theorem commit_delegates {σ R : Type} (I : IncrementalIntegrator σ R) (model : AnalysisModel R)
    (hM : I.theAnalysisModel = some model) :
    (commit I).ret = model.commitDomain ∧
    (commit I).trace = [Event.commitDomain] ∧
    soeOps (commit I).trace = [] ∧
    (commit I).integ = I ∧ (commit I).integ.theSOE = I.theSOE := by
  unfold commit
  rw [hM]
  exact ⟨rfl, rfl, rfl, rfl, rfl⟩

/-- Scenario A, whose model answers `commitDomain()` with `0`, and a model that
answers `-5`, linked without any Assembly Target state being touched. -/
theorem commit_delegates_witness :
    scenarioA.theAnalysisModel = some scenarioA_model ∧
    ((commit scenarioA).ret = scenarioA_model.commitDomain ∧
      (commit scenarioA).trace = [Event.commitDomain] ∧
      soeOps (commit scenarioA).trace = [] ∧
      (commit scenarioA).integ = scenarioA ∧
      (commit scenarioA).integ.theSOE = scenarioA.theSOE) ∧
    (commit failingCommit).ret = -5 ∧ (commit failingCommit).trace = [Event.commitDomain] :=
  ⟨rfl, commit_delegates scenarioA scenarioA_model rfl, rfl, rfl⟩

/-- C25: `revertToLastStep()` and `initialize()` are no-ops.  In every
integrator state, linked or not, each returns `0`, leaves the integrator
(status flag, model link, Assembly Target link) unchanged and performs no
operation on the model or on the Assembly Target (the call has no event). -/
theorem revert_and_initialize_noop {σ R : Type} (I : IncrementalIntegrator σ R) :
    ((revertToLastStep I).ret = 0 ∧ (revertToLastStep I).trace = [] ∧
      (revertToLastStep I).integ.statusFlag = I.statusFlag ∧
      (revertToLastStep I).integ.theAnalysisModel = I.theAnalysisModel ∧
      (revertToLastStep I).integ.theSOE = I.theSOE ∧ (revertToLastStep I).integ = I) ∧
    ((integratorInit I).ret = 0 ∧ (integratorInit I).trace = [] ∧
      (integratorInit I).integ.statusFlag = I.statusFlag ∧
      (integratorInit I).integ.theAnalysisModel = I.theAnalysisModel ∧
      (integratorInit I).integ.theSOE = I.theSOE ∧ (integratorInit I).integ = I) := by
  refine ⟨⟨rfl, rfl, rfl, rfl, rfl, rfl⟩, ⟨rfl, rfl, rfl, rfl, rfl, rfl⟩⟩

/-- C30: the frame of `getLastResponse` on an out-of-bounds index.  With an
Assembly Target of `n` equations linked, for every position `i` with
`id(i) ≥ n`: `result(i)` is after the call what it was before; every later
position `j` is processed by the usual rule (`0` for a negative index,
`X(id(j))` for an index in `[0, n)`, untouched for another index `≥ n`); and at
every position other than `i` the call leaves what it would leave if `id(i)`
held any other value `g`, an index inside the bounds for instance. -/
theorem getLastResponse_frame {σ R : Type} [Zero R] (ops : LinearSOE σ R)
    (I : IncrementalIntegrator σ R) (soe : σ) (n : Nat) (result : Vector R) (id : ID)
    (i : Nat) (loc : Int)
    (hS : I.theSOE = some soe) (hn : ops.getNumEqn soe = (n : Int))
    (hid : id[i]? = some loc) (hge : (n : Int) ≤ loc) :
    (getLastResponse ops I result id).result[i]? = result[i]? ∧
    (∀ j l, i < j → id[j]? = some l → j < result.length →
      (l < 0 → (getLastResponse ops I result id).result[j]? = some 0) ∧
      (0 ≤ l → l < (n : Int) →
        (getLastResponse ops I result id).result[j]? =
          some (vectorAt (ops.getX soe) l.toNat)) ∧
      ((n : Int) ≤ l → (getLastResponse ops I result id).result[j]? = result[j]?)) ∧
    (∀ g j, j ≠ i →
      (getLastResponse ops I result id).result[j]? =
        (getLastResponse ops I result (id.set i g)).result[j]?) := by
  simp only [getLastResponse, hS, hn]
  refine ⟨?_, ?_, ?_⟩
  · rw [getLastResponseLoop_get]
    simp only [Nat.not_lt_zero, if_false, Nat.sub_zero, hid]
    rw [if_neg (by omega), if_neg (by omega)]
  · intro j l _ hj hlen
    rw [getLastResponseLoop_get]
    simp only [Nat.not_lt_zero, if_false, Nat.sub_zero, hj]
    have hres : result[j]? = some (result.get ⟨j, hlen⟩) := List.getElem?_eq_getElem hlen
    refine ⟨fun h => ?_, fun h0 h1 => ?_, fun h => ?_⟩
    · rw [if_pos h, hres]; rfl
    · rw [if_neg (by omega), if_pos (by omega), hres]; rfl
    · rw [if_neg (by omega), if_neg (by omega)]
  · intro g j hne
    rw [getLastResponseLoop_get, getLastResponseLoop_get]
    simp only [Nat.not_lt_zero, if_false, Nat.sub_zero]
    rw [List.getElem?_set_ne (Ne.symm hne)]

/-- A 3-equation target with `X = [10,20,30]`, `id = [-1,0,3,2,5]` and `result`
holding `9` everywhere: position 2 (index `3 ≥ 3`) keeps its `9`, the later
position 3 still receives `X(2) = 30`, and with the in-bounds index `1` at
position 2 only that position differs. -/
theorem getLastResponse_frame_witness :
    (scenarioA.theSOE = some scenarioA_target ∧
      (assemblyTarget Int).getNumEqn scenarioA_target = ((3 : Nat) : Int) ∧
      frameIds[2]? = some 3 ∧ ((3 : Nat) : Int) ≤ 3) ∧
    ((getLastResponse (assemblyTarget Int) scenarioA nines
        frameIds).result[2]? = nines[2]? ∧
      (∀ j l, 2 < j → frameIds[j]? = some l → j < nines.length →
        (l < 0 → (getLastResponse (assemblyTarget Int) scenarioA nines
          frameIds).result[j]? = some 0) ∧
        (0 ≤ l → l < ((3 : Nat) : Int) →
          (getLastResponse (assemblyTarget Int) scenarioA nines
            frameIds).result[j]? =
            some (vectorAt ((assemblyTarget Int).getX scenarioA_target) l.toNat)) ∧
        (((3 : Nat) : Int) ≤ l →
          (getLastResponse (assemblyTarget Int) scenarioA nines
            frameIds).result[j]? = nines[j]?)) ∧
      (∀ g j, j ≠ 2 →
        (getLastResponse (assemblyTarget Int) scenarioA nines
          frameIds).result[j]? =
          (getLastResponse (assemblyTarget Int) scenarioA nines
            (frameIds.set 2 g)).result[j]?)) ∧
    (getLastResponse (assemblyTarget Int) scenarioA nines frameIds).result =
      [0, 10, 9, 30, 9] ∧
    (getLastResponse (assemblyTarget Int) scenarioA nines [-1, 0, 1, 2, 5]).result =
      [0, 10, 20, 30, 9] :=
  ⟨⟨rfl, rfl, rfl, by decide⟩,
   getLastResponse_frame (assemblyTarget Int) scenarioA scenarioA_target 3 nines
     frameIds 2 3 rfl rfl rfl (by decide),
   by decide, by decide⟩


/-! ## Forwarding, buildSubdomain, teardown, remote miss -/

/-- A 4-slot header after `msgData(0) = code`: slot 0 holds the code and the
buffer still has four slots. -/
theorem header_slot (l : ID) (code : Int) (h : l.length = 4) :
    idAt (l.set 0 code) 0 = code ∧ (l.set 0 code).length = 4 := by
  match l, h with
  | [a, b, c, d], _ => simp [idAt]

/-- C21, counterexample: on a freshly constructed proxy, to which no
domain-decomposition analysis has been attached, `update()`, `commit()`,
`revertToLastCommit()` and `applyLoad(t)` take no step at all, so no header is
sent; the same holds once an analysis that works independently has been
attached. -/
theorem forwarding_counterexample :
    freshProxy.theDDA = none ∧
    (update exampleCodes 0 freshProxy).steps = [] ∧
    (ShadowSubdomain.commit exampleCodes 0 freshProxy).steps = [] ∧
    (revertToLastCommit exampleCodes 0 freshProxy).steps = [] ∧
    (applyLoad exampleCodes 0 freshProxy).steps = [] ∧
    independentProxy.theDDA = some independentAnalysis ∧
    (update exampleCodes 0 independentProxy).steps = [] ∧
    (ShadowSubdomain.commit exampleCodes 0 independentProxy).steps = [] := by
  decide

/-- C21, amended: `update()`, `commit()`, `revertToLastCommit()` and
`applyLoad(t)` are forwarded exactly when a domain-decomposition analysis is
attached that does not work independently: then each sends one header carrying
its operation code (`applyLoad` followed by the time vector); with no analysis
attached, or one that works independently, they send nothing and leave the
proxy as it is.  `revertToStart()` sends the header carrying its code in every
proxy state.  All of them return (`0` where there is a value). -/
theorem forwarding (codes : ShadowActorCodes) (self : Nat) (p : ShadowSubdomain)
    (hm : p.msgData.length = 4) :
    (analysesRemotely p = true ↔
      ∃ dda, p.theDDA = some dda ∧ dda.doesIndependentAnalysis = false) ∧
    (analysesRemotely p = true →
      (∃ data, (update codes self p).steps = [Step.sendID self data] ∧
        idAt data 0 = codes.update) ∧
      (∃ data, (ShadowSubdomain.commit codes self p).steps = [Step.sendID self data] ∧
        idAt data 0 = codes.commit) ∧
      (∃ data, (revertToLastCommit codes self p).steps = [Step.sendID self data] ∧
        idAt data 0 = codes.revertToLastCommit) ∧
      (∃ data, (applyLoad codes self p).steps = [Step.sendID self data, Step.sendVector self] ∧
        idAt data 0 = codes.applyLoad)) ∧
    (analysesRemotely p = false →
      ((update codes self p).steps = [] ∧ (update codes self p).proxy = p) ∧
      ((ShadowSubdomain.commit codes self p).steps = [] ∧
        (ShadowSubdomain.commit codes self p).proxy = p) ∧
      ((revertToLastCommit codes self p).steps = [] ∧
        (revertToLastCommit codes self p).proxy = p) ∧
      ((applyLoad codes self p).steps = [] ∧ (applyLoad codes self p).proxy = p)) ∧
    (∃ data, (revertToStart codes self p).steps = [Step.sendID self data] ∧
      idAt data 0 = codes.revertToStart) ∧
    ((update codes self p).value = 0 ∧ (ShadowSubdomain.commit codes self p).value = 0 ∧
      (revertToLastCommit codes self p).value = 0 ∧ (revertToStart codes self p).value = 0) := by
  refine ⟨?_, ?_, ?_, ?_, ?_⟩
  · unfold analysesRemotely
    cases hd : p.theDDA with
    | none => simp
    | some dda => simp
  · intro h
    refine ⟨⟨_, ?_, (header_slot p.msgData codes.update hm).1⟩,
      ⟨_, ?_, (header_slot p.msgData codes.commit hm).1⟩,
      ⟨_, ?_, (header_slot p.msgData codes.revertToLastCommit hm).1⟩,
      ⟨_, ?_, (header_slot p.msgData codes.applyLoad hm).1⟩⟩
    · simp only [update, h, if_true]
    · simp only [ShadowSubdomain.commit, h, if_true]
    · simp only [revertToLastCommit, h, if_true]
    · simp only [applyLoad, h, if_true]
  · intro h
    simp [update, ShadowSubdomain.commit, revertToLastCommit, applyLoad, h]
  · exact ⟨_, rfl, (header_slot p.msgData codes.revertToStart hm).1⟩
  · unfold update ShadowSubdomain.commit revertToLastCommit revertToStart
    refine ⟨?_, ?_, ?_, rfl⟩ <;> split_ifs <;> rfl

/-- The amended statement on the proxy with `remoteAnalysis` attached, where
the four calls are forwarded with the codes 29, 30, 31 and 24. -/
theorem forwarding_witness :
    analysedProxy.msgData.length = 4 ∧
    ((analysesRemotely analysedProxy = true ↔
      ∃ dda, analysedProxy.theDDA = some dda ∧ dda.doesIndependentAnalysis = false) ∧
    (analysesRemotely analysedProxy = true →
      (∃ data, (update exampleCodes 0 analysedProxy).steps = [Step.sendID 0 data] ∧
        idAt data 0 = exampleCodes.update) ∧
      (∃ data, (ShadowSubdomain.commit exampleCodes 0 analysedProxy).steps =
          [Step.sendID 0 data] ∧
        idAt data 0 = exampleCodes.commit) ∧
      (∃ data, (revertToLastCommit exampleCodes 0 analysedProxy).steps =
          [Step.sendID 0 data] ∧
        idAt data 0 = exampleCodes.revertToLastCommit) ∧
      (∃ data, (applyLoad exampleCodes 0 analysedProxy).steps =
          [Step.sendID 0 data, Step.sendVector 0] ∧
        idAt data 0 = exampleCodes.applyLoad)) ∧
    (analysesRemotely analysedProxy = false →
      ((update exampleCodes 0 analysedProxy).steps = [] ∧
        (update exampleCodes 0 analysedProxy).proxy = analysedProxy) ∧
      ((ShadowSubdomain.commit exampleCodes 0 analysedProxy).steps = [] ∧
        (ShadowSubdomain.commit exampleCodes 0 analysedProxy).proxy = analysedProxy) ∧
      ((revertToLastCommit exampleCodes 0 analysedProxy).steps = [] ∧
        (revertToLastCommit exampleCodes 0 analysedProxy).proxy = analysedProxy) ∧
      ((applyLoad exampleCodes 0 analysedProxy).steps = [] ∧
        (applyLoad exampleCodes 0 analysedProxy).proxy = analysedProxy)) ∧
    (∃ data, (revertToStart exampleCodes 0 analysedProxy).steps = [Step.sendID 0 data] ∧
      idAt data 0 = exampleCodes.revertToStart) ∧
    ((update exampleCodes 0 analysedProxy).value = 0 ∧
      (ShadowSubdomain.commit exampleCodes 0 analysedProxy).value = 0 ∧
      (revertToLastCommit exampleCodes 0 analysedProxy).value = 0 ∧
      (revertToStart exampleCodes 0 analysedProxy).value = 0)) ∧
    analysesRemotely analysedProxy = true ∧
    (update exampleCodes 0 analysedProxy).steps = [Step.sendID 0 [29, 50, 0, 0]] ∧
    (applyLoad exampleCodes 0 analysedProxy).steps =
      [Step.sendID 0 [24, 50, 0, 0], Step.sendVector 0] ∧
    (revertToStart exampleCodes 0 freshProxy).steps = [Step.sendID 0 [32, 0, 0, 0]] :=
  ⟨by decide, forwarding exampleCodes 0 analysedProxy (by decide), by decide, by decide,
    by decide, by decide⟩

/-- C22: `buildSubdomain(count, builder)`.  In every proxy state (the header
buffer has its four slots) the call sets `buildRemote` to true and
`gotRemoteData` to false, takes exactly two steps, both sends: the header with
the slots (build-subdomain code, builder class tag, count, partition tag) and
then the builder object; it receives nothing and sends no get-remote-data
request, marks the partition changed, and returns `0`. -/
theorem buildSubdomain_contract (codes : ShadowActorCodes) (self : Nat) (p : ShadowSubdomain)
    (count : Int) (builder : PartitionedModelBuilder) (hm : p.msgData.length = 4) :
    (buildSubdomain codes self p count builder).proxy.buildRemote = true ∧
    (buildSubdomain codes self p count builder).proxy.gotRemoteData = false ∧
    (buildSubdomain codes self p count builder).steps =
      [Step.sendID self [codes.buildSubdomain, builder.classTag, count, p.tag],
        Step.sendObject self (MovableObject.builder builder)] ∧
    sent (buildSubdomain codes self p count builder).steps =
      (buildSubdomain codes self p count builder).steps ∧
    received (buildSubdomain codes self p count builder).steps = [] ∧
    (codes.buildSubdomain ≠ codes.getRemoteData →
      fetchRequests codes (buildSubdomain codes self p count builder).steps = 0) ∧
    (buildSubdomain codes self p count builder).proxy.hasDomainChangedFlag = true ∧
    (buildSubdomain codes self p count builder).value = 0 := by
  have hdata : (((p.msgData.set 0 codes.buildSubdomain).set 1 builder.classTag).set 2
      count).set 3 p.tag = [codes.buildSubdomain, builder.classTag, count, p.tag] := by
    generalize p.msgData = l at hm
    match l, hm with
    | [a, b, c, d], _ => rfl
  unfold buildSubdomain
  simp only [hdata, domainChange]
  refine ⟨?_, ?_, ?_, ?_, ?_, fun hne => ?_, ?_, ?_⟩
  all_goals first | trivial | rfl | skip
  simp [fetchRequests, Step.isRequest, idAt, hne]

/-- On a freshly constructed proxy with tag `1`: the header is
`[3, 77, 2, 1]`. -/
theorem buildSubdomain_contract_witness :
    freshProxy.msgData.length = 4 ∧
    ((buildSubdomain exampleCodes 0 freshProxy 2 exampleBuilder).proxy.buildRemote = true ∧
    (buildSubdomain exampleCodes 0 freshProxy 2 exampleBuilder).proxy.gotRemoteData = false ∧
    (buildSubdomain exampleCodes 0 freshProxy 2 exampleBuilder).steps =
      [Step.sendID 0 [exampleCodes.buildSubdomain, exampleBuilder.classTag, 2, freshProxy.tag],
        Step.sendObject 0 (MovableObject.builder exampleBuilder)] ∧
    sent (buildSubdomain exampleCodes 0 freshProxy 2 exampleBuilder).steps =
      (buildSubdomain exampleCodes 0 freshProxy 2 exampleBuilder).steps ∧
    received (buildSubdomain exampleCodes 0 freshProxy 2 exampleBuilder).steps = [] ∧
    (exampleCodes.buildSubdomain ≠ exampleCodes.getRemoteData →
      fetchRequests exampleCodes
        (buildSubdomain exampleCodes 0 freshProxy 2 exampleBuilder).steps = 0) ∧
    (buildSubdomain exampleCodes 0 freshProxy 2 exampleBuilder).proxy.hasDomainChangedFlag =
      true ∧
    (buildSubdomain exampleCodes 0 freshProxy 2 exampleBuilder).value = 0) ∧
    (buildSubdomain exampleCodes 0 fetchedProxy 2 exampleBuilder).proxy.gotRemoteData = false ∧
    (buildSubdomain exampleCodes 0 freshProxy 2 exampleBuilder).steps =
      [Step.sendID 0 [3, 77, 2, 1], Step.sendObject 0 (MovableObject.builder exampleBuilder)] :=
  ⟨by decide, buildSubdomain_contract exampleCodes 0 freshProxy 2 exampleBuilder (by decide),
    by decide, by decide⟩

/-- C23: teardown.  Destroying a proxy takes exactly one step, the send of a
header whose slot 0 is the die code (the other slots are what the buffer held);
nothing else is sent and nothing is received. -/
theorem teardown (codes : ShadowActorCodes) (self : Nat) (p : ShadowSubdomain)
    (hm : p.msgData.length = 4) :
    ∃ data, (destructor codes self p).steps = [Step.sendID self data] ∧
      idAt data 0 = codes.DIE ∧
      (idAt data 1 = idAt p.msgData 1 ∧ idAt data 2 = idAt p.msgData 2 ∧
        idAt data 3 = idAt p.msgData 3 ∧ data.length = 4) ∧
      sent (destructor codes self p).steps = [Step.sendID self data] ∧
      received (destructor codes self p).steps = [] := by
  refine ⟨p.msgData.set 0 codes.DIE, rfl, (header_slot p.msgData codes.DIE hm).1, ?_, rfl, rfl⟩
  generalize p.msgData = l at hm
  match l, hm with
  | [a, b, c, d], _ => simp [idAt]

/-- Destroying the proxy that has fetched its remote data: the one message is
`[46, 6, 0, 0]`. -/
theorem teardown_witness :
    fetchedProxy.msgData.length = 4 ∧
    (∃ data, (destructor exampleCodes 0 fetchedProxy).steps = [Step.sendID 0 data] ∧
      idAt data 0 = exampleCodes.DIE ∧
      (idAt data 1 = idAt fetchedProxy.msgData 1 ∧ idAt data 2 = idAt fetchedProxy.msgData 2 ∧
        idAt data 3 = idAt fetchedProxy.msgData 3 ∧ data.length = 4) ∧
      sent (destructor exampleCodes 0 fetchedProxy).steps = [Step.sendID 0 data] ∧
      received (destructor exampleCodes 0 fetchedProxy).steps = []) ∧
    (destructor exampleCodes 0 fetchedProxy).steps = [Step.sendID 0 [46, 6, 0, 0]] :=
  ⟨by decide, teardown exampleCodes 0 fetchedProxy (by decide), by decide⟩

/-- C29: `removeElement` is not atomic on a remote miss.  For a tag in the
local element index, when the worker's reply header has `-1` in slot 0, the call
returns the null pointer and receives the reply header only (no object), yet
the tag is gone from the local index, `numElements` is one smaller and the
partition is marked changed. -/
theorem removeElement_remote_miss (codes : ShadowActorCodes) (broker : FEM_ObjectBroker)
    (self : Nat) (p : ShadowSubdomain) (tag : Int) (reply : ID) (tail : List Wire)
    (hm : p.msgData.length = 4) (hin : tag ∈ p.theElements)
    (hrep : p.incoming = Wire.id reply :: tail) (hlen : reply.length = 4)
    (hmiss : idAt reply 0 = -1) :
    ∃ c, removeElement codes broker self p tag = some c ∧ c.value = none ∧
      received c.steps = [Step.recvID self reply] ∧
      (∀ obj, Step.recvObject self obj ∉ c.steps) ∧
      c.proxy.incoming = tail ∧
      tag ∉ c.proxy.theElements ∧ getNumElements c.proxy = getNumElements p - 1 ∧
      c.proxy.numElements = p.numElements - 1 ∧ c.proxy.hasDomainChangedFlag = true := by
  obtain ⟨hloc, hgone⟩ := idRemoveValue_present p.theElements tag hin
  have hreq : ((p.msgData.set 0 codes.removeElement).set 1 tag).length = 4 := by simp [hm]
  unfold removeElement
  simp only [if_neg (not_lt.mpr hloc), recvID, domainChange, hrep, hreq, hlen, if_true, hmiss]
  refine ⟨_, rfl, rfl, rfl, ?_, rfl, hgone, rfl, rfl, rfl⟩
  intro obj hmem
  simp at hmem

/-- The proxy holding element `5`, whose worker answers `-1`: the call returns
null, and the proxy is left with an empty index and the count `0`. -/
theorem removeElement_remote_miss_witness :
    (missingElement.msgData.length = 4 ∧ (5 : Int) ∈ missingElement.theElements ∧
      missingElement.incoming = Wire.id [-1, 0, 0, 0] :: [] ∧
      ([-1, 0, 0, 0] : ID).length = 4 ∧ idAt [-1, 0, 0, 0] 0 = -1) ∧
    (∃ c, removeElement exampleCodes fullBroker 0 missingElement 5 = some c ∧ c.value = none ∧
      received c.steps = [Step.recvID 0 [-1, 0, 0, 0]] ∧
      (∀ obj, Step.recvObject 0 obj ∉ c.steps) ∧
      c.proxy.incoming = [] ∧
      (5 : Int) ∉ c.proxy.theElements ∧
      getNumElements c.proxy = getNumElements missingElement - 1 ∧
      c.proxy.numElements = missingElement.numElements - 1 ∧
      c.proxy.hasDomainChangedFlag = true) ∧
    (removeElement exampleCodes fullBroker 0 missingElement 5).map
      (fun c => (c.value, c.proxy.theElements, c.proxy.numElements,
        c.proxy.hasDomainChangedFlag, c.steps)) =
      some (none, [], 0, true, [Step.removeValue 0 Index.elements 5,
        Step.sendID 0 [14, 5, 21, 0], Step.recvID 0 [-1, 0, 0, 0]]) :=
  ⟨⟨by decide, by decide, rfl, rfl, by decide⟩,
   removeElement_remote_miss exampleCodes fullBroker 0 missingElement 5 [-1, 0, 0, 0] []
     (by decide) (by decide) rfl rfl (by decide),
   by decide⟩


/-! ## The bookkeeping counters -/

/-- Assigning at the position just past the end of an index appends the tag. -/
theorem idAssign_append (l : ID) (v : Int) : idAssign l (l.length : Int) v = some (l ++ [v]) := by
  unfold idAssign
  rw [if_neg (by omega), if_neg (by simp)]
  simp

/-- Removing a tag that occurs once shortens the index by one and keeps the
other tags distinct. -/
theorem idRemoveValue_length (l : ID) (tag : Int) (hd : l.Nodup) (h : tag ∈ l) :
    ((idRemoveValue l tag).1.length : Int) = (l.length : Int) - 1 ∧
      (idRemoveValue l tag).1.Nodup := by
  unfold idRemoveValue
  have hf : (fun t : Int => decide (t ≠ tag)) = (fun x => x != tag) := by
    funext q
    by_cases hq : q = tag <;> simp [hq]
  refine ⟨?_, hd.filter _⟩
  simp only
  rw [hf, ← hd.erase_eq_filter tag, List.length_erase_of_mem h]
  have := List.length_pos_of_mem h
  omega

/-- What `removeElement` does to the indices and counters when it returns:
nothing for a tag that is not in the element index; otherwise the tag is taken
out of the element index and `numElements` drops by one, the node index and
its counter being left alone. -/
theorem removeElement_index (codes : ShadowActorCodes) (broker : FEM_ObjectBroker)
    (self : Nat) (p : ShadowSubdomain) (tag : Int) (c : Call (Option Element))
    (h : removeElement codes broker self p tag = some c) :
    (tag ∉ p.theElements ∧ c.proxy = p) ∨
    (tag ∈ p.theElements ∧ c.proxy.theElements = (idRemoveValue p.theElements tag).1 ∧
      c.proxy.numElements = p.numElements - 1 ∧ c.proxy.theNodes = p.theNodes ∧
      c.proxy.numNodes = p.numNodes) := by
  by_cases hin : tag ∈ p.theElements
  · right
    have h1 : ¬ (idRemoveValue p.theElements tag).2 < 0 :=
      not_lt.mpr (idRemoveValue_present p.theElements tag hin).1
    unfold removeElement at h
    simp only at h
    rw [if_neg h1] at h
    split at h
    · exact absurd h (by simp)
    · rename_i p2 reply hrecv
      have hp2 := recvID_frame _ _ _ _ hrecv
      subst hp2
      by_cases h2 : idAt reply 0 = -1
      · rw [if_pos h2] at h
        cases h
        exact ⟨hin, rfl, rfl, rfl, rfl⟩
      · rw [if_neg h2] at h
        by_cases h3 : broker.getNewElement (idAt reply 0) = true
        · rw [if_pos h3] at h
          split at h
          · rename_i p4 e hobj
            have hp4 := recvObject_frame _ _ _ hobj
            subst hp4
            cases h
            exact ⟨hin, rfl, rfl, rfl, rfl⟩
          · exact absurd h (by simp)
        · rw [if_neg h3] at h
          cases h
          exact ⟨hin, rfl, rfl, rfl, rfl⟩
  · left
    unfold removeElement at h
    simp only at h
    rw [idRemoveValue_absent p.theElements tag hin, if_pos (by norm_num)] at h
    cases h
    exact ⟨hin, rfl⟩

/-- What `removeNode` does to the indices and counters when it returns. -/
theorem removeNode_index (codes : ShadowActorCodes) (broker : FEM_ObjectBroker)
    (self : Nat) (p : ShadowSubdomain) (tag : Int) (c : Call (Option Node))
    (h : removeNode codes broker self p tag = some c) :
    (tag ∉ p.theNodes ∧ c.proxy = p) ∨
    (tag ∈ p.theNodes ∧ c.proxy.theNodes = (idRemoveValue p.theNodes tag).1 ∧
      c.proxy.numNodes = p.numNodes - 1 ∧ c.proxy.theElements = p.theElements ∧
      c.proxy.numElements = p.numElements) := by
  by_cases hin : tag ∈ p.theNodes
  · right
    have h1 : ¬ (idRemoveValue p.theNodes tag).2 < 0 :=
      not_lt.mpr (idRemoveValue_present p.theNodes tag hin).1
    unfold removeNode at h
    simp only at h
    rw [if_neg h1] at h
    split at h
    · exact absurd h (by simp)
    · rename_i p2 reply hrecv
      have hp2 := recvID_frame _ _ _ _ hrecv
      subst hp2
      by_cases h2 : idAt reply 0 = -1
      · rw [if_pos h2] at h
        cases h
        exact ⟨hin, rfl, rfl, rfl, rfl⟩
      · rw [if_neg h2] at h
        by_cases h3 : broker.getNewNode (idAt reply 0) = true
        · rw [if_pos h3] at h
          split at h
          · rename_i p4 n hobj
            have hp4 := recvObject_frame _ _ _ hobj
            subst hp4
            cases h
            by_cases h4 : 0 ≤ (idRemoveValue p.theExternalNodes tag).2
            · simp only [h4, if_true]
              exact ⟨hin, rfl, rfl, rfl, rfl⟩
            · simp only [h4, if_false]
              exact ⟨hin, rfl, rfl, rfl, rfl⟩
          · exact absurd h (by simp)
        · rw [if_neg h3] at h
          cases h
          exact ⟨hin, rfl, rfl, rfl, rfl⟩
  · left
    unfold removeNode at h
    simp only at h
    rw [idRemoveValue_absent p.theNodes tag hin, if_pos (by norm_num)] at h
    cases h
    exact ⟨hin, rfl⟩

/-- A freshly constructed proxy has its counters in agreement with its (empty)
indices. -/
theorem fresh_counted (tag : Int) : Counted (ShadowSubdomain.fresh tag) :=
  ⟨rfl, rfl, List.nodup_nil, List.nodup_nil⟩

/-- One structural change that adds no tag already present keeps the counters
in agreement with the indices. -/
theorem applyMutation_counted (codes : ShadowActorCodes) (broker : FEM_ObjectBroker)
    (self : Nat) (p : ShadowSubdomain) (m : Mutation) (c : Call Unit) (hp : Counted p)
    (hno : m.readds p = false) (h : applyMutation codes broker self p m = some c) :
    Counted c.proxy := by
  cases m with
  | addNode n =>
    simp only [Mutation.readds, decide_eq_false_iff_not] at hno
    simp only [applyMutation, addNode, hp.nodes, idAssign_append, Option.map_some',
      Option.some.injEq] at h
    rw [← h]
    refine ⟨hp.elements, ?_, hp.elementsNodup, ?_⟩
    · simp [domainChange]
    · simp only [domainChange]
      exact List.Nodup.append hp.nodesNodup (List.nodup_singleton _) (by simpa using hno)
  | addExternalNode n =>
    simp only [Mutation.readds, decide_eq_false_iff_not, not_or] at hno
    simp only [applyMutation, addExternalNode, hp.nodes, idAssign_append] at h
    split at h
    · rename_i nodes ext hnodes hext
      simp only [Option.some.injEq] at hnodes
      simp only [Option.map_some', Option.some.injEq] at h
      rw [← h, ← hnodes]
      refine ⟨hp.elements, ?_, hp.elementsNodup, ?_⟩
      · simp [domainChange, hp.nodes]
      · simp only [domainChange]
        exact List.Nodup.append hp.nodesNodup (List.nodup_singleton _) (by simpa using hno.1)
    · exact absurd h (by simp)
  | addElement e =>
    simp only [Mutation.readds, decide_eq_false_iff_not] at hno
    simp only [applyMutation, addElement, hp.elements, idAssign_append, Option.map_some',
      Option.some.injEq] at h
    rw [← h]
    refine ⟨?_, hp.nodes, ?_, hp.nodesNodup⟩
    · simp [domainChange]
    · simp only [domainChange]
      exact List.Nodup.append hp.elementsNodup (List.nodup_singleton _) (by simpa using hno)
  | removeNode tag =>
    simp only [applyMutation, Option.map_eq_some'] at h
    obtain ⟨c0, h0, rfl⟩ := h
    rcases removeNode_index codes broker self p tag c0 h0 with ⟨-, hsame⟩ | ⟨hin, a, b, d, e⟩
    · simp only [hsame]
      exact hp
    · obtain ⟨hl, hn⟩ := idRemoveValue_length p.theNodes tag hp.nodesNodup hin
      refine ⟨?_, ?_, ?_, ?_⟩
      · simp only [d, e]; exact hp.elements
      · simp only [a, b, hl, hp.nodes]
      · simp only [d]; exact hp.elementsNodup
      · simp only [a]; exact hn
  | removeElement tag =>
    simp only [applyMutation, Option.map_eq_some'] at h
    obtain ⟨c0, h0, rfl⟩ := h
    rcases removeElement_index codes broker self p tag c0 h0 with ⟨-, hsame⟩ | ⟨hin, a, b, d, e⟩
    · simp only [hsame]
      exact hp
    · obtain ⟨hl, hn⟩ := idRemoveValue_length p.theElements tag hp.elementsNodup hin
      refine ⟨?_, ?_, ?_, ?_⟩
      · simp only [a, b, hl, hp.elements]
      · simp only [d, e]; exact hp.nodes
      · simp only [a]; exact hn
      · simp only [d]; exact hp.nodesNodup

/-- The adding changes always return on a proxy whose counters agree with its
indices (`addExternalNode` when `numExternalNodes` is not negative). -/
theorem applyMutation_add_returns (codes : ShadowActorCodes) (broker : FEM_ObjectBroker)
    (self : Nat) (p : ShadowSubdomain) (hp : Counted p) (e : Element) (n : Node) :
    (∃ c, applyMutation codes broker self p (Mutation.addElement e) = some c) ∧
    (∃ c, applyMutation codes broker self p (Mutation.addNode n) = some c) ∧
    (0 ≤ p.numExternalNodes →
      ∃ c, applyMutation codes broker self p (Mutation.addExternalNode n) = some c) := by
  refine ⟨?_, ?_, fun hx => ?_⟩
  · simp [applyMutation, addElement, hp.elements, idAssign_append]
  · simp [applyMutation, addNode, hp.nodes, idAssign_append]
  · obtain ⟨l1, h1, -⟩ := idAssign_of_nonneg p.theExternalNodes p.numExternalNodes n.tag hx
    simp [applyMutation, addExternalNode, hp.nodes, idAssign_append, h1]

/-- A sequence of structural changes none of which adds a tag already present
keeps the counters in agreement with the indices after every call. -/
theorem applyMutations_counted (codes : ShadowActorCodes) (broker : FEM_ObjectBroker)
    (self : Nat) : ∀ (ms : List Mutation) (p : ShadowSubdomain) (states : List ShadowSubdomain),
    Counted p → noReadd codes broker self p ms = true →
    applyMutations codes broker self p ms = some states →
    states.length = ms.length ∧ ∀ q ∈ states, Counted q := by
  intro ms
  induction ms with
  | nil =>
    intro p states _ _ h
    simp only [applyMutations, Option.some.injEq] at h
    subst h
    simp
  | cons m rest ih =>
    intro p states hp hno h
    unfold applyMutations at h
    unfold noReadd at hno
    cases hc : applyMutation codes broker self p m with
    | none => simp [hc] at h
    | some c =>
      simp only [hc, Bool.and_eq_true, Bool.not_eq_true'] at h hno
      have hc1 := applyMutation_counted codes broker self p m c hp hno.1 hc
      cases hr : applyMutations codes broker self c.proxy rest with
      | none => simp [hr] at h
      | some states1 =>
        simp only [hr, Option.some.injEq] at h
        subst h
        obtain ⟨hlen, hall⟩ := ih c.proxy states1 hc1 hno.2 hr
        refine ⟨by simp [hlen], fun q hq => ?_⟩
        rcases List.mem_cons.mp hq with rfl | hq
        · exact hc1
        · exact hall q hq

/-- C28: the bookkeeping invariant.  On a proxy whose counters agree with its
indices (a freshly constructed one does), for every sequence of `addElement`,
`addNode`, `addExternalNode`, `removeElement` and `removeNode` calls in which no
tag is added while already present in the index it is added to: after every
call `getNumElements()` is the number of tags in the local element index,
`getNumNodes()` the number of tags in the local node index, and neither count
is negative. -/
theorem bookkeeping_invariant (codes : ShadowActorCodes) (broker : FEM_ObjectBroker)
    (self : Nat) (p : ShadowSubdomain) (ms : List Mutation) (states : List ShadowSubdomain)
    (hp : Counted p) (hno : noReadd codes broker self p ms = true)
    (hrun : applyMutations codes broker self p ms = some states) :
    states.length = ms.length ∧
    ∀ q ∈ states, getNumElements q = (q.theElements.length : Int) ∧
      getNumNodes q = (q.theNodes.length : Int) ∧ 0 ≤ getNumElements q ∧ 0 ≤ getNumNodes q := by
  obtain ⟨hlen, hall⟩ := applyMutations_counted codes broker self ms p states hp hno hrun
  refine ⟨hlen, fun q hq => ?_⟩
  have hq1 := hall q hq
  refine ⟨hq1.elements, hq1.nodes, ?_, ?_⟩
  · rw [getNumElements, hq1.elements]
    exact Int.natCast_nonneg _
  · rw [getNumNodes, hq1.nodes]
    exact Int.natCast_nonneg _

/-- Seven calls on a freshly constructed proxy: two nodes and an element are
added, the element is removed (the worker answers with a miss), removed again
(unknown by then), node `7` is removed and added again.  The node counts after
the calls are 1, 2, 2, 2, 2, 1, 2 and the element counts 0, 0, 1, 0, 0, 0, 0. -/
theorem bookkeeping_invariant_witness :
    (Counted busyProxy ∧ noReadd exampleCodes fullBroker 0 busyProxy busyMutations = true ∧
      applyMutations exampleCodes fullBroker 0 busyProxy busyMutations = some busyStates) ∧
    (busyStates.length = busyMutations.length ∧
      ∀ q ∈ busyStates, getNumElements q = (q.theElements.length : Int) ∧
        getNumNodes q = (q.theNodes.length : Int) ∧ 0 ≤ getNumElements q ∧
        0 ≤ getNumNodes q) ∧
    busyStates.map (fun q => (getNumElements q, q.theElements, getNumNodes q, q.theNodes)) =
      [(0, [], 1, [7]), (0, [], 2, [7, 8]), (1, [5], 2, [7, 8]), (0, [], 2, [7, 8]),
        (0, [], 2, [7, 8]), (0, [], 1, [8]), (0, [], 2, [8, 7])] :=
  ⟨⟨⟨rfl, rfl, List.nodup_nil, List.nodup_nil⟩, by decide, by decide⟩,
   bookkeeping_invariant exampleCodes fullBroker 0 busyProxy busyMutations busyStates
     ⟨rfl, rfl, List.nodup_nil, List.nodup_nil⟩ (by decide) (by decide),
   by decide⟩

/-! ## The registry of proxies -/

/-- The process starts with nothing constructed. -/
theorem constructed_initial : Constructed World.initial [] where
  num := rfl
  registry := rfl
  cells := by intro q; simp [World.initial]
  dangling := by intro q hq; simp [World.initial] at hq
  count := rfl

/-- Destroying a proxy sends the die header and frees the cell; it changes
neither the statics nor the number of cells. -/
theorem destroy_frame (codes : ShadowActorCodes) (w w1 : World) (q : Nat)
    (h : ShadowSubdomain.destroy codes w q = some w1) :
    w1.numShadowSubdomains = w.numShadowSubdomains ∧
      w1.theShadowSubdomains = w.theShadowSubdomains ∧ w1.count = w.count ∧
      w1.proxies.length = w.proxies.length ∧ w1.freed = q :: w.freed ∧
      q < w.proxies.length ∧ q ∉ w.freed := by
  unfold ShadowSubdomain.destroy World.call World.object at h
  by_cases hf : q ∈ w.freed
  · simp [hf] at h
  · rw [if_neg hf] at h
    cases hp : w.proxies[q]? with
    | none => simp [hp] at h
    | some p =>
      simp only [hp, Option.some.injEq] at h
      have hq : q < w.proxies.length := by
        by_contra hge
        rw [List.getElem?_eq_none (Nat.le_of_not_lt hge)] at hp
        cases hp
      rw [← h]
      simp [hq, hf]

/-- An object allocated in the process: in a new cell, or in the cell of a
destroyed proxy. -/
theorem allocate_spec (w w1 : World) (this : Nat) (p : ShadowSubdomain)
    (h : w.allocate this p = some w1) :
    w1.numShadowSubdomains = w.numShadowSubdomains ∧
      w1.theShadowSubdomains = w.theShadowSubdomains ∧ w1.count = w.count ∧
      w1.trace = w.trace ∧
      ((this = w.proxies.length ∧ w1.proxies.length = w.proxies.length + 1 ∧
          w1.freed = w.freed) ∨
        (this ∈ w.freed ∧ w1.proxies.length = w.proxies.length ∧
          w1.freed = w.freed.filter (fun q => decide (q ≠ this)))) := by
  unfold World.allocate at h
  by_cases h1 : this = w.proxies.length
  · rw [if_pos h1, Option.some.injEq] at h
    rw [← h]
    simp [h1]
  · rw [if_neg h1] at h
    by_cases h2 : this ∈ w.freed
    · rw [if_pos h2, Option.some.injEq] at h
      rw [← h]
      simp [h2]
    · rw [if_neg h2] at h
      cases h

/-- The registry after a construction in the storage `this`, given what the
allocation and the constructor body did. -/
theorem constructed_extend {w w1 w2 : World} {made : List Nat} {this : Nat} {p : ShadowSubdomain}
    (h : Constructed w made) (ha : w.allocate this p = some w1)
    (h1 : w2.numShadowSubdomains = w1.numShadowSubdomains + 1)
    (h2 : w2.theShadowSubdomains =
      w1.theShadowSubdomains.take w1.numShadowSubdomains.toNat ++ [this])
    (h3 : w2.proxies = w1.proxies) (h4 : w2.freed = w1.freed) (h5 : w2.count = w1.count) :
    Constructed w2 (made ++ [this]) := by
  obtain ⟨a1, a2, a3, -, a5⟩ := allocate_spec w w1 this p ha
  have hnum := h.num
  have hreg := h.registry
  have htake : List.take made.length made = made := List.take_of_length_le (Nat.le_refl _)
  refine {
    num := by rw [h1, a1, hnum]; simp
    registry := by rw [h2, a1, a2, hnum, hreg, Int.toNat_natCast, htake]
    cells := ?_
    dangling := ?_
    count := by rw [h5, a3]; exact h.count }
  · intro q
    rw [h3, List.mem_append, List.mem_singleton, h.cells q]
    rcases a5 with ⟨b1, b2, -⟩ | ⟨b1, b2, -⟩
    · rw [b2, b1]; omega
    · rw [b2]
      have := h.dangling this b1
      constructor
      · rintro (hq | hq)
        · exact hq
        · rw [hq]; exact this
      · intro hq; exact Or.inl hq
  · intro q hq
    rw [h4] at hq
    rw [h3]
    rcases a5 with ⟨-, b2, b3⟩ | ⟨-, b2, b3⟩
    · rw [b3] at hq
      have := h.dangling q hq
      omega
    · rw [b3] at hq
      have := h.dangling q (List.mem_filter.mp hq).1
      omega

/-- One event that returns keeps the registry in step with the constructions:
a construction adds its pointer at the end, a destruction adds nothing and is
that of a proxy constructed before. -/
theorem lifecycle_constructed (codes : ShadowActorCodes) {w w1 : World} {made : List Nat}
    (ev : Lifecycle) (h : Constructed w made) (hrun : lifecycle codes w ev = some w1) :
    Constructed w1 (made ++ pointers [ev]) ∧ ∀ q ∈ destroyed [ev], q ∈ made := by
  cases ev with
  | construct tag this =>
    refine ⟨?_, by simp [destroyed]⟩
    simp only [lifecycle, ShadowSubdomain.construct] at hrun
    cases ha : w.allocate this (ShadowSubdomain.fresh tag) with
    | none => simp [ha] at hrun
    | some wa =>
      simp only [ha, Option.some.injEq] at hrun
      rw [← hrun]
      exact constructed_extend h ha rfl rfl rfl rfl rfl
  | constructOnMachine tag this =>
    refine ⟨?_, by simp [destroyed]⟩
    simp only [lifecycle, ShadowSubdomain.constructOnMachine] at hrun
    generalize hp : ({ ShadowSubdomain.fresh tag with
      msgData := ((ShadowSubdomain.fresh tag).msgData.set 0 codes.setTag).set 1 tag } :
        ShadowSubdomain) = p at hrun
    cases ha : w.allocate this p with
    | none => simp [ha] at hrun
    | some wa =>
      simp only [ha, Option.some.injEq] at hrun
      rw [← hrun]
      exact constructed_extend h ha rfl rfl rfl rfl rfl
  | destroy q0 =>
    simp only [lifecycle] at hrun
    obtain ⟨a1, a2, a3, a4, a5, a6, -⟩ := destroy_frame codes w w1 q0 hrun
    refine ⟨?_, ?_⟩
    · simp only [pointers, List.append_nil]
      exact {
        num := by rw [a1]; exact h.num
        registry := by rw [a2]; exact h.registry
        cells := by intro q; rw [a4]; exact h.cells q
        dangling := by
          intro q hq
          rw [a5, List.mem_cons] at hq
          rw [a4]
          rcases hq with hq | hq
          · rw [hq]; exact a6
          · exact h.dangling q hq
        count := by rw [a3]; exact h.count }
    · intro q hq
      simp only [destroyed, List.mem_singleton] at hq
      rw [hq]
      exact (h.cells q0).mpr a6

/-- The pointers of two sequences in a row. -/
theorem pointers_append (a b : List Lifecycle) : pointers (a ++ b) = pointers a ++ pointers b := by
  induction a with
  | nil => rfl
  | cons ev rest ih => cases ev <;> simp [pointers, ih]

/-- The destroyed proxies of two sequences in a row. -/
theorem destroyed_append (a b : List Lifecycle) :
    destroyed (a ++ b) = destroyed a ++ destroyed b := by
  induction a with
  | nil => rfl
  | cons ev rest ih => cases ev <;> simp [destroyed, ih]

/-- There is one pointer for each construction. -/
theorem pointers_length (evs : List Lifecycle) : (pointers evs).length = constructions evs := by
  induction evs with
  | nil => rfl
  | cons ev rest ih =>
    unfold constructions at ih ⊢
    cases ev <;> simp [pointers, Lifecycle.isConstruction, ih]

/-- A run that returns has returned from each of its two parts. -/
theorem lifecycles_append (codes : ShadowActorCodes) (a b : List Lifecycle) (w w2 : World)
    (h : lifecycles codes w (a ++ b) = some w2) :
    ∃ w1, lifecycles codes w a = some w1 ∧ lifecycles codes w1 b = some w2 := by
  unfold lifecycles at h ⊢
  rw [List.foldlM_append] at h
  cases h1 : List.foldlM (lifecycle codes) w a with
  | none => rw [h1] at h; cases h
  | some w1 =>
    rw [h1] at h
    exact ⟨w1, rfl, h⟩

/-- A sequence of events that returns: the registry ends up holding the
pointers of the constructions, in order, after those it held, and every
destroyed proxy is one of them. -/
theorem lifecycles_constructed (codes : ShadowActorCodes) :
    ∀ (evs : List Lifecycle) (w w1 : World) (made : List Nat), Constructed w made →
      lifecycles codes w evs = some w1 →
      Constructed w1 (made ++ pointers evs) ∧ ∀ q ∈ destroyed evs, q ∈ made ++ pointers evs := by
  intro evs
  induction evs with
  | nil =>
    intro w w1 made hw hrun
    simp only [lifecycles, List.foldlM_nil, Option.pure_def, Option.some.injEq] at hrun
    rw [← hrun]
    exact ⟨by simpa [pointers] using hw, by simp [destroyed]⟩
  | cons ev rest ih =>
    intro w w1 made hw hrun
    obtain ⟨wm, hm, hrest⟩ := lifecycles_append codes [ev] rest w w1 hrun
    have hstep : lifecycle codes w ev = some wm := by
      simpa [lifecycles] using hm
    obtain ⟨c1, d1⟩ := lifecycle_constructed codes ev hw hstep
    obtain ⟨c2, d2⟩ := ih wm w1 _ c1 hrest
    have hp : pointers (ev :: rest) = pointers [ev] ++ pointers rest :=
      pointers_append [ev] rest
    have hd : destroyed (ev :: rest) = destroyed [ev] ++ destroyed rest :=
      destroyed_append [ev] rest
    rw [hp, hd, ← List.append_assoc]
    refine ⟨c2, ?_⟩
    intro q hq
    rcases List.mem_append.mp hq with hq | hq
    · exact List.mem_append_left _ (List.mem_append_left _ (d1 q hq))
    · exact d2 q hq

/-- Events that respect the lifetime of the objects all return. -/
theorem lifecycles_returns (codes : ShadowActorCodes) :
    ∀ (evs : List Lifecycle) (w : World), wellFormed w.proxies.length w.freed evs = true →
      ∃ w1, lifecycles codes w evs = some w1 := by
  intro evs
  induction evs with
  | nil => intro w _; exact ⟨w, rfl⟩
  | cons ev rest ih =>
    intro w hwf
    have hstep : ∃ wm, lifecycle codes w ev = some wm ∧
        wellFormed wm.proxies.length wm.freed rest = true := by
      cases ev with
      | construct tag this =>
        simp only [wellFormed] at hwf
        simp only [lifecycle, ShadowSubdomain.construct, World.allocate]
        by_cases h1 : this = w.proxies.length
        · rw [if_pos h1] at hwf
          rw [if_pos h1]
          exact ⟨_, rfl, by simpa using hwf⟩
        · rw [if_neg h1, Bool.and_eq_true, decide_eq_true_eq] at hwf
          rw [if_neg h1, if_pos hwf.1]
          exact ⟨_, rfl, by simpa using hwf.2⟩
      | constructOnMachine tag this =>
        simp only [wellFormed] at hwf
        simp only [lifecycle, ShadowSubdomain.constructOnMachine, World.allocate]
        by_cases h1 : this = w.proxies.length
        · rw [if_pos h1] at hwf
          rw [if_pos h1]
          exact ⟨_, rfl, by simpa using hwf⟩
        · rw [if_neg h1, Bool.and_eq_true, decide_eq_true_eq] at hwf
          rw [if_neg h1, if_pos hwf.1]
          exact ⟨_, rfl, by simpa using hwf.2⟩
      | destroy q =>
        simp only [wellFormed, Bool.and_eq_true, decide_eq_true_eq] at hwf
        obtain ⟨⟨hq, hf⟩, hrest⟩ := hwf
        have hp : w.proxies[q]? = some (w.proxies.get ⟨q, hq⟩) := List.getElem?_eq_getElem hq
        simp only [lifecycle, ShadowSubdomain.destroy, World.call, World.object, if_neg hf, hp]
        exact ⟨_, rfl, by simpa using hrest⟩
    obtain ⟨wm, hm, hwm⟩ := hstep
    obtain ⟨w1, h1⟩ := ih wm hwm
    refine ⟨w1, ?_⟩
    unfold lifecycles at h1 ⊢
    rw [List.foldlM_cons]
    show (lifecycle codes w ev).bind (fun x => List.foldlM (lifecycle codes) x rest) = some w1
    rw [hm]
    exact h1

/-- The fan-out loop calls the member function on the fan-out targets, in
order. -/
theorem foldlM_guard {σ : Type} (f : σ → Nat → Option σ) (self : Nat) :
    ∀ (l : List Nat) (w : σ),
      l.foldlM (fun w3 theShadow => if theShadow ≠ self then f w3 theShadow else some w3) w =
        (l.filter (fun q => decide (q ≠ self))).foldlM f w := by
  intro l
  induction l with
  | nil => intro w; rfl
  | cons a rest ih =>
    intro w
    by_cases ha : a = self
    · have hd : decide (a ≠ self) = false := by simp [ha]
      rw [List.foldlM_cons, List.filter_cons, hd]
      simp only [ne_eq, ha, not_true_eq_false, if_false, Bool.false_eq_true]
      exact ih w
    · have hd : decide (a ≠ self) = true := by simp [ha]
      rw [List.foldlM_cons, List.filter_cons, hd]
      simp only [ne_eq, ha, not_false_eq_true, if_true, List.foldlM_cons]
      cases f w a with
      | none => rfl
      | some w1 => exact ih w1

/-- A loop over calls has no defined outcome when one of them has none. -/
theorem foldlM_undefined {σ : Type} (f : σ → Nat → Option σ) (P : σ → Prop) (q : Nat)
    (hkeep : ∀ w a w1, P w → f w a = some w1 → P w1) (hq : ∀ w, P w → f w q = none) :
    ∀ (l : List Nat) (w : σ), q ∈ l → P w → l.foldlM f w = none := by
  intro l
  induction l with
  | nil => intro w h; cases h
  | cons a rest ih =>
    intro w hmem hP
    rw [List.foldlM_cons]
    cases hfa : f w a with
    | none => rfl
    | some w1 =>
      show rest.foldlM f w1 = none
      rcases List.mem_cons.mp hmem with h | h
      · rw [← h, hq w hP] at hfa
        cases hfa
      · exact ih w1 h (hkeep w a w1 hP hfa)

/-- The header of `computeTang` is sent without touching the statics or the
storage. -/
theorem sendTagged_frame (w w1 : World) (self : Nat) (code : Int)
    (h : sendTagged w self code = some w1) :
    w1.freed = w.freed ∧ w1.theShadowSubdomains = w.theShadowSubdomains ∧
      w1.numShadowSubdomains = w.numShadowSubdomains := by
  unfold sendTagged at h
  cases hp : w.proxies[self]? with
  | none => simp [hp] at h
  | some p =>
    simp only [hp, Option.some.injEq] at h
    rw [← h]
    exact ⟨rfl, rfl, rfl⟩

/-- The header of `computeResidual` is sent without touching the statics or
the storage. -/
theorem sendCode_frame (w w1 : World) (self : Nat) (code : Int)
    (h : sendCode w self code = some w1) :
    w1.freed = w.freed ∧ w1.theShadowSubdomains = w.theShadowSubdomains ∧
      w1.numShadowSubdomains = w.numShadowSubdomains := by
  unfold sendCode at h
  cases hp : w.proxies[self]? with
  | none => simp [hp] at h
  | some p =>
    simp only [hp, Option.some.injEq] at h
    rw [← h]
    exact ⟨rfl, rfl, rfl⟩

/-- A coordinated member function that returns has changed neither the statics
of the registry nor the storage. -/
theorem coordinate_frame {send : World → Nat → Option World}
    (hsend : ∀ w self w1, send w self = some w1 →
      w1.freed = w.freed ∧ w1.theShadowSubdomains = w.theShadowSubdomains ∧
        w1.numShadowSubdomains = w.numShadowSubdomains) :
    ∀ (fuel : Nat) (w w1 : World) (self : Nat), coordinate send fuel w self = some w1 →
      w1.freed = w.freed ∧ w1.theShadowSubdomains = w.theShadowSubdomains ∧
        w1.numShadowSubdomains = w.numShadowSubdomains := by
  intro fuel
  induction fuel with
  | zero => intro w w1 self h; cases h
  | succ n ih =>
    intro w w1 self h
    unfold coordinate at h
    by_cases hf : self ∈ w.freed
    · rw [if_pos hf] at h; cases h
    · rw [if_neg hf] at h
      simp only at h
      split_ifs at h with c1 c2 c3
      · cases hs : send { w with count := w.count + 1, trace := w.trace ++ [Step.enter self] }
          self with
        | none => rw [hs] at h; cases h
        | some w2 =>
          rw [hs] at h
          simp only at h
          have hw2 := hsend _ _ _ hs
          have key : ∀ (l : List Nat) (wa wb : World),
              l.foldlM (fun (w3 : World) (theShadow : Nat) =>
                if theShadow ≠ self then coordinate send n w3 theShadow else some w3) wa =
                  some wb →
              wb.freed = wa.freed ∧ wb.theShadowSubdomains = wa.theShadowSubdomains ∧
                wb.numShadowSubdomains = wa.numShadowSubdomains := by
            intro l
            induction l with
            | nil =>
              intro wa wb hl
              simp only [List.foldlM_nil, Option.pure_def, Option.some.injEq] at hl
              rw [← hl]
              exact ⟨rfl, rfl, rfl⟩
            | cons a rest ihl =>
              intro wa wb hl
              rw [List.foldlM_cons] at hl
              cases hfa : (if a ≠ self then coordinate send n wa a else some wa) with
              | none => rw [hfa] at hl; cases hl
              | some wc =>
                rw [hfa] at hl
                have hwc : wc.freed = wa.freed ∧
                    wc.theShadowSubdomains = wa.theShadowSubdomains ∧
                    wc.numShadowSubdomains = wa.numShadowSubdomains := by
                  by_cases ha : a = self
                  · simp only [ne_eq, ha, not_true_eq_false, if_false,
                      Option.some.injEq] at hfa
                    rw [← hfa]
                    exact ⟨rfl, rfl, rfl⟩
                  · simp only [ne_eq, ha, not_false_eq_true, if_true] at hfa
                    exact ih wa wc a hfa
                have hwb := ihl wc wb hl
                exact ⟨hwb.1.trans hwc.1, hwb.2.1.trans hwc.2.1, hwb.2.2.trans hwc.2.2⟩
          have hk := key _ _ _ h
          exact ⟨hk.1.trans hw2.1, hk.2.1.trans hw2.2.1, hk.2.2.trans hw2.2.2⟩
      · have hx := hsend _ _ _ h
        exact hx
      · simp only [Option.some.injEq] at h
        rw [← h]
        exact ⟨rfl, rfl, rfl⟩
      · simp only [Option.some.injEq] at h
        rw [← h]
        exact ⟨rfl, rfl, rfl⟩

/-- The first call of a round, on an existing proxy: the header is sent, then
the member function is called on the fan-out targets, in order. -/
theorem coordinate_fanOut (send : World → Nat → Option World) (fuel : Nat) (w : World)
    (self : Nat) (h0 : w.count = 0) (hf : self ∉ w.freed) :
    coordinate send (fuel + 1) w self =
      (send { w with count := 1, trace := w.trace ++ [Step.enter self] } self).bind
        (fun w2 => (fanOutTargets w2 self).foldlM (fun w3 q => coordinate send fuel w3 q)
          { w2 with trace := w2.trace ++ [Step.fanOut self] }) := by
  conv_lhs => unfold coordinate
  rw [if_neg hf]
  simp only [h0, Int.zero_add, if_true]
  cases send { w with count := 1, trace := w.trace ++ [Step.enter self] } self with
  | none => rfl
  | some w2 =>
    simp only [Option.some_bind, fanOutTargets]
    exact foldlM_guard (fun w3 q => coordinate send fuel w3 q) self _ _

/-- While the registry holds a pointer to a destroyed proxy whose cell has not
been taken by another object, a round has no defined outcome: the proxy is
called through the dangling pointer. -/
theorem coordinate_dangling {send : World → Nat → Option World}
    (hsend : ∀ w self w1, send w self = some w1 →
      w1.freed = w.freed ∧ w1.theShadowSubdomains = w.theShadowSubdomains ∧
        w1.numShadowSubdomains = w.numShadowSubdomains)
    (w : World) (q : Nat) (h0 : w.count = 0) (hq : q ∈ w.freed)
    (hreg : q ∈ w.theShadowSubdomains.take w.numShadowSubdomains.toNat) (self : Nat) :
    ∀ fuel, coordinate send fuel w self = none := by
  intro fuel
  cases fuel with
  | zero => rfl
  | succ n =>
    by_cases hf : self ∈ w.freed
    · unfold coordinate
      rw [if_pos hf]
    · rw [coordinate_fanOut send n w self h0 hf]
      cases hs : send { w with count := 1, trace := w.trace ++ [Step.enter self] } self with
      | none => rfl
      | some w2 =>
        obtain ⟨a1, a2, a3⟩ := hsend _ _ _ hs
        simp only [Option.some_bind]
        have hne : q ≠ self := fun h => hf (h ▸ hq)
        refine foldlM_undefined (fun w3 q => coordinate send n w3 q) (fun w3 => q ∈ w3.freed) q
          ?_ ?_ _ _ ?_ ?_
        · intro wa a wb hP hrun
          have := (coordinate_frame hsend n wa wb a hrun).1
          show q ∈ wb.freed
          rw [this]
          exact hP
        · intro wa hP
          cases n with
          | zero => rfl
          | succ m =>
            unfold coordinate
            rw [if_pos hP]
        · unfold fanOutTargets
          rw [a2, a3]
          exact List.mem_filter.mpr ⟨hreg, by simpa using hne⟩
        · show q ∈ w2.freed
          rw [a1]
          exact hq

/-- C27: the registry invariant.  After any sequence of proxy constructions and
destructions that respects the lifetime of the objects (each construction in
storage never used before or in the storage of a destroyed proxy, each
destruction that of an existing proxy), from the start of the process: every
event returns; `numShadowSubdomains` is the number of proxies constructed so
far; the registry holds exactly the pointers of the constructions, entry `i`
being the `this` of the `(i+1)`-th construction, and the registry at any
earlier point of the sequence is a prefix of it; a destruction changes neither
`numShadowSubdomains` nor the registry.  So the pointer to every destroyed
proxy is still in the registry and is a fan-out target of every other proxy;
the first call of a round of `computeTang` or `computeResidual` sends its
header and then calls the member function on the fan-out targets, in order;
and while the cell of a destroyed proxy has not been taken by a new object, this
is a call through a dangling pointer, so that a round has no defined
outcome. -/
theorem registry_invariant (codes : ShadowActorCodes) (evs : List Lifecycle)
    (hwf : wellFormed 0 [] evs = true) :
    ∃ w, lifecycles codes World.initial evs = some w ∧
      w.numShadowSubdomains = (constructions evs : Int) ∧
      w.theShadowSubdomains = pointers evs ∧
      (pointers evs).length = constructions evs ∧
      (∀ evs1 evs2, evs = evs1 ++ evs2 →
        ∃ w1, lifecycles codes World.initial evs1 = some w1 ∧
          w1.numShadowSubdomains = (constructions evs1 : Int) ∧
          w1.theShadowSubdomains = pointers evs1 ∧
          w1.theShadowSubdomains <+: w.theShadowSubdomains) ∧
      (∀ w0 q w1, ShadowSubdomain.destroy codes w0 q = some w1 →
        w1.numShadowSubdomains = w0.numShadowSubdomains ∧
        w1.theShadowSubdomains = w0.theShadowSubdomains) ∧
      (∀ q ∈ destroyed evs, q ∈ w.theShadowSubdomains ∧
        ∀ self, self ≠ q → q ∈ fanOutTargets w self) ∧
      (∀ self fuel, self ∉ w.freed →
        computeTang codes (fuel + 1) w self =
          (sendTagged { w with count := 1, trace := w.trace ++ [Step.enter self] } self
              codes.computeTang).bind
            (fun w2 => (fanOutTargets w2 self).foldlM
              (fun w3 theShadow => computeTang codes fuel w3 theShadow)
              { w2 with trace := w2.trace ++ [Step.fanOut self] }) ∧
        computeResidual codes (fuel + 1) w self =
          (sendCode { w with count := 1, trace := w.trace ++ [Step.enter self] } self
              codes.computeResidual).bind
            (fun w2 => (fanOutTargets w2 self).foldlM
              (fun w3 theShadow => computeResidual codes fuel w3 theShadow)
              { w2 with trace := w2.trace ++ [Step.fanOut self] })) ∧
      (∀ q ∈ w.freed, ∀ self fuel,
        computeTang codes fuel w self = none ∧ computeResidual codes fuel w self = none) := by
  obtain ⟨w, hrun⟩ := lifecycles_returns codes evs World.initial hwf
  obtain ⟨hc, hd⟩ := lifecycles_constructed codes evs _ w [] constructed_initial hrun
  rw [List.nil_append] at hc
  simp only [List.nil_append] at hd
  have hreg : w.theShadowSubdomains = pointers evs := hc.registry
  have hnum : w.numShadowSubdomains = (constructions evs : Int) := by
    rw [hc.num, pointers_length]
  have htake : w.theShadowSubdomains.take w.numShadowSubdomains.toNat =
      w.theShadowSubdomains := by
    rw [hnum, hreg, Int.toNat_natCast]
    exact List.take_of_length_le (by rw [pointers_length])
  refine ⟨w, hrun, hnum, hreg, pointers_length evs, ?_, ?_, ?_, ?_, ?_⟩
  · intro evs1 evs2 hsplit
    rw [hsplit] at hrun
    obtain ⟨w1, hrun1, -⟩ := lifecycles_append codes evs1 evs2 _ w hrun
    obtain ⟨hc1, -⟩ := lifecycles_constructed codes evs1 _ w1 [] constructed_initial hrun1
    rw [List.nil_append] at hc1
    refine ⟨w1, hrun1, by rw [hc1.num, pointers_length], hc1.registry, ?_⟩
    rw [hc1.registry, hreg, hsplit, pointers_append]
    exact List.prefix_append _ _
  · intro w0 q w1 h
    have := destroy_frame codes w0 w1 q h
    exact ⟨this.1, this.2.1⟩
  · intro q hq
    have hqreg : q ∈ w.theShadowSubdomains := by
      rw [hreg]
      exact hd q hq
    refine ⟨hqreg, fun self hne => ?_⟩
    unfold fanOutTargets
    rw [htake]
    exact List.mem_filter.mpr ⟨hqreg, by simpa using Ne.symm hne⟩
  · intro self fuel hf
    constructor
    · rw [computeTang_eq_coordinate,
        coordinate_fanOut (fun w1 s => sendTagged w1 s codes.computeTang) fuel w self hc.count hf]
      congr 1
      funext w2
      congr 1
      funext w3 q
      exact (computeTang_eq_coordinate codes fuel w3 q).symm
    · rw [computeResidual_eq_coordinate,
        coordinate_fanOut (fun w1 s => sendCode w1 s codes.computeResidual) fuel w self
          hc.count hf]
      congr 1
      funext w2
      congr 1
      funext w3 q
      exact (computeResidual_eq_coordinate codes fuel w3 q).symm
  · intro q hq self fuel
    have hqreg : q ∈ w.theShadowSubdomains.take w.numShadowSubdomains.toNat := by
      rw [htake, hreg]
      have := hc.dangling q hq
      exact (hc.cells q).mpr this
    constructor
    · rw [computeTang_eq_coordinate]
      exact coordinate_dangling (fun wa s wb h => sendTagged_frame wa wb s codes.computeTang h)
        w q hc.count hq hqreg self fuel
    · rw [computeResidual_eq_coordinate]
      exact coordinate_dangling (fun wa s wb h => sendCode_frame wa wb s codes.computeResidual h)
        w q hc.count hq hqreg self fuel

/-- Three proxies are constructed, the first one is destroyed, a fourth one is
constructed in its storage and the second one is destroyed: the registry is
`[0, 1, 2, 0]`, its entries `0` and `3` being the same pointer, the pointer `1`
dangles, the fan-out targets of proxy `2` are `[0, 1, 0]`, and a `computeTang`
call on proxy `2` has no defined outcome. -/
theorem registry_invariant_witness :
    wellFormed 0 [] exampleLife = true ∧
    (∃ w, lifecycles exampleCodes World.initial exampleLife = some w ∧
      w.numShadowSubdomains = (constructions exampleLife : Int) ∧
      w.theShadowSubdomains = pointers exampleLife ∧
      (pointers exampleLife).length = constructions exampleLife ∧
      (∀ evs1 evs2, exampleLife = evs1 ++ evs2 →
        ∃ w1, lifecycles exampleCodes World.initial evs1 = some w1 ∧
          w1.numShadowSubdomains = (constructions evs1 : Int) ∧
          w1.theShadowSubdomains = pointers evs1 ∧
          w1.theShadowSubdomains <+: w.theShadowSubdomains) ∧
      (∀ w0 q w1, ShadowSubdomain.destroy exampleCodes w0 q = some w1 →
        w1.numShadowSubdomains = w0.numShadowSubdomains ∧
        w1.theShadowSubdomains = w0.theShadowSubdomains) ∧
      (∀ q ∈ destroyed exampleLife, q ∈ w.theShadowSubdomains ∧
        ∀ self, self ≠ q → q ∈ fanOutTargets w self) ∧
      (∀ self fuel, self ∉ w.freed →
        computeTang exampleCodes (fuel + 1) w self =
          (sendTagged { w with count := 1, trace := w.trace ++ [Step.enter self] } self
              exampleCodes.computeTang).bind
            (fun w2 => (fanOutTargets w2 self).foldlM
              (fun w3 theShadow => computeTang exampleCodes fuel w3 theShadow)
              { w2 with trace := w2.trace ++ [Step.fanOut self] }) ∧
        computeResidual exampleCodes (fuel + 1) w self =
          (sendCode { w with count := 1, trace := w.trace ++ [Step.enter self] } self
              exampleCodes.computeResidual).bind
            (fun w2 => (fanOutTargets w2 self).foldlM
              (fun w3 theShadow => computeResidual exampleCodes fuel w3 theShadow)
              { w2 with trace := w2.trace ++ [Step.fanOut self] })) ∧
      (∀ q ∈ w.freed, ∀ self fuel,
        computeTang exampleCodes fuel w self = none ∧
          computeResidual exampleCodes fuel w self = none)) ∧
    lifecycles exampleCodes World.initial exampleLife = some lifeWorld ∧
    (lifeWorld.numShadowSubdomains, lifeWorld.theShadowSubdomains, lifeWorld.freed,
        lifeWorld.trace) =
      (4, [0, 1, 2, 0], [1],
        [Step.sendID 1 [1, 2, 0, 0], Step.sendID 0 [46, 0, 0, 0],
          Step.sendID 1 [46, 2, 0, 0]]) ∧
    destroyed exampleLife = [0, 1] ∧
    fanOutTargets lifeWorld 2 = [0, 1, 0] ∧
    computeTang exampleCodes 4 lifeWorld 2 = none :=
  ⟨by decide, registry_invariant exampleCodes exampleLife (by decide), by decide, by decide,
    by decide, by decide, by decide⟩


/-! ## The operation code in slot 0 of every header -/

/-- No step, no header. -/
theorem headersCarry_nil (code : Option Int) : HeadersCarry code [] := by
  intro s hs
  simp at hs

/-- Headers of consecutive step lists. -/
theorem headersCarry_append {code : Option Int} {a b : List Step} (ha : HeadersCarry code a)
    (hb : HeadersCarry code b) : HeadersCarry code (a ++ b) := by
  intro s hs c hc
  rcases List.mem_append.mp hs with h | h
  · exact ha s h c hc
  · exact hb s h c hc

/-- A 4-slot buffer written out. -/
theorem four_slots (l : ID) (h : l.length = 4) : ∃ a b c d, l = [a, b, c, d] := by
  match l, h with
  | [a, b, c, d], _ => exact ⟨a, b, c, d, rfl⟩

/-- Receiving an `ID` only consumes the head of the incoming messages, and the
`ID` has the size asked for. -/
theorem recvID_spec (p q : ShadowSubdomain) (n : Nat) (data : ID)
    (h : recvID p n = some (q, data)) :
    q = { p with incoming := p.incoming.tail } ∧ data.length = n := by
  refine ⟨recvID_frame p q n data h, ?_⟩
  unfold recvID at h
  cases hinc : p.incoming with
  | nil => simp [hinc] at h
  | cons w rest =>
    cases w with
    | id d =>
      simp only [hinc] at h
      split_ifs at h with hlen
      simp only [Option.some.injEq, Prod.mk.injEq] at h
      rw [← h.2]
      exact hlen
    | object o => simp [hinc] at h
    | vector => simp [hinc] at h
    | matrix => simp [hinc] at h

/-- `getRemoteData`, when it returns, has sent at most one header, carrying
its own code, and leaves a 4-slot header buffer. -/
theorem getRemoteData_headers (codes : ShadowActorCodes) (self : Nat) (p : ShadowSubdomain)
    (c : Call Int) (hm : p.msgData.length = 4) (h : getRemoteData codes self p = some c) :
    c.proxy.msgData.length = 4 ∧ HeadersCarry (some codes.getRemoteData) c.steps := by
  have hreq := header_slot p.msgData codes.getRemoteData hm
  have hsend : ∀ (l : List Step), (∀ s ∈ l, s.opcode = none) →
      HeadersCarry (some codes.getRemoteData)
        (Step.sendID self (p.msgData.set 0 codes.getRemoteData) :: l) := by
    intro l hl s hs c1 hc1
    rcases List.mem_cons.mp hs with rfl | hs
    · simp only [Step.opcode, Option.some.injEq] at hc1
      rw [← hc1, hreq.1]
    · rw [hl s hs] at hc1
      exact absurd hc1 (by simp)
  unfold getRemoteData at h
  split_ifs at h with hcond
  · simp only at h
    split at h
    · exact absurd h (by simp)
    · rename_i p2 reply hrecv
      obtain ⟨hp2, hlen⟩ := recvID_spec _ _ _ _ hrecv
      rw [hreq.2] at hlen
      subst hp2
      split at h
      · exact absurd h (by simp)
      · rename_i ext hext
        split_ifs at h with h1 h2
        · simp only [Option.some.injEq] at h
          rw [← h]
          exact ⟨hlen, hsend _ (by simp [Step.opcode])⟩
        · split at h
          · exact absurd h (by simp)
          · rename_i p5 tags hrecv2
            obtain ⟨hp5, -⟩ := recvID_spec _ _ _ _ hrecv2
            subst hp5
            simp only [Option.some.injEq] at h
            rw [← h]
            exact ⟨hlen, hsend _ (by simp [Step.opcode])⟩
        · simp only [Option.some.injEq] at h
          rw [← h]
          exact ⟨hlen, hsend _ (by simp [Step.opcode])⟩
  · simp only [Option.some.injEq] at h
    rw [← h]
    exact ⟨hm, headersCarry_nil _⟩

/-- The nested call of `getRemoteData`, when it returns. -/
theorem fetchIfNeeded_headers (codes : ShadowActorCodes) (self : Nat) (p : ShadowSubdomain)
    (f : Call Unit) (hm : p.msgData.length = 4) (h : fetchIfNeeded codes self p = some f) :
    f.proxy.msgData.length = 4 ∧ HeadersCarry (some codes.getRemoteData) f.steps := by
  unfold fetchIfNeeded at h
  split_ifs at h
  · cases hg : getRemoteData codes self p with
    | none => simp [hg] at h
    | some c =>
      simp only [hg, Option.some.injEq] at h
      rw [← h]
      exact getRemoteData_headers codes self p c hm hg
  · simp only [Option.some.injEq] at h
    rw [← h]
    exact ⟨hm, headersCarry_nil _⟩

/-- `removeElement`, when it returns, has sent at most one header, carrying its
own code, and leaves a 4-slot header buffer. -/
theorem removeElement_headers (codes : ShadowActorCodes) (broker : FEM_ObjectBroker)
    (self : Nat) (p : ShadowSubdomain) (tag : Int) (c : Call (Option Element))
    (hm : p.msgData.length = 4) (h : removeElement codes broker self p tag = some c) :
    c.proxy.msgData.length = 4 ∧ HeadersCarry (some codes.removeElement) c.steps := by
  obtain ⟨hs0, -, hs4⟩ := request_slots p.msgData codes.removeElement tag hm
  unfold removeElement at h
  simp only at h
  split_ifs at h with h1
  · cases h
    exact ⟨hm, headersCarry_nil _⟩
  · split at h
    · exact absurd h (by simp)
    · rename_i p2 reply hrecv
      obtain ⟨hp2, hlen⟩ := recvID_spec _ _ _ _ hrecv
      rw [hs4] at hlen
      subst hp2
      split_ifs at h with h2 h3
      · cases h
        exact ⟨hlen, by simp [HeadersCarry, Step.opcode, hs0]⟩
      · split at h
        · rename_i p4 e hobj
          have hp4 := recvObject_frame _ _ _ hobj
          subst hp4
          cases h
          exact ⟨hlen, by simp [HeadersCarry, Step.opcode, hs0]⟩
        · exact absurd h (by simp)
      · cases h
        exact ⟨hlen, by simp [HeadersCarry, Step.opcode, hs0]⟩

/-- `removeNode`, when it returns, has sent at most one header, carrying its
own code, and leaves a 4-slot header buffer. -/
theorem removeNode_headers (codes : ShadowActorCodes) (broker : FEM_ObjectBroker)
    (self : Nat) (p : ShadowSubdomain) (tag : Int) (c : Call (Option Node))
    (hm : p.msgData.length = 4) (h : removeNode codes broker self p tag = some c) :
    c.proxy.msgData.length = 4 ∧ HeadersCarry (some codes.removeNode) c.steps := by
  obtain ⟨hs0, -, hs4⟩ := request_slots p.msgData codes.removeNode tag hm
  unfold removeNode at h
  simp only at h
  by_cases h1 : (idRemoveValue p.theNodes tag).2 < 0
  · rw [if_pos h1] at h
    cases h
    exact ⟨hm, headersCarry_nil _⟩
  · rw [if_neg h1] at h
    split at h
    · exact absurd h (by simp)
    · rename_i p2 reply hrecv
      obtain ⟨hp2, hlen⟩ := recvID_spec _ _ _ _ hrecv
      rw [hs4] at hlen
      subst hp2
      by_cases h2 : idAt reply 0 = -1
      · rw [if_pos h2] at h
        cases h
        refine ⟨hlen, ?_⟩
        by_cases h4 : 0 ≤ (idRemoveValue p.theExternalNodes tag).2 <;>
          simp [HeadersCarry, Step.opcode, hs0, h4]
      · rw [if_neg h2] at h
        by_cases h3 : broker.getNewNode (idAt reply 0) = true
        · rw [if_pos h3] at h
          split at h
          · rename_i p4 n hobj
            have hp4 := recvObject_frame _ _ _ hobj
            subst hp4
            cases h
            by_cases h4 : 0 ≤ (idRemoveValue p.theExternalNodes tag).2
            · simp only [h4, if_true]
              exact ⟨hlen, by simp [HeadersCarry, Step.opcode, hs0]⟩
            · simp only [h4, if_false]
              exact ⟨hlen, by simp [HeadersCarry, Step.opcode, hs0]⟩
          · exact absurd h (by simp)
        · rw [if_neg h3] at h
          cases h
          refine ⟨hlen, ?_⟩
          by_cases h4 : 0 ≤ (idRemoveValue p.theExternalNodes tag).2 <;>
            simp [HeadersCarry, Step.opcode, hs0, h4]

/-- `getElementPtr`, when it returns, has sent at most one header, carrying
its own code, and leaves a 4-slot header buffer. -/
theorem getElementPtr_headers (codes : ShadowActorCodes) (broker : FEM_ObjectBroker)
    (self : Nat) (p : ShadowSubdomain) (tag : Int) (c : Call (Option Element))
    (hm : p.msgData.length = 4) (h : getElementPtr codes broker self p tag = some c) :
    c.proxy.msgData.length = 4 ∧ HeadersCarry (some codes.getElementPtr) c.steps := by
  obtain ⟨hs0, -, hs4⟩ := request_slots p.msgData codes.getElementPtr tag hm
  unfold getElementPtr at h
  simp only at h
  split_ifs at h with h1
  · cases h
    exact ⟨hm, headersCarry_nil _⟩
  · split at h
    · exact absurd h (by simp)
    · rename_i p2 reply hrecv
      obtain ⟨hp2, hlen⟩ := recvID_spec _ _ _ _ hrecv
      rw [hs4] at hlen
      subst hp2
      split_ifs at h with h3
      · split at h
        · rename_i p4 e hobj
          have hp4 := recvObject_frame _ _ _ hobj
          subst hp4
          cases h
          exact ⟨hlen, by simp [HeadersCarry, Step.opcode, hs0]⟩
        · exact absurd h (by simp)
      · cases h
        exact ⟨hlen, by simp [HeadersCarry, Step.opcode, hs0]⟩

/-- `getNodePtr`, when it returns, has sent at most one header, carrying its
own code, and leaves a 4-slot header buffer. -/
theorem getNodePtr_headers (codes : ShadowActorCodes) (broker : FEM_ObjectBroker)
    (self : Nat) (p : ShadowSubdomain) (tag : Int) (c : Call (Option Node))
    (hm : p.msgData.length = 4) (h : getNodePtr codes broker self p tag = some c) :
    c.proxy.msgData.length = 4 ∧ HeadersCarry (some codes.getNodePtr) c.steps := by
  obtain ⟨hs0, -, hs4⟩ := request_slots p.msgData codes.getNodePtr tag hm
  unfold getNodePtr at h
  simp only at h
  split_ifs at h with h1
  · cases h
    exact ⟨hm, headersCarry_nil _⟩
  · split at h
    · exact absurd h (by simp)
    · rename_i p2 reply hrecv
      obtain ⟨hp2, hlen⟩ := recvID_spec _ _ _ _ hrecv
      rw [hs4] at hlen
      subst hp2
      split_ifs at h with h3
      · split at h
        · rename_i p4 e hobj
          have hp4 := recvObject_frame _ _ _ hobj
          subst hp4
          cases h
          exact ⟨hlen, by simp [HeadersCarry, Step.opcode, hs0]⟩
        · exact absurd h (by simp)
      · cases h
        exact ⟨hlen, by simp [HeadersCarry, Step.opcode, hs0]⟩

/-- `Print`, when it returns, has sent one header, carrying its own code, and
leaves a 4-slot header buffer: the reply received into it. -/
theorem Print_headers (codes : ShadowActorCodes) (self : Nat) (p : ShadowSubdomain)
    (c : Call Unit) (hm : p.msgData.length = 4) (h : Print codes self p = some c) :
    c.proxy.msgData.length = 4 ∧ HeadersCarry (some codes.Print) c.steps := by
  obtain ⟨hs0, hs4⟩ := header_slot p.msgData codes.Print hm
  unfold Print at h
  simp only at h
  split at h
  · exact absurd h (by simp)
  · rename_i p2 reply hrecv
    obtain ⟨hp2, hlen⟩ := recvID_spec _ _ _ _ hrecv
    rw [hs4] at hlen
    subst hp2
    cases h
    exact ⟨hlen, by simp [HeadersCarry, Step.opcode, hs0]⟩

/-- Receiving a matrix only consumes the head of the incoming messages. -/
theorem recvMatrix_frame (p q : ShadowSubdomain) (h : recvMatrix p = some q) :
    q = { p with incoming := p.incoming.tail } := by
  unfold recvMatrix at h
  cases hinc : p.incoming with
  | nil => simp [hinc] at h
  | cons w rest =>
    cases w with
    | matrix =>
      simp only [hinc, Option.some.injEq] at h
      rw [← h]
      rfl
    | id d => simp [hinc] at h
    | object o => simp [hinc] at h
    | vector => simp [hinc] at h

/-- Receiving a vector only consumes the head of the incoming messages. -/
theorem recvVector_frame (p q : ShadowSubdomain) (h : recvVector p = some q) :
    q = { p with incoming := p.incoming.tail } := by
  unfold recvVector at h
  cases hinc : p.incoming with
  | nil => simp [hinc] at h
  | cons w rest =>
    cases w with
    | vector =>
      simp only [hinc, Option.some.injEq] at h
      rw [← h]
      rfl
    | id d => simp [hinc] at h
    | object o => simp [hinc] at h
    | matrix => simp [hinc] at h

/-- `getTang`, when it returns: its steps are those of the nested call of
`getRemoteData` followed by its own, among which the one header carries the
code of `getTang`. -/
theorem getTang_headers (codes : ShadowActorCodes) (self : Nat) (p : ShadowSubdomain)
    (c : Call Int) (hm : p.msgData.length = 4) (h : getTang codes self p = some c) :
    ∃ f own, fetchIfNeeded codes self p = some f ∧ c.steps = f.steps ++ own ∧
      HeadersCarry (some codes.getTang) own ∧ c.proxy.msgData.length = 4 := by
  unfold getTang at h
  cases hf : fetchIfNeeded codes self p with
  | none => simp [hf] at h
  | some f =>
    obtain ⟨hfm, -⟩ := fetchIfNeeded_headers codes self p f hm hf
    obtain ⟨hs0, hs4⟩ := header_slot f.proxy.msgData codes.getTang hfm
    simp only [hf] at h
    split at h
    · exact absurd h (by simp)
    · rename_i p2 hrecv
      have hp2 := recvMatrix_frame _ _ hrecv
      subst hp2
      cases h
      exact ⟨f, _, rfl, rfl, by simp [HeadersCarry, Step.opcode, hs0], hs4⟩

/-- `getResistingForce`, when it returns: as `getTang`. -/
theorem getResistingForce_headers (codes : ShadowActorCodes) (self : Nat)
    (p : ShadowSubdomain) (c : Call Int) (hm : p.msgData.length = 4)
    (h : getResistingForce codes self p = some c) :
    ∃ f own, fetchIfNeeded codes self p = some f ∧ c.steps = f.steps ++ own ∧
      HeadersCarry (some codes.getResistingForce) own ∧ c.proxy.msgData.length = 4 := by
  unfold getResistingForce at h
  cases hf : fetchIfNeeded codes self p with
  | none => simp [hf] at h
  | some f =>
    obtain ⟨hfm, -⟩ := fetchIfNeeded_headers codes self p f hm hf
    obtain ⟨hs0, hs4⟩ := header_slot f.proxy.msgData codes.getResistingForce hfm
    simp only [hf] at h
    split at h
    · exact absurd h (by simp)
    · rename_i p2 hrecv
      have hp2 := recvVector_frame _ _ hrecv
      subst hp2
      cases h
      exact ⟨f, _, rfl, rfl, by simp [HeadersCarry, Step.opcode, hs0], hs4⟩

/-- One member function called on a proxy with its 4-slot header buffer, when
the call returns: the buffer still has four slots; the steps are those of the
nested call of `getRemoteData` (if the member function makes one) followed by
the member function's own; the headers of the nested call carry the
get-remote-data code and the own headers the code of the member function. -/
theorem perform_headers (codes : ShadowActorCodes) (broker : FEM_ObjectBroker) (self : Nat)
    (p : ShadowSubdomain) (op : Operation) (c : Call Unit) (hm : p.msgData.length = 4)
    (h : perform codes broker self p op = some c) :
    c.proxy.msgData.length = 4 ∧
      HeadersCarry (some codes.getRemoteData) (fetchSteps codes self p op) ∧
      ∃ own, c.steps = fetchSteps codes self p op ++ own ∧ HeadersCarry (op.code codes) own := by
  obtain ⟨x0, x1, x2, x3, hl⟩ := four_slots p.msgData hm
  cases op with
  | getRemoteData =>
    simp only [perform, Option.map_eq_some'] at h
    obtain ⟨c0, h0, rfl⟩ := h
    obtain ⟨a, b⟩ := getRemoteData_headers codes self p c0 hm h0
    exact ⟨a, by simp [fetchSteps, Operation.fetches, HeadersCarry], c0.steps,
      by simp [fetchSteps, Operation.fetches, Call.forget], b⟩
  | getExternalNodes =>
    simp only [perform, Option.map_eq_some'] at h
    obtain ⟨c0, h0, rfl⟩ := h
    unfold getExternalNodes at h0
    cases hf : fetchIfNeeded codes self p with
    | none => simp [hf] at h0
    | some f =>
      obtain ⟨a, b⟩ := fetchIfNeeded_headers codes self p f hm hf
      simp only [hf, Option.some.injEq] at h0
      rw [← h0]
      refine ⟨a, ?_, [], ?_, headersCarry_nil _⟩
      · simpa [fetchSteps, Operation.fetches, hf] using b
      · simp [fetchSteps, Operation.fetches, hf, Call.forget]
  | getNumDOF =>
    simp only [perform, Option.map_eq_some'] at h
    obtain ⟨c0, h0, rfl⟩ := h
    unfold getNumDOF at h0
    cases hf : fetchIfNeeded codes self p with
    | none => simp [hf] at h0
    | some f =>
      obtain ⟨a, b⟩ := fetchIfNeeded_headers codes self p f hm hf
      simp only [hf, Option.some.injEq] at h0
      rw [← h0]
      refine ⟨a, ?_, [], ?_, headersCarry_nil _⟩
      · simpa [fetchSteps, Operation.fetches, hf] using b
      · simp [fetchSteps, Operation.fetches, hf, Call.forget]
  | getTang =>
    simp only [perform, Option.map_eq_some'] at h
    obtain ⟨c0, h0, rfl⟩ := h
    obtain ⟨f, own, hf, hsteps, hown, hlen⟩ := getTang_headers codes self p c0 hm h0
    obtain ⟨-, b⟩ := fetchIfNeeded_headers codes self p f hm hf
    refine ⟨hlen, ?_, own, ?_, hown⟩
    · simpa [fetchSteps, Operation.fetches, hf] using b
    · simp [fetchSteps, Operation.fetches, hf, Call.forget, hsteps]
  | getResistingForce =>
    simp only [perform, Option.map_eq_some'] at h
    obtain ⟨c0, h0, rfl⟩ := h
    obtain ⟨f, own, hf, hsteps, hown, hlen⟩ := getResistingForce_headers codes self p c0 hm h0
    obtain ⟨-, b⟩ := fetchIfNeeded_headers codes self p f hm hf
    refine ⟨hlen, ?_, own, ?_, hown⟩
    · simpa [fetchSteps, Operation.fetches, hf] using b
    · simp [fetchSteps, Operation.fetches, hf, Call.forget, hsteps]
  | removeElement tag =>
    simp only [perform, Option.map_eq_some'] at h
    obtain ⟨c0, h0, rfl⟩ := h
    obtain ⟨a, b⟩ := removeElement_headers codes broker self p tag c0 hm h0
    exact ⟨a, by simp [fetchSteps, Operation.fetches, HeadersCarry], c0.steps,
      by simp [fetchSteps, Operation.fetches, Call.forget], b⟩
  | removeNode tag =>
    simp only [perform, Option.map_eq_some'] at h
    obtain ⟨c0, h0, rfl⟩ := h
    obtain ⟨a, b⟩ := removeNode_headers codes broker self p tag c0 hm h0
    exact ⟨a, by simp [fetchSteps, Operation.fetches, HeadersCarry], c0.steps,
      by simp [fetchSteps, Operation.fetches, Call.forget], b⟩
  | getElementPtr tag =>
    simp only [perform, Option.map_eq_some'] at h
    obtain ⟨c0, h0, rfl⟩ := h
    obtain ⟨a, b⟩ := getElementPtr_headers codes broker self p tag c0 hm h0
    exact ⟨a, by simp [fetchSteps, Operation.fetches, HeadersCarry], c0.steps,
      by simp [fetchSteps, Operation.fetches, Call.forget], b⟩
  | getNodePtr tag =>
    simp only [perform, Option.map_eq_some'] at h
    obtain ⟨c0, h0, rfl⟩ := h
    obtain ⟨a, b⟩ := getNodePtr_headers codes broker self p tag c0 hm h0
    exact ⟨a, by simp [fetchSteps, Operation.fetches, HeadersCarry], c0.steps,
      by simp [fetchSteps, Operation.fetches, Call.forget], b⟩
  | Print =>
    simp only [perform] at h
    obtain ⟨a, b⟩ := Print_headers codes self p c hm h
    exact ⟨a, by simp [fetchSteps, Operation.fetches, HeadersCarry], c.steps,
      by simp [fetchSteps, Operation.fetches], b⟩
  | addElement e =>
    simp only [perform, Option.map_eq_some'] at h
    obtain ⟨c0, h0, rfl⟩ := h
    unfold addElement at h0
    split at h0
    · exact absurd h0 (by simp)
    · simp only [Option.some.injEq] at h0
      have hprox : c0.proxy.msgData.length = 4 := by
        rw [← h0]
        simp [domainChange, addHeader, hl]
      have hst : HeadersCarry (some codes.addElement) c0.steps := by
        rw [← h0]
        simp [HeadersCarry, Step.opcode, addHeader, hl, idAt]
      exact ⟨hprox, by simp [fetchSteps, Operation.fetches, HeadersCarry], c0.steps,
        by simp [fetchSteps, Operation.fetches, Call.forget], hst⟩
  | addNode n =>
    simp only [perform, Option.map_eq_some'] at h
    obtain ⟨c0, h0, rfl⟩ := h
    unfold addNode at h0
    split at h0
    · exact absurd h0 (by simp)
    · simp only [Option.some.injEq] at h0
      have hprox : c0.proxy.msgData.length = 4 := by
        rw [← h0]
        simp [domainChange, addHeader, hl]
      have hst : HeadersCarry (some codes.addNode) c0.steps := by
        rw [← h0]
        simp [HeadersCarry, Step.opcode, addHeader, hl, idAt]
      exact ⟨hprox, by simp [fetchSteps, Operation.fetches, HeadersCarry], c0.steps,
        by simp [fetchSteps, Operation.fetches, Call.forget], hst⟩
  | addExternalNode n =>
    simp only [perform, Option.map_eq_some'] at h
    obtain ⟨c0, h0, rfl⟩ := h
    unfold addExternalNode at h0
    split at h0
    · simp only [Option.some.injEq] at h0
      have hprox : c0.proxy.msgData.length = 4 := by
        rw [← h0]
        simp [domainChange, addHeader, hl]
      have hst : HeadersCarry (some codes.addExternalNode) c0.steps := by
        rw [← h0]
        simp [HeadersCarry, Step.opcode, addHeader, hl, idAt]
      exact ⟨hprox, by simp [fetchSteps, Operation.fetches, HeadersCarry], c0.steps,
        by simp [fetchSteps, Operation.fetches, Call.forget], hst⟩
    · exact absurd h0 (by simp)
  | computeNodalResponse theFePtr =>
    simp only [perform, Option.some.injEq] at h
    refine ⟨?_, by simp [fetchSteps, Operation.fetches, HeadersCarry], c.steps,
      by simp [fetchSteps, Operation.fetches], ?_⟩
    · rw [← h]
      cases theFePtr <;> simp only [computeNodalResponse, Call.forget] <;> split_ifs <;>
        simp [hl]
    · rw [← h]
      cases theFePtr <;> simp only [computeNodalResponse, Call.forget] <;> split_ifs <;>
        simp [HeadersCarry, Step.opcode, hl, idAt, Operation.code]
  | _ =>
    simp only [perform, Option.some.injEq] at h
    refine ⟨?_, by simp [fetchSteps, Operation.fetches, HeadersCarry], c.steps,
      by simp [fetchSteps, Operation.fetches], ?_⟩
    · rw [← h]
      simp only [buildSubdomain, addSP_Constraint, addMP_Constraint, addLoadPattern,
        addSP_ConstraintToPattern, addNodalLoad, addElementalLoad, removeSP_Constraint,
        removeMP_Constraint, removeLoadPattern, removeNodalLoad, removeElementalLoad,
        removeSP_ConstraintFromPattern, applyLoad, setCommitTag, setCurrentTime,
        setCommittedTime, setLoadConstant, update, ShadowSubdomain.commit, revertToLastCommit,
        revertToStart, setDomainDecompAnalysis, setAnalysisAlgorithm, setAnalysisIntegrator,
        setAnalysisLinearSOE, invokeChangeOnAnalysis, clearAnalysis, ShadowSubdomain.newStep,
        Call.forget, baseRemoveSP, baseRemoveMP, baseRemoveLoadPattern, baseAddSP, baseAddMP,
        baseAddLoadPattern, baseSetDomainDecompAnalysis, domainChange, addHeader, patternHeader,
        removalHeader]
      first
        | (split_ifs <;> simp [hl])
        | simp [hl]
    · rw [← h]
      simp only [buildSubdomain, addSP_Constraint, addMP_Constraint, addLoadPattern,
        addSP_ConstraintToPattern, addNodalLoad, addElementalLoad, removeSP_Constraint,
        removeMP_Constraint, removeLoadPattern, removeNodalLoad, removeElementalLoad,
        removeSP_ConstraintFromPattern, applyLoad, setCommitTag, setCurrentTime,
        setCommittedTime, setLoadConstant, update, ShadowSubdomain.commit, revertToLastCommit,
        revertToStart, setDomainDecompAnalysis, setAnalysisAlgorithm, setAnalysisIntegrator,
        setAnalysisLinearSOE, invokeChangeOnAnalysis, clearAnalysis, ShadowSubdomain.newStep,
        Call.forget, baseRemoveSP, baseRemoveMP, baseRemoveLoadPattern, baseAddSP, baseAddMP,
        baseAddLoadPattern, baseSetDomainDecompAnalysis, domainChange, addHeader, patternHeader,
        removalHeader]
      first
        | (split_ifs <;> simp [HeadersCarry, Step.opcode, hl, idAt, Operation.code])
        | simp [HeadersCarry, Step.opcode, hl, idAt, Operation.code]


/-- The tagged header of `computeTang`, sent from any state in which every
proxy has its 4-slot buffer. -/
theorem sendTagged_headers (code : Int) (w : World) (self : Nat) (w1 : World)
    (hw : HeaderBuffers w) (h : sendTagged w self code = some w1) :
    ∃ data, w1.trace = w.trace ++ [Step.sendID self data] ∧ idAt data 0 = code ∧
      HeaderBuffers w1 := by
  unfold sendTagged at h
  cases hp : w.proxies[self]? with
  | none => simp [hp] at h
  | some p =>
    have hlen : p.msgData.length = 4 := hw p (List.getElem?_mem hp)
    simp only [hp, Option.some.injEq] at h
    rw [← h]
    refine ⟨_, rfl, idAt_set_zero_one _ _ _ hlen, ?_⟩
    intro q hq
    rcases List.mem_or_eq_of_mem_set hq with hq | hq
    · exact hw q hq
    · rw [hq]
      simp [hlen]

/-- The one-slot header of `computeResidual`, sent from any state in which
every proxy has its 4-slot buffer. -/
theorem sendCode_headers (code : Int) (w : World) (self : Nat) (w1 : World)
    (hw : HeaderBuffers w) (h : sendCode w self code = some w1) :
    ∃ data, w1.trace = w.trace ++ [Step.sendID self data] ∧ idAt data 0 = code ∧
      HeaderBuffers w1 := by
  unfold sendCode at h
  cases hp : w.proxies[self]? with
  | none => simp [hp] at h
  | some p =>
    have hlen : p.msgData.length = 4 := hw p (List.getElem?_mem hp)
    simp only [hp, Option.some.injEq] at h
    rw [← h]
    refine ⟨_, rfl, idAt_set_zero _ _ hlen, ?_⟩
    intro q hq
    rcases List.mem_or_eq_of_mem_set hq with hq | hq
    · exact hw q hq
    · rw [hq]
      simp [hlen]

/-- The coordinated member functions, from any state and with any nesting:
when the call returns, every header sent during it, by the called proxy or by
a proxy of the fan-out, carries the code. -/
theorem coordinate_headers {send : World → Nat → Option World} {code : Int}
    (hsend : ∀ (w : World) (self : Nat) (w1 : World), HeaderBuffers w →
      send w self = some w1 →
      ∃ data, w1.trace = w.trace ++ [Step.sendID self data] ∧ idAt data 0 = code ∧
        HeaderBuffers w1) :
    ∀ (fuel : Nat) (w : World) (self : Nat) (w1 : World), HeaderBuffers w →
      coordinate send fuel w self = some w1 →
      ∃ tr, w1.trace = w.trace ++ tr ∧ HeadersCarry (some code) tr ∧ HeaderBuffers w1 := by
  intro fuel
  induction fuel with
  | zero =>
    intro w self w1 _ h
    simp [coordinate] at h
  | succ fuel ih =>
    intro w self w1 hw h
    have hfold : ∀ (l : List Nat) (wa wb : World), HeaderBuffers wa →
        l.foldlM (fun (w3 : World) (q : Nat) =>
          if q ≠ self then coordinate send fuel w3 q else some w3) wa = some wb →
        ∃ tr, wb.trace = wa.trace ++ tr ∧ HeadersCarry (some code) tr ∧ HeaderBuffers wb := by
      intro l
      induction l with
      | nil =>
        intro wa wb hwa hf
        simp only [List.foldlM_nil, Option.pure_def, Option.some.injEq] at hf
        subst hf
        exact ⟨[], by simp, headersCarry_nil _, hwa⟩
      | cons q rest ihl =>
        intro wa wb hwa hf
        simp only [List.foldlM_cons, Option.bind_eq_bind, Option.bind_eq_some] at hf
        obtain ⟨wm, hq, hrest⟩ := hf
        by_cases hne : q ≠ self
        · rw [if_pos hne] at hq
          obtain ⟨tr1, a1, b1, c1⟩ := ih wa q wm hwa hq
          obtain ⟨tr2, a2, b2, c2⟩ := ihl wm wb c1 hrest
          exact ⟨tr1 ++ tr2, by rw [a2, a1, List.append_assoc], headersCarry_append b1 b2, c2⟩
        · rw [if_neg hne] at hq
          simp only [Option.some.injEq] at hq
          subst hq
          exact ihl wa wb hwa hrest
    unfold coordinate at h
    by_cases hfreed : self ∈ w.freed
    · rw [if_pos hfreed] at h
      cases h
    rw [if_neg hfreed] at h
    simp only at h
    have henter : HeadersCarry (some code) [Step.enter self] := by
      simp [HeadersCarry, Step.opcode]
    have hw0 : HeaderBuffers
        { w with count := w.count + 1, trace := w.trace ++ [Step.enter self] } := hw
    split_ifs at h with c1 c2 c3
    · split at h
      · exact absurd h (by simp)
      · rename_i w2 hs
        obtain ⟨data, a, b, c⟩ := hsend _ _ _ hw0 hs
        have hw2 : HeaderBuffers { w2 with trace := w2.trace ++ [Step.fanOut self] } := c
        obtain ⟨tr, a2, b2, c2⟩ := hfold _ _ _ hw2 h
        refine ⟨[Step.enter self] ++ [Step.sendID self data] ++ [Step.fanOut self] ++ tr, ?_, ?_,
          c2⟩
        · rw [a2]
          simp only [a, List.append_assoc]
        · refine headersCarry_append (headersCarry_append (headersCarry_append henter ?_) ?_) b2
          · simp [HeadersCarry, Step.opcode, b]
          · simp [HeadersCarry, Step.opcode]
    · obtain ⟨data, a, b, c⟩ := hsend _ _ _ hw0 h
      refine ⟨[Step.enter self] ++ [Step.sendID self data], ?_, ?_, c⟩
      · rw [a]
        simp only [List.append_assoc]
      · refine headersCarry_append henter ?_
        simp [HeadersCarry, Step.opcode, b]
    · simp only [Option.some.injEq] at h
      rw [← h]
      exact ⟨[Step.enter self], rfl, henter, hw⟩
    · simp only [Option.some.injEq] at h
      rw [← h]
      exact ⟨[Step.enter self], rfl, henter, hw⟩

/-- An object with a 4-slot buffer allocated in a process in which every proxy
has one. -/
theorem allocate_buffers (w w1 : World) (this : Nat) (p : ShadowSubdomain)
    (hw : HeaderBuffers w) (hp : p.msgData.length = 4) (h : w.allocate this p = some w1) :
    HeaderBuffers w1 ∧ w1.trace = w.trace := by
  unfold World.allocate at h
  by_cases h1 : this = w.proxies.length
  · rw [if_pos h1, Option.some.injEq] at h
    rw [← h]
    refine ⟨?_, rfl⟩
    intro q hq
    have hq2 : q ∈ w.proxies ++ [p] := hq
    rw [List.mem_append, List.mem_singleton] at hq2
    rcases hq2 with hq2 | hq2
    · exact hw q hq2
    · rw [hq2]; exact hp
  · rw [if_neg h1] at h
    by_cases h2 : this ∈ w.freed
    · rw [if_pos h2, Option.some.injEq] at h
      rw [← h]
      refine ⟨?_, rfl⟩
      intro q hq
      have hq2 : q ∈ w.proxies.set this p := hq
      rcases List.mem_or_eq_of_mem_set hq2 with hq2 | hq2
      · exact hw q hq2
      · rw [hq2]; exact hp
    · rw [if_neg h2] at h
      cases h

/-- The destructor in the process-wide state: one header, with the die code. -/
theorem destroy_headers (codes : ShadowActorCodes) (w w1 : World) (self : Nat)
    (hw : HeaderBuffers w) (h : ShadowSubdomain.destroy codes w self = some w1) :
    ∃ data, w1.trace = w.trace ++ [Step.sendID self data] ∧ idAt data 0 = codes.DIE ∧
      HeaderBuffers w1 := by
  unfold ShadowSubdomain.destroy World.call World.object at h
  by_cases hf : self ∈ w.freed
  · simp [hf] at h
  · rw [if_neg hf] at h
    cases hp : w.proxies[self]? with
    | none => simp [hp] at h
    | some p =>
      simp only [hp, Option.some.injEq] at h
      have hlen : p.msgData.length = 4 := hw p (List.getElem?_mem hp)
      obtain ⟨x0, x1, x2, x3, hl⟩ := four_slots p.msgData hlen
      rw [← h]
      refine ⟨p.msgData.set 0 codes.DIE, rfl, by simp [hl, idAt], ?_⟩
      intro q hq
      have hq2 : q ∈ w.proxies.set self (destructor codes self p).proxy := hq
      rcases List.mem_or_eq_of_mem_set hq2 with hq2 | hq2
      · exact hw q hq2
      · rw [hq2]; simp [destructor, hl]

/-- One invocation that returns, from a state in which every proxy has its
4-slot buffer: its two groups of steps make up what it appended to the trace,
the headers of the nested call carry the get-remote-data code, the other
headers the code of the invoked member function, and every proxy still has its
4-slot buffer. -/
theorem invoke_headers (codes : ShadowActorCodes) (broker : FEM_ObjectBroker) (fuel : Nat)
    (w : World) (inv : Invocation) (w1 : World) (e : Entry) (hw : HeaderBuffers w)
    (h : invoke codes broker fuel w inv = some (w1, e)) :
    w1.trace = w.trace ++ (e.fetch ++ e.own) ∧ e.invocation = inv ∧
      HeadersCarry (some codes.getRemoteData) e.fetch ∧
      HeadersCarry (inv.code codes) e.own ∧ HeaderBuffers w1 := by
  cases inv with
  | construct tag this =>
    simp only [invoke, ShadowSubdomain.construct] at h
    cases ha : w.allocate this (ShadowSubdomain.fresh tag) with
    | none => simp [ha] at h
    | some wa =>
      simp only [ha, Option.some.injEq, Prod.mk.injEq] at h
      obtain ⟨rfl, rfl⟩ := h
      obtain ⟨a1, a2⟩ := allocate_buffers w wa this (ShadowSubdomain.fresh tag) hw rfl ha
      refine ⟨?_, rfl, headersCarry_nil _, headersCarry_nil _, a1⟩
      show wa.trace = w.trace ++ ([] ++ [])
      rw [a2]
      simp
  | constructOnMachine tag this =>
    simp only [invoke, ShadowSubdomain.constructOnMachine] at h
    have hfresh : ({ ShadowSubdomain.fresh tag with
        msgData := ((ShadowSubdomain.fresh tag).msgData.set 0 codes.setTag).set 1 tag } :
          ShadowSubdomain).msgData.length = 4 := by
      simp [ShadowSubdomain.fresh]
    generalize hp : ({ ShadowSubdomain.fresh tag with
      msgData := ((ShadowSubdomain.fresh tag).msgData.set 0 codes.setTag).set 1 tag } :
        ShadowSubdomain) = p at h hfresh
    cases ha : w.allocate this p with
    | none => simp [ha] at h
    | some wa =>
      simp only [ha, Option.some.injEq, Prod.mk.injEq] at h
      obtain ⟨rfl, rfl⟩ := h
      obtain ⟨a1, a2⟩ := allocate_buffers w wa this _ hw hfresh ha
      refine ⟨?_, rfl, headersCarry_nil _, ?_, a1⟩
      · simp only [a2, List.drop_left, List.nil_append]
      · simp only [a2, List.drop_left]
        simp [HeadersCarry, Step.opcode, Invocation.code, ShadowSubdomain.fresh, idAt]
  | destroy self =>
    simp only [invoke] at h
    cases hd : ShadowSubdomain.destroy codes w self with
    | none => simp [hd] at h
    | some w2 =>
      simp only [hd, Option.some.injEq, Prod.mk.injEq] at h
      obtain ⟨rfl, rfl⟩ := h
      obtain ⟨data, a, b, c⟩ := destroy_headers codes w w2 self hw hd
      refine ⟨?_, rfl, headersCarry_nil _, ?_, c⟩
      · simp only [a, List.drop_left, List.nil_append]
      · simp only [a, List.drop_left]
        simp [HeadersCarry, Step.opcode, Invocation.code, b]
  | member self op =>
    simp only [invoke, World.object] at h
    by_cases hfreed : self ∈ w.freed
    · simp [hfreed] at h
    rw [if_neg hfreed] at h
    cases hp : w.proxies[self]? with
    | none => simp [hp] at h
    | some p =>
      cases hc : perform codes broker self p op with
      | none => simp [hp, hc] at h
      | some c =>
        simp only [hp, hc, Option.some.injEq, Prod.mk.injEq] at h
        obtain ⟨rfl, rfl⟩ := h
        have hlen : p.msgData.length = 4 := hw p (List.getElem?_mem hp)
        obtain ⟨a, b, own, hsteps, hown⟩ := perform_headers codes broker self p op c hlen hc
        have hdrop : c.steps.drop (fetchSteps codes self p op).length = own := by
          rw [hsteps, List.drop_left]
        refine ⟨?_, rfl, b, ?_, ?_⟩
        · simp only [hdrop]
          rw [hsteps]
        · simp only [hdrop]
          exact hown
        · intro q hq
          rcases List.mem_or_eq_of_mem_set hq with hq | hq
          · exact hw q hq
          · rw [hq]; exact a
  | computeTang self =>
    simp only [invoke] at h
    cases hc : computeTang codes fuel w self with
    | none => simp [hc] at h
    | some w2 =>
      simp only [hc, Option.some.injEq, Prod.mk.injEq] at h
      obtain ⟨rfl, rfl⟩ := h
      rw [computeTang_eq_coordinate] at hc
      obtain ⟨tr, a, b, c⟩ :=
        coordinate_headers (sendTagged_headers codes.computeTang) fuel w self w2 hw hc
      refine ⟨?_, rfl, headersCarry_nil _, ?_, c⟩
      · simp only [a, List.drop_left, List.nil_append]
      · simp only [a, List.drop_left]
        exact b
  | computeResidual self =>
    simp only [invoke] at h
    cases hc : computeResidual codes fuel w self with
    | none => simp [hc] at h
    | some w2 =>
      simp only [hc, Option.some.injEq, Prod.mk.injEq] at h
      obtain ⟨rfl, rfl⟩ := h
      rw [computeResidual_eq_coordinate] at hc
      obtain ⟨tr, a, b, c⟩ :=
        coordinate_headers (sendCode_headers codes.computeResidual) fuel w self w2 hw hc
      refine ⟨?_, rfl, headersCarry_nil _, ?_, c⟩
      · simp only [a, List.drop_left, List.nil_append]
      · simp only [a, List.drop_left]
        exact b

/-- A run of invocations that returns, from a state in which every proxy has
its 4-slot buffer. -/
theorem invokeAll_headers (codes : ShadowActorCodes) (broker : FEM_ObjectBroker) (fuel : Nat) :
    ∀ (invs : List Invocation) (w w1 : World) (log : List Entry), HeaderBuffers w →
      invokeAll codes broker fuel w invs = some (w1, log) →
      w1.trace = w.trace ++ (log.map (fun e => e.fetch ++ e.own)).flatten ∧
        log.map Entry.invocation = invs ∧
        (∀ e ∈ log, HeadersCarry (some codes.getRemoteData) e.fetch ∧
          HeadersCarry (e.invocation.code codes) e.own) ∧
        HeaderBuffers w1 := by
  intro invs
  induction invs with
  | nil =>
    intro w w1 log hw h
    simp only [invokeAll, Option.some.injEq, Prod.mk.injEq] at h
    obtain ⟨rfl, rfl⟩ := h
    simp [hw]
  | cons inv rest ih =>
    intro w w1 log hw h
    unfold invokeAll at h
    cases h1 : invoke codes broker fuel w inv with
    | none => simp [h1] at h
    | some r =>
      obtain ⟨wm, e⟩ := r
      obtain ⟨a, b, c, d, f⟩ := invoke_headers codes broker fuel w inv wm e hw h1
      cases h2 : invokeAll codes broker fuel wm rest with
      | none => simp [h1, h2] at h
      | some r2 =>
        obtain ⟨w2, log2⟩ := r2
        simp only [h1, h2, Option.some.injEq, Prod.mk.injEq] at h
        obtain ⟨rfl, rfl⟩ := h
        obtain ⟨a2, b2, c2, d2⟩ := ih wm w2 log2 f h2
        refine ⟨?_, ?_, ?_, d2⟩
        · rw [a2, a]
          simp only [List.map_cons, List.flatten_cons, List.append_assoc]
        · simp only [List.map_cons, b, b2]
        · intro e1 he1
          rcases List.mem_cons.mp he1 with rfl | he1
          · exact ⟨c, by rw [b]; exact d⟩
          · exact c2 e1 he1


/-- C26: the header opcode invariant.  From any state of the process in which
every proxy has its 4-slot header buffer (whatever the buffers hold and
whatever messages the workers have sent or will send), for every sequence of
invocations that returns (constructions, destructions, any member function of
any proxy, `computeTang`, `computeResidual`): the log splits what the run
appended to the trace, invocation by invocation; every header sent by a nested
call of `getRemoteData` has the get-remote-data code in slot 0, and every other
header has in slot 0 the operation code of the member function invoked, never a value
left in the buffer by an earlier operation or by a reply received into it;
and every proxy still has its 4-slot buffer. -/
theorem header_opcode_invariant (codes : ShadowActorCodes) (broker : FEM_ObjectBroker)
    (fuel : Nat) (w : World) (invs : List Invocation) (w1 : World) (log : List Entry)
    (hw : HeaderBuffers w) (hrun : invokeAll codes broker fuel w invs = some (w1, log)) :
    w1.trace = w.trace ++ (log.map (fun e => e.fetch ++ e.own)).flatten ∧
    log.map Entry.invocation = invs ∧
    (∀ e ∈ log,
      (∀ self data, Step.sendID self data ∈ e.fetch → idAt data 0 = codes.getRemoteData) ∧
      (∀ self data, Step.sendID self data ∈ e.own →
        e.invocation.code codes = some (idAt data 0))) ∧
    HeaderBuffers w1 := by
  obtain ⟨a, b, c, d⟩ := invokeAll_headers codes broker fuel invs w w1 log hw hrun
  refine ⟨a, b, fun e he => ⟨fun self data hmem => ?_, fun self data hmem => ?_⟩, d⟩
  · have := (c e he).1 _ hmem (idAt data 0) rfl
    simp only [Option.some.injEq] at this
    exact this.symm
  · exact (c e he).2 _ hmem (idAt data 0) rfl

/-- Ten invocations on two proxies whose headers hold leftovers in between: the
reply `[1, 3, 0, 0]` of the fetch, the reply `[9, 9, 9, 9]` to `Print`.  Slot 0
of every header is the code of the member function that sends it. -/
theorem header_opcode_invariant_witness :
    (HeaderBuffers headerWorld ∧
      invokeAll exampleCodes fullBroker 2 headerWorld headerRun =
        some (headerResult.1, headerResult.2)) ∧
    (headerResult.1.trace =
        headerWorld.trace ++ (headerResult.2.map (fun e => e.fetch ++ e.own)).flatten ∧
      headerResult.2.map Entry.invocation = headerRun ∧
      (∀ e ∈ headerResult.2,
        (∀ self data, Step.sendID self data ∈ e.fetch →
          idAt data 0 = exampleCodes.getRemoteData) ∧
        (∀ self data, Step.sendID self data ∈ e.own →
          e.invocation.code exampleCodes = some (idAt data 0))) ∧
      HeaderBuffers headerResult.1) ∧
    headerResult.2.map (fun e => (e.invocation.code exampleCodes, e.fetch, e.own)) =
      [(some 5, [], [Step.sendID 0 [5, 11, 21, 0],
          Step.sendObject 0 (MovableObject.element elementFive),
          Step.delete 0 (MovableObject.element elementFive)]),
        (some 3, [], [Step.sendID 0 [3, 77, 2, 1],
          Step.sendObject 0 (MovableObject.builder exampleBuilder)]),
        (some 42, [Step.sendID 0 [4, 77, 2, 1], Step.recvID 0 [1, 3, 0, 0], Step.recvID 0 [7]],
          [Step.sendID 0 [42, 3, 0, 0], Step.recvMatrix 0]),
        (some 14, [], [Step.removeValue 0 Index.elements 5, Step.sendID 0 [14, 5, 0, 0],
          Step.recvID 0 [-1, 0, 0, 0]]),
        (some 29, [], []),
        (some 39, [], [Step.enter 1, Step.sendID 1 [39, 2, 0, 0], Step.fanOut 1, Step.enter 0,
          Step.sendID 0 [39, 1, 0, 0]]),
        (some 45, [], [Step.sendID 0 [45, 1, 0, 0], Step.recvID 0 [9, 9, 9, 9]]),
        (some 32, [], [Step.sendID 0 [32, 9, 9, 9]]),
        (some 1, [], [Step.sendID 2 [1, 3, 0, 0]]),
        (some 46, [], [Step.sendID 0 [46, 9, 9, 9]])] :=
  ⟨⟨by
      intro p hp
      simp only [headerWorld, List.mem_cons, List.mem_singleton, List.not_mem_nil,
        or_false] at hp
      rcases hp with rfl | rfl <;> rfl,
    rfl⟩,
   header_opcode_invariant exampleCodes fullBroker 2 headerWorld headerRun headerResult.1
     headerResult.2
     (by
      intro p hp
      simp only [headerWorld, List.mem_cons, List.mem_singleton, List.not_mem_nil,
        or_false] at hp
      rcases hp with rfl | rfl <;> rfl)
     rfl,
   by decide⟩

end OpenSees
